import Mathlib

set_option autoImplicit false

/-!
# A verification development for the `my_malloc` allocators

Shallow embedding of `src/my_malloc.c` (first-fit / best-fit, single threaded) and of
`src/project2/my_malloc/my_malloc.c` (locked and lock-free-reclamation variants).

Modelling conventions
* The target is LP64: `size_t`, `unsigned long` and pointers are 64 bit wide, so every
  C arithmetic operation on them is taken modulo `WORD = 2^64`; `sizeof(BlockHeader)`
  is `HDR = 24` (8 byte size, 4 byte flag, 4 byte padding, 8 byte pointer).
* A pointer is a natural number, `0` is `NULL`.
* A block header living at address `addr` is the record `BlockHeader`; the `next`
  field is not stored: an intrusive singly linked list is the Lean list of its nodes
  in link order, `next` of a node being the node that follows it.
* Global variables are fields of an explicit state record. The headers that sit in
  front of payloads handed out to the caller are memory contents too: the state keeps
  them in the list `used`, the most recently written first, and `free` looks the
  header up there. A `free` of a pointer without such a header is undefined behaviour
  in C and `none` in the model.
* `sbrk` is the only way the allocators talk to the operating system: the state holds
  the program break and the range of breaks the kernel accepts, and the allocator is
  the only caller. The break of a process is never the null address.
* Headers are records, so a store to one header never changes another. In the machine
  this is so as long as the byte ranges of the headers do not overlap, and they can
  overlap only after a request for which `sizeof(BlockHeader) + payload` wraps around
  or is negative as an `intptr_t`. The predicate `Op.small` excludes these requests.
  Where such a request makes a store through one header change a field of another,
  the call sequence is evaluated over the byte-addressed memory of `Project2.Mem`, a
  second embedding of the second file in which the fields of a header are bytes.
* Executions of the second file are sequential: a call runs to completion before the
  next one starts, and every call of the lock-free variant names its thread. The one
  exception is the section on the reclamation stack under interleaving, where
  `reclaim_push` and `reclaim_pop` are taken statement by statement and threads take
  turns in any order.
-/

namespace MyMalloc

/-- Modulus of `size_t` and pointer arithmetic: `2^64`. -/
abbrev WORD : Nat := 18446744073709551616

/-- The constant `SIZE_MAX` of `stdint.h`: `2^64 - 1`. -/
abbrev SIZE_MAX : Nat := 18446744073709551615

/-- The value of `sizeof(BlockHeader)`. -/
abbrev HDR : Nat := 24

/-- Subtraction of two `size_t` / pointer values, modulo `2^64`. -/
def wsub (a b : Nat) : Nat := (a + (WORD - b % WORD)) % WORD

/-- Header of the block whose header address is `addr`:
`struct BlockHeader { size_t size; int free; struct BlockHeader * next; }`. -/
structure BlockHeader where
  addr : Nat
  size : Nat
  free : Bool
deriving DecidableEq, Repr

/-- Payload address `(void *)(b + 1)`. -/
def BlockHeader.payload (b : BlockHeader) : Nat := (b.addr + HDR) % WORD

/-- One past the last payload byte, as the C code computes it:
`(char *)(b + 1) + b->size`. -/
def BlockHeader.b_end (b : BlockHeader) : Nat := (b.addr + HDR + b.size) % WORD

/-- The C function `align8`: `(n + 7u) & ~(size_t)7u`. -/
def align8 (n : Nat) : Nat := ((n + 7) % WORD) &&& (WORD - 8)

/-! ## The program break -/

/-- State of the operating system's data segment: the current break and the lowest and
highest break the kernel accepts. -/
structure OS where
  brk : Nat
  lo : Nat
  hi : Nat
deriving DecidableEq, Repr

/-- The libc primitive `sbrk(inc)` (glibc on Linux); `none` stands for `(void *)-1`.
* `sbrk(0)` returns the break.
* A positive increment fails, without moving the break, when the new break is not
  representable or the kernel does not accept it; otherwise the break moves and the
  previous break is returned.
* A negative increment fails when it is larger than the break. Otherwise the kernel is
  asked for the lower break: it moves the break when the new one is not below the
  lowest break it accepts, and leaves the break where it is when it is; libc returns
  the previous break in both cases. -/
def sbrk (os : OS) (inc : Int) : Option Nat × OS :=
  if inc = 0 then (some os.brk, os)
  else if 0 < inc then
    if (os.brk : Int) + inc < (WORD : Int) ∧ (os.lo : Int) ≤ (os.brk : Int) + inc ∧
        (os.brk : Int) + inc ≤ (os.hi : Int) then
      (some os.brk, { os with brk := ((os.brk : Int) + inc).toNat })
    else (none, os)
  else if (os.brk : Int) + inc < 0 then (none, os)
  else if (os.lo : Int) ≤ (os.brk : Int) + inc then
    (some os.brk, { os with brk := ((os.brk : Int) + inc).toNat })
  else (some os.brk, os)

/-- The cast `(intptr_t)total` of a `size_t` value. -/
def toIntptr (n : Nat) : Int :=
  if n % WORD < 9223372036854775808 then ((n % WORD : Nat) : Int)
  else ((n % WORD : Nat) : Int) - (WORD : Int)

/-! ## `src/my_malloc.c` -/

/-- Global variables of `src/my_malloc.c` (`free_list`, `heap_start`, `heap_end`), the
state of the program break, and `used`: the headers currently stored in front of the
payloads that were handed out (most recently written first). -/
structure State where
  free_list : List BlockHeader
  heap_start : Nat
  heap_end : Nat
  os : OS
  used : List BlockHeader
deriving DecidableEq, Repr

/-- The allocator before its first call, on a given program break. -/
def fresh (os : OS) : State :=
  { free_list := [], heap_start := 0, heap_end := 0, os := os, used := [] }

/-- The C function `record_heap_bounds`. -/
def record_heap_bounds (s : State) (old_brk inc : Nat) : State :=
  { s with
    heap_start := if s.heap_start = 0 then old_brk else s.heap_start
    heap_end := (old_brk + inc) % WORD }

/-- The C function `request_from_os`; the new header is also recorded in `used`, since
the block is handed to the caller by every caller of this function. -/
def request_from_os (s : State) (payload : Nat) : Option BlockHeader × State :=
  let total := (HDR + payload) % WORD
  match sbrk s.os 0 with
  | (none, os1) => (none, { s with os := os1 })
  | (some old, os1) =>
    match sbrk os1 (toIntptr total) with
    | (none, os2) => (none, { s with os := os2 })
    | (some res, os2) =>
      let s1 := record_heap_bounds { s with os := os2 } old total
      let b : BlockHeader := { addr := res, size := payload, free := false }
      (some b, { s1 with used := b :: s1.used })

/-- The C function `coalesce_around`, called on a node `b` whose successors in the
list are `rest`; returns the list from `b` on. -/
def coalesce_around (b : BlockHeader) : List BlockHeader → List BlockHeader
  | [] => [b]
  | n :: rest =>
    if b.b_end = n.addr then
      coalesce_around { b with size := (b.size + (HDR + n.size)) % WORD } rest
    else b :: n :: rest

/-- The walk of `ff_free` from the node `p` (whose successors are `rest`) to the
insertion point of `b`, the insertion and the two coalescing calls; returns the list
from `p` on. -/
def ff_free_walk (p : BlockHeader) (rest : List BlockHeader) (b : BlockHeader) :
    List BlockHeader :=
  match rest with
  | [] => coalesce_around p (coalesce_around b [])
  | n :: rest1 =>
    if n.addr < b.addr then p :: ff_free_walk n rest1 b
    else coalesce_around p (coalesce_around b (n :: rest1))

/-- The body of the C function `ff_free` once the header `b` has been recovered from
the pointer: the effect on the free list. -/
def ff_free_list (fl : List BlockHeader) (b0 : BlockHeader) : List BlockHeader :=
  let b : BlockHeader := { b0 with free := true }
  match fl with
  | [] => coalesce_around b []
  | h :: t => if b.addr < h.addr then coalesce_around b (h :: t) else ff_free_walk h t b

/-- The C function `remove_from_free_list`; the node is identified by its address. -/
def remove_from_free_list : List BlockHeader → Nat → List BlockHeader
  | [], _ => []
  | h :: t, a => if h.addr = a then t else h :: remove_from_free_list t a

/-- The C function `maybe_split`: returns the header of `b` after the call and the
free list after the call. The tail `nb` is handed to `ff_free` through its payload
pointer, and `ff_free` returns at once when that pointer is `NULL`; otherwise it
recovers the header `nb` that was just written and inserts it. -/
def maybe_split (fl : List BlockHeader) (b : BlockHeader) (need : Nat) :
    BlockHeader × List BlockHeader :=
  if b.size < (need + HDR + 8) % WORD then (b, fl)
  else
    let nb : BlockHeader :=
      { addr := (b.payload + need) % WORD, size := wsub (wsub b.size need) HDR, free := true }
    ({ b with size := need }, if nb.payload = 0 then fl else ff_free_list fl nb)

/-- The first-fit loop of `ff_malloc`. -/
def ff_search : List BlockHeader → Nat → Option BlockHeader
  | [], _ => none
  | b :: t, need => if b.free = true ∧ b.size ≥ need then some b else ff_search t need

/-- The C function `ff_malloc`; returns the pointer (`0` is `NULL`) and the new state. -/
def ff_malloc (s : State) (size : Nat) : Nat × State :=
  if size = 0 then (0, s)
  else
    let need := align8 size
    match ff_search s.free_list need with
    | some b =>
      let r := maybe_split (remove_from_free_list s.free_list b.addr)
        { b with free := false } need
      (r.1.payload, { s with free_list := r.2, used := r.1 :: s.used })
    | none =>
      match request_from_os s need with
      | (none, s1) => (0, s1)
      | (some nb, s1) => (nb.payload, s1)

/-- Removal of the first header stored at address `a` from the record of handed-out
blocks. -/
def forget : List BlockHeader → Nat → List BlockHeader
  | [], _ => []
  | h :: t, a => if h.addr = a then t else h :: forget t a

/-- The header stored at address `a` in front of a handed-out payload, if any. -/
def lookup : List BlockHeader → Nat → Option BlockHeader
  | [], _ => none
  | h :: t, a => if h.addr = a then some h else lookup t a

/-- The C function `ff_free`. Freeing a pointer that is not the payload of a block
currently handed out is undefined in C: the model answers `none`. -/
def ff_free (s : State) (ptr : Nat) : Option State :=
  if ptr = 0 then some s
  else
    match lookup s.used (wsub ptr HDR) with
    | none => none
    | some b =>
      some { s with free_list := ff_free_list s.free_list b
                    used := forget s.used (wsub ptr HDR) }

/-- The best-fit loop of `bf_malloc`, from the current `best` / `best_size`; returns
the final `best` and `best_size`. -/
def bf_search : List BlockHeader → Nat → Option BlockHeader → Nat → Option BlockHeader × Nat
  | [], _, best, best_size => (best, best_size)
  | b :: t, need, best, best_size =>
    if b.free = true ∧ b.size ≥ need then
      if best_size > b.size then
        if b.size = need then (some b, b.size)
        else bf_search t need (some b) b.size
      else bf_search t need best best_size
    else bf_search t need best best_size

/-- The C function `bf_malloc`. The loop leaves `best` set whenever it leaves
`best_size` below `SIZE_MAX`, so the branch with `best_size < SIZE_MAX` and `best`
unset is never taken; the model answers `NULL` there. -/
def bf_malloc (s : State) (size : Nat) : Nat × State :=
  if size = 0 then (0, s)
  else
    let need := align8 size
    let found := bf_search s.free_list need none SIZE_MAX
    if found.2 < SIZE_MAX then
      match found.1 with
      | some best =>
        let r := maybe_split (remove_from_free_list s.free_list best.addr)
          { best with free := false } need
        (r.1.payload, { s with free_list := r.2, used := r.1 :: s.used })
      | none => (0, s)
    else
      match request_from_os s need with
      | (none, s1) => (0, s1)
      | (some nb, s1) => (nb.payload, s1)

/-- The C function `bf_free`. -/
def bf_free (s : State) (ptr : Nat) : Option State := ff_free s ptr

/-- The C function `get_data_segment_size`. -/
def get_data_segment_size (s : State) : Nat :=
  if s.heap_start = 0 ∨ s.heap_end = 0 then 0 else wsub s.heap_end s.heap_start

/-- The C function `get_data_segment_free_space_size`. -/
def get_data_segment_free_space_size (s : State) : Nat :=
  s.free_list.foldl (fun sum b => if b.free = true then (sum + b.size) % WORD else sum) 0

/-! ### Call sequences on `src/my_malloc.c` -/

/-- A call of one of the four public allocation functions of `src/my_malloc.c`. -/
inductive Op where
  | ff_malloc (size : Nat)
  | bf_malloc (size : Nat)
  | ff_free (ptr : Nat)
  | bf_free (ptr : Nat)
deriving DecidableEq, Repr

/-- For an allocation of `size` bytes, the header size plus `align8(size)` is below
`2^63`: the sum `sizeof(BlockHeader) + payload` of `request_from_os` does not wrap and
its cast to `intptr_t` is positive. A free satisfies it. -/
def Op.small : Op → Bool
  | .ff_malloc size => decide (HDR + align8 size < 9223372036854775808)
  | .bf_malloc size => decide (HDR + align8 size < 9223372036854775808)
  | .ff_free _ => true
  | .bf_free _ => true

/-- One call: the pointer it returns (for the two allocation functions) and the state
it leaves; `none` when the call is undefined. -/
def step (s : State) : Op → Option (Option Nat × State)
  | .ff_malloc size => some (some (ff_malloc s size).1, (ff_malloc s size).2)
  | .bf_malloc size => some (some (bf_malloc s size).1, (bf_malloc s size).2)
  | .ff_free ptr => (ff_free s ptr).map (fun s1 => (none, s1))
  | .bf_free ptr => (bf_free s ptr).map (fun s1 => (none, s1))

/-- A sequence of calls: the pointers returned by its allocations, in call order, and
the final state; `none` when one of the calls is undefined. -/
def run (s : State) : List Op → Option (List Nat × State)
  | [] => some ([], s)
  | op :: ops =>
    match step s op with
    | none => none
    | some (r, s1) =>
      match run s1 ops with
      | none => none
      | some (out, s2) => some (r.toList ++ out, s2)

end MyMalloc

/-! ## `src/project2/my_malloc/my_malloc.c` -/

namespace Project2

open MyMalloc (WORD SIZE_MAX HDR wsub BlockHeader OS sbrk toIntptr forget lookup)

/-- The C function `align8` of the second file. -/
def align8 (n : Nat) : Nat := ((n + 7) % WORD) &&& (WORD - 8)

/-- Global variables of `src/project2/my_malloc/my_malloc.c`: the lock-guarded
`free_list`, the thread-local `tls_free_list` (one list per thread identifier), the
stack `global_reclaim` (top first), `heap_start`, `heap_end`; the program break; and
`used`, the headers stored in front of the payloads that were handed out. The two
mutexes are not part of the state: executions are sequential, each call runs to
completion before the next one starts. -/
structure State where
  free_list : List BlockHeader
  tls_free_list : Nat → List BlockHeader
  global_reclaim : List BlockHeader
  heap_start : Nat
  heap_end : Nat
  os : OS
  used : List BlockHeader

/-- The allocator before its first call, on a given program break. -/
def fresh (os : OS) : State :=
  { free_list := [], tls_free_list := fun _ => [], global_reclaim := [],
    heap_start := 0, heap_end := 0, os := os, used := [] }

/-- Assignment to the thread-local variable `tls_free_list` of thread `t`. -/
def State.set_tls (s : State) (t : Nat) (l : List BlockHeader) : State :=
  { s with tls_free_list := fun u => if u = t then l else s.tls_free_list u }

/-- The C function `record_heap_bounds`. -/
def record_heap_bounds (s : State) (old_brk inc : Nat) : State :=
  { s with
    heap_start := if s.heap_start = 0 then old_brk else s.heap_start
    heap_end := (old_brk + inc) % WORD }

/-- The C function `request_from_os`; the new header is also recorded in `used`. -/
def request_from_os (s : State) (payload : Nat) : Option BlockHeader × State :=
  let total := (HDR + payload) % WORD
  match sbrk s.os 0 with
  | (none, os1) => (none, { s with os := os1 })
  | (some old, os1) =>
    match sbrk os1 (toIntptr total) with
    | (none, os2) => (none, { s with os := os2 })
    | (some res, os2) =>
      let s1 := record_heap_bounds { s with os := os2 } old total
      let b : BlockHeader := { addr := res, size := payload, free := false }
      (some b, { s1 with used := b :: s1.used })

/-- The C function `reclaim_push`. Without interference the compare-and-swap succeeds
in the first round of the loop. -/
def reclaim_push (s : State) (b : BlockHeader) : State :=
  { s with global_reclaim := b :: s.global_reclaim }

/-- The C function `reclaim_pop`. Without interference the compare-and-swap succeeds
in the first round of the loop. -/
def reclaim_pop (s : State) : Option BlockHeader × State :=
  match s.global_reclaim with
  | [] => (none, s)
  | old :: next => (some old, { s with global_reclaim := next })

/-- The C function `remove_from_list`; the node is identified by its address. -/
def remove_from_list : List BlockHeader → Nat → List BlockHeader
  | [], _ => []
  | h :: t, a => if h.addr = a then t else h :: remove_from_list t a

/-- The C function `coalesce_around_list`, called on a node `b` whose successors in
the list are `rest`; returns the list from `b` on. -/
def coalesce_around_list (b : BlockHeader) : List BlockHeader → List BlockHeader
  | [] => [b]
  | n :: rest =>
    if b.b_end = n.addr then
      coalesce_around_list { b with size := (b.size + (HDR + n.size)) % WORD } rest
    else b :: n :: rest

/-- The walk of `insert_free_sorted_list` from the node `p` (whose successors are
`rest`) to the insertion point of `b`, the insertion and the two coalescing calls. -/
def insert_walk (p : BlockHeader) (rest : List BlockHeader) (b : BlockHeader) :
    List BlockHeader :=
  match rest with
  | [] => coalesce_around_list p (coalesce_around_list b [])
  | n :: rest1 =>
    if n.addr < b.addr then p :: insert_walk n rest1 b
    else coalesce_around_list p (coalesce_around_list b (n :: rest1))

/-- The C function `insert_free_sorted_list`: the list `*head` after the call. -/
def insert_free_sorted_list (head : List BlockHeader) (b0 : BlockHeader) :
    List BlockHeader :=
  let b : BlockHeader := { b0 with free := true }
  match head with
  | [] => coalesce_around_list b []
  | h :: t =>
    if b.addr < h.addr then coalesce_around_list b (h :: t) else insert_walk h t b

/-- The C function `maybe_split_into_list`: the header of `b` and the list `*head`
after the call. -/
def maybe_split_into_list (b : BlockHeader) (need : Nat) (head : List BlockHeader) :
    BlockHeader × List BlockHeader :=
  if b.size < (need + HDR + 8) % WORD then (b, head)
  else
    let nb : BlockHeader :=
      { addr := (b.payload + need) % WORD, size := wsub (wsub b.size need) HDR, free := true }
    ({ b with size := need }, insert_free_sorted_list head nb)

/-- The loop of `find_best_fit_list`, from the current `best` / `best_size`. -/
def find_best_fit_loop : List BlockHeader → Nat → Option BlockHeader → Nat →
    Option BlockHeader
  | [], _, best, _ => best
  | b :: t, need, best, best_size =>
    if b.free = true ∧ b.size ≥ need ∧ b.size < best_size then
      if b.size = need then some b
      else find_best_fit_loop t need (some b) b.size
    else find_best_fit_loop t need best best_size

/-- The C function `find_best_fit_list`. -/
def find_best_fit_list (head : List BlockHeader) (need : Nat) : Option BlockHeader :=
  find_best_fit_loop head need none SIZE_MAX

/-- The C function `reclaim_drain_to_tls`, run by thread `t`; `max_take` counts the
rounds of the loop that are left. -/
def reclaim_drain_to_tls (s : State) (t : Nat) : Nat → State
  | 0 => s
  | max_take + 1 =>
    match reclaim_pop s with
    | (none, s1) => s1
    | (some b, s1) =>
      reclaim_drain_to_tls
        (s1.set_tls t (insert_free_sorted_list (s1.tls_free_list t) b)) t max_take

/-- The C function `ts_free_nolock`, called by any thread. Freeing a pointer that is
not the payload of a block currently handed out is undefined: the model answers
`none`. -/
def ts_free_nolock (s : State) (ptr : Nat) : Option State :=
  if ptr = 0 then some s
  else
    match lookup s.used (wsub ptr HDR) with
    | none => none
    | some b =>
      some (reclaim_push { s with used := forget s.used (wsub ptr HDR) }
        { b with free := true })

/-- The C function `ts_malloc_nolock`, called by thread `t`. -/
def ts_malloc_nolock (s : State) (t : Nat) (size : Nat) : Nat × State :=
  if size = 0 then (0, s)
  else
    let need := align8 size
    let s0 := reclaim_drain_to_tls s t 32
    match find_best_fit_list (s0.tls_free_list t) need with
    | some best =>
      let r := maybe_split_into_list { best with free := false } need
        (remove_from_list (s0.tls_free_list t) best.addr)
      (r.1.payload, { s0.set_tls t r.2 with used := r.1 :: s0.used })
    | none =>
      match request_from_os s0 need with
      | (none, s1) => (0, s1)
      | (some nb, s1) => (nb.payload, s1)

/-- The C function `get_data_segment_size` of the second file. -/
def get_data_segment_size (s : State) : Nat :=
  if s.heap_start = 0 ∨ s.heap_end = 0 then 0 else wsub s.heap_end s.heap_start

/-- The C function `get_data_segment_free_space_size` of the second file. -/
def get_data_segment_free_space_size (s : State) : Nat :=
  s.free_list.foldl (fun sum b => if b.free = true then (sum + b.size) % WORD else sum) 0

/-- The C function `ts_malloc_lock`. -/
def ts_malloc_lock (s : State) (size : Nat) : Nat × State :=
  if size = 0 then (0, s)
  else
    let need := align8 size
    match find_best_fit_list s.free_list need with
    | some best =>
      let r := maybe_split_into_list { best with free := false } need
        (remove_from_list s.free_list best.addr)
      (r.1.payload, { s with free_list := r.2, used := r.1 :: s.used })
    | none =>
      match request_from_os s need with
      | (none, s1) => (0, s1)
      | (some nb, s1) => (nb.payload, s1)

/-- The C function `ts_free_lock`. Freeing a pointer that is not the payload of a
block currently handed out is undefined: the model answers `none`. -/
def ts_free_lock (s : State) (ptr : Nat) : Option State :=
  if ptr = 0 then some s
  else
    match lookup s.used (wsub ptr HDR) with
    | none => none
    | some b =>
      some { s with free_list := insert_free_sorted_list s.free_list b
                    used := forget s.used (wsub ptr HDR) }

/-- A call of one of the four public allocation functions of the second file; the
calls of the lock-free variant name the calling thread. -/
inductive Op where
  | ts_malloc_lock (size : Nat)
  | ts_free_lock (ptr : Nat)
  | ts_malloc_nolock (t : Nat) (size : Nat)
  | ts_free_nolock (ptr : Nat)
deriving DecidableEq, Repr

/-- For an allocation of `size` bytes, the header size plus `align8(size)` is below
`2^63`: the sum `sizeof(BlockHeader) + payload` of `request_from_os` does not wrap and
its cast to `intptr_t` is positive. A free satisfies it. -/
def Op.small : Op → Bool
  | .ts_malloc_lock size => decide (HDR + align8 size < 9223372036854775808)
  | .ts_malloc_nolock _ size => decide (HDR + align8 size < 9223372036854775808)
  | .ts_free_lock _ => true
  | .ts_free_nolock _ => true

/-- One call: the pointer it returns (for the two allocation functions) and the state
it leaves; `none` when the call is undefined. -/
def step (s : State) : Op → Option (Option Nat × State)
  | .ts_malloc_lock size => some (some (ts_malloc_lock s size).1, (ts_malloc_lock s size).2)
  | .ts_free_lock ptr => (ts_free_lock s ptr).map (fun s1 => (none, s1))
  | .ts_malloc_nolock t size =>
    some (some (ts_malloc_nolock s t size).1, (ts_malloc_nolock s t size).2)
  | .ts_free_nolock ptr => (ts_free_nolock s ptr).map (fun s1 => (none, s1))

/-- A sequence of calls: the pointers returned by its allocations, in call order, and
the final state; `none` when one of the calls is undefined. -/
def run (s : State) : List Op → Option (List Nat × State)
  | [] => some ([], s)
  | op :: ops =>
    match step s op with
    | none => none
    | some (r, s1) =>
      match run s1 ops with
      | none => none
      | some (out, s2) => some (r.toList ++ out, s2)

end Project2

/-! ## Predicates of the specification -/

namespace MyMalloc

/-- Two consecutive free-list nodes are in address order and not adjacent:
`address(a) < address(b)` and `address(a) + header size + a.size < address(b)`. -/
def Gap (a b : BlockHeader) : Prop := a.addr < b.addr ∧ a.addr + HDR + a.size < b.addr

instance : DecidableRel Gap := fun a b =>
  inferInstanceAs (Decidable (a.addr < b.addr ∧ a.addr + HDR + a.size < b.addr))

/-- The sorted-and-disjoint invariant of a free list: every two consecutive nodes
satisfy `Gap`. -/
def SortedDisjoint : List BlockHeader → Prop
  | [] => True
  | [_] => True
  | a :: b :: t => Gap a b ∧ SortedDisjoint (b :: t)

/-- The invariant `SortedDisjoint` can be checked by computation. -/
def SortedDisjoint.decide : (l : List BlockHeader) → Decidable (SortedDisjoint l)
  | [] => isTrue trivial
  | [_] => isTrue trivial
  | a :: b :: t =>
    match SortedDisjoint.decide (b :: t) with
    | isTrue h => if g : Gap a b then isTrue ⟨g, h⟩ else isFalse (fun c => g c.1)
    | isFalse h => isFalse (fun c => h c.2)

instance (l : List BlockHeader) : Decidable (SortedDisjoint l) := SortedDisjoint.decide l

/-- The block is an object of the 64 bit address space: its header pointer is at
least 8 (as every non-null pointer to an 8-aligned type is) and the address one past
its payload is representable. -/
def InSpace (b : BlockHeader) : Prop := 8 ≤ b.addr ∧ b.addr + HDR + b.size < WORD

instance : DecidablePred InSpace := fun b =>
  inferInstanceAs (Decidable (8 ≤ b.addr ∧ b.addr + HDR + b.size < WORD))

/-- The byte ranges `[header address, payload address + size)` of two blocks do not
overlap. -/
def Apart (a b : BlockHeader) : Prop :=
  a.addr + HDR + a.size ≤ b.addr ∨ b.addr + HDR + b.size ≤ a.addr

instance : DecidableRel Apart := fun a b =>
  inferInstanceAs (Decidable (a.addr + HDR + a.size ≤ b.addr ∨ b.addr + HDR + b.size ≤ a.addr))

/-- The header of `b` after `coalesce_around` absorbed its successor `n`. -/
def merge (b n : BlockHeader) : BlockHeader :=
  { b with size := (b.size + (HDR + n.size)) % WORD }

/-- A list node that the searches accept for `need`: flagged free and large enough. -/
def Fits (need : Nat) (b : BlockHeader) : Prop := b.free = true ∧ need ≤ b.size

instance (need : Nat) : DecidablePred (Fits need) := fun b =>
  inferInstanceAs (Decidable (b.free = true ∧ need ≤ b.size))

instance : IsTrans BlockHeader Gap where
  trans a b c h1 h2 := by unfold Gap at *; simp only [HDR] at *; omega

/-- The header address of the block is congruent to `q` modulo 8 and its size is a
multiple of 8. -/
def Aligned (q : Nat) (b : BlockHeader) : Prop := b.addr % 8 = q % 8 ∧ b.size % 8 = 0

instance (q : Nat) : DecidablePred (Aligned q) := fun b =>
  inferInstanceAs (Decidable (b.addr % 8 = q % 8 ∧ b.size % 8 = 0))

/-- Alignment invariant of a state of `src/my_malloc.c`, relative to `q`: every header on
the free list or in front of a handed-out payload is `Aligned q`, and the program break
is congruent to `q` modulo 8. -/
def AlignedState (q : Nat) (s : State) : Prop :=
  (∀ b ∈ s.free_list, Aligned q b) ∧ (∀ b ∈ s.used, Aligned q b) ∧ s.os.brk % 8 = q % 8

end MyMalloc

namespace Project2

/-- Alignment invariant of a state of the second file, relative to `q`: every header on
the global list, on a per-thread list, on the reclamation stack or in front of a
handed-out payload is `Aligned q`, and the program break is congruent to `q` modulo 8. -/
def AlignedState (q : Nat) (s : State) : Prop :=
  (∀ b ∈ s.free_list, MyMalloc.Aligned q b) ∧
  (∀ t, ∀ b ∈ s.tls_free_list t, MyMalloc.Aligned q b) ∧
  (∀ b ∈ s.global_reclaim, MyMalloc.Aligned q b) ∧
  (∀ b ∈ s.used, MyMalloc.Aligned q b) ∧ s.os.brk % 8 = q % 8

end Project2

namespace MyMalloc

/-! ## Blocks obtained by growth -/

/-- The payload size for which a call obtains a block from the operating system: the
argument of `request_from_os` when the call reaches that function and it returns a
block. It is `none` when the call takes its block from the free list, when it returns
`NULL`, and for the two free functions, which never call `request_from_os`. -/
def grown (s : State) : Op → Option Nat
  | .ff_malloc size =>
    if size = 0 then none
    else if (ff_search s.free_list (align8 size)).isSome then none
    else (request_from_os s (align8 size)).1.map BlockHeader.size
  | .bf_malloc size =>
    if size = 0 then none
    else if (bf_search s.free_list (align8 size) none SIZE_MAX).2 < SIZE_MAX then none
    else (request_from_os s (align8 size)).1.map BlockHeader.size
  | .ff_free _ => none
  | .bf_free _ => none

/-- The payload sizes requested for the blocks that a sequence of calls obtains from
the operating system, in call order. -/
def growth_log (s : State) : List Op → List Nat
  | [] => []
  | op :: ops =>
    match step s op with
    | none => []
    | some (_, s1) => (grown s op).toList ++ growth_log s1 ops

/-- The bytes that the blocks of a growth log stand for: the sum of
`sizeof(BlockHeader) + payload` over the log, as a natural number. -/
def log_bytes (log : List Nat) : Nat := (log.map (fun p => HDR + p)).sum

end MyMalloc

namespace Project2

/-! ## Variants of the second file -/

/-- The variables of the second file that the locked variant works on (global free
list, heap bounds, break, handed-out headers), as a state of `src/my_malloc.c`. -/
def State.single (s : State) : MyMalloc.State :=
  { free_list := s.free_list, heap_start := s.heap_start, heap_end := s.heap_end,
    os := s.os, used := s.used }

/-! ## The reclamation stack under interleaving

`reclaim_push` and `reclaim_pop` once more, statement by statement, for threads that run
them concurrently. A step of a thread is one statement that reads or writes shared
memory (the variable `global_reclaim`, the `next` field of a header); the local
variables `b`, `old`, `next` of the call belong to the thread. An execution is a
sequence of thread identifiers: each names the thread that takes the next step. -/

/-- The shared memory of the reclamation stack: the variable `global_reclaim` and the
`next` field of the header at each address. -/
structure Shared where
  global_reclaim : Nat
  next : Nat → Nat

/-- The statement at which a call of `reclaim_push` or `reclaim_pop` stands, with the
local variables it has set so far. -/
inductive Pc where
  | push_load (b : Nat)
  | push_store (b old : Nat)
  | push_cas (b old : Nat)
  | pop_load
  | pop_next (old : Nat)
  | pop_cas (old next : Nat)
  | pop_clear (old : Nat)
deriving DecidableEq, Repr

/-- A call of `reclaim_push(b)` or of `reclaim_pop()`. -/
inductive Call where
  | push (b : Nat)
  | pop
deriving DecidableEq, Repr

/-- A thread: the call in progress (`none` between two calls), the calls it still has to
make, and the values its calls of `reclaim_pop` have returned, the latest first (`0` is
`NULL`). The caller `reclaim_drain_to_tls` puts every block so returned on the free list
of the thread. -/
structure Thread where
  pc : Option Pc
  todo : List Call
  popped : List Nat
deriving DecidableEq, Repr

/-- One step of a thread on the shared memory.
* between calls: enter the next call;
* `reclaim_push`: `old = global_reclaim`, then `b->next = old`, then the
  compare-and-swap of `global_reclaim` from `old` to `b`, which ends the call or sends
  it back to the first statement of the loop;
* `reclaim_pop`: `old = global_reclaim` (return `NULL` when it is `NULL`), then
  `next = old->next`, then the compare-and-swap of `global_reclaim` from `old` to
  `next`, which leads on or back to the first statement, then `old->next = NULL` and
  the return of `old`. -/
def Thread.step (m : Shared) (th : Thread) : Shared × Thread :=
  match th.pc with
  | none =>
    match th.todo with
    | [] => (m, th)
    | .push b :: rest => (m, { th with pc := some (.push_load b), todo := rest })
    | .pop :: rest => (m, { th with pc := some .pop_load, todo := rest })
  | some (.push_load b) => (m, { th with pc := some (.push_store b m.global_reclaim) })
  | some (.push_store b old) =>
    ({ m with next := fun a => if a = b then old else m.next a },
      { th with pc := some (.push_cas b old) })
  | some (.push_cas b old) =>
    if m.global_reclaim = old then ({ m with global_reclaim := b }, { th with pc := none })
    else (m, { th with pc := some (.push_load b) })
  | some .pop_load =>
    if m.global_reclaim = 0 then (m, { th with pc := none, popped := 0 :: th.popped })
    else (m, { th with pc := some (.pop_next m.global_reclaim) })
  | some (.pop_next old) => (m, { th with pc := some (.pop_cas old (m.next old)) })
  | some (.pop_cas old next) =>
    if m.global_reclaim = old then
      ({ m with global_reclaim := next }, { th with pc := some (.pop_clear old) })
    else (m, { th with pc := some .pop_load })
  | some (.pop_clear old) =>
    ({ m with next := fun a => if a = old then 0 else m.next a },
      { th with pc := none, popped := old :: th.popped })

/-- The shared memory and the threads, by thread identifier. -/
structure Conf where
  mem : Shared
  threads : Nat → Thread

/-- The thread `t` takes a step. -/
def Conf.step (c : Conf) (t : Nat) : Conf :=
  { mem := ((c.threads t).step c.mem).1
    threads := fun u => if u = t then ((c.threads t).step c.mem).2 else c.threads u }

/-- An execution: the threads named by the schedule take their steps in turn. -/
def exec (c : Conf) : List Nat → Conf
  | [] => c
  | t :: ts => exec (c.step t) ts

/-- The addresses reachable from `a` along the `next` fields, up to `fuel` of them. -/
def chain (m : Shared) : Nat → Nat → List Nat
  | 0, _ => []
  | fuel + 1, a => if a = 0 then [] else a :: chain m fuel (m.next a)

/-- Three threads on an empty stack. Thread `0` pushes the blocks at `4128` and `4096`.
Threads `1` and `2` each pop until `reclaim_pop` returns `NULL`, as
`reclaim_drain_to_tls` does; thread `2` then pushes the block at `4096` again, as
`ts_free_nolock` does once the block has been allocated and is freed. -/
def aba_start : Conf :=
  { mem := { global_reclaim := 0, next := fun _ => 0 }
    threads := fun t =>
      if t = 0 then ⟨none, [.push 4128, .push 4096], []⟩
      else if t = 1 then ⟨none, [.pop, .pop, .pop], []⟩
      else if t = 2 then ⟨none, [.pop, .pop, .pop, .push 4096], []⟩
      else ⟨none, [], []⟩ }

/-- Thread `0` completes its two pushes (8 steps); thread `1` enters `reclaim_pop` and
reads `old = 4096` and `next = 4128` (3 steps); thread `2` completes its three pops and
its push (16 steps); thread `1` then executes its compare-and-swap. -/
def aba_schedule : List Nat :=
  [0, 0, 0, 0, 0, 0, 0, 0,
   1, 1, 1,
   2, 2, 2, 2, 2, 2, 2, 2, 2, 2, 2, 2, 2, 2, 2, 2,
   1]

/-- Thread `1` goes on to the end of its three pops. -/
def aba_rest : List Nat := [1, 1, 1, 1, 1, 1, 1, 1]

end Project2

/-! ## The second file over a byte-addressed memory

A second embedding of `src/project2/my_malloc/my_malloc.c`, one C statement at a time.
A header is not a record here: its fields are bytes of one memory, little endian,
`size` in the 8 bytes from offset 0, `free` in the 4 bytes from offset 8, `next` in the
8 bytes from offset 16, and a list is the chain of `next` pointers from its head. Two
headers whose byte ranges overlap share bytes, as they do in the machine. Every loop
that follows `next` pointers takes a bound on the number of its rounds and answers
`none` when the bound is reached. Executions are sequential. -/

namespace Project2.Mem

open MyMalloc (WORD SIZE_MAX HDR wsub OS sbrk toIntptr BlockHeader)

/-- Value of the `w` bytes of the memory `m` from address `a` on (little endian). -/
def load (m : Nat → Nat) (a : Nat) : Nat → Nat
  | 0 => 0
  | w + 1 => m (a % WORD) % 256 + 256 * load m (a + 1) w

/-- The memory `m` after the low `w` bytes of `v` are written from address `a` on
(little endian). -/
def store (m : Nat → Nat) (a v : Nat) : Nat → Nat → Nat
  | 0 => m
  | w + 1 => store (fun x => if x = a % WORD then v % 256 else m x) (a + 1) (v / 256) w

/-- Memory and global variables of the second file (`free_list`, the thread-local
`tls_free_list` of each thread, `global_reclaim`, `heap_start`, `heap_end`), and the
program break. -/
structure State where
  mem : Nat → Nat
  free_list : Nat
  tls_free_list : Nat → Nat
  global_reclaim : Nat
  heap_start : Nat
  heap_end : Nat
  os : OS

/-- The allocator before its first call, on a given program break. -/
def fresh (os : OS) : State :=
  { mem := fun _ => 0, free_list := 0, tls_free_list := fun _ => 0, global_reclaim := 0,
    heap_start := 0, heap_end := 0, os := os }

/-- The value of `b->size`. -/
def State.size (s : State) (b : Nat) : Nat := load s.mem b 8

/-- The value of `b->free`. -/
def State.free (s : State) (b : Nat) : Nat := load s.mem (b + 8) 4

/-- The value of `b->next`. -/
def State.next (s : State) (b : Nat) : Nat := load s.mem (b + 16) 8

/-- The assignment `b->size = v`. -/
def State.set_size (s : State) (b v : Nat) : State := { s with mem := store s.mem b v 8 }

/-- The assignment `b->free = v`. -/
def State.set_free (s : State) (b v : Nat) : State :=
  { s with mem := store s.mem (b + 8) v 4 }

/-- The assignment `b->next = v`. -/
def State.set_next (s : State) (b v : Nat) : State :=
  { s with mem := store s.mem (b + 16) v 8 }

/-- The two list heads a `BlockHeader ** head` argument points to: `&free_list` and
`&tls_free_list` of the calling thread. -/
inductive Head where
  | free_list
  | tls_free_list (t : Nat)
deriving DecidableEq, Repr

/-- The value of `*head`. -/
def State.head (s : State) : Head → Nat
  | .free_list => s.free_list
  | .tls_free_list t => s.tls_free_list t

/-- The assignment `*head = v`. -/
def State.set_head (s : State) (h : Head) (v : Nat) : State :=
  match h with
  | .free_list => { s with free_list := v }
  | .tls_free_list t =>
    { s with tls_free_list := fun u => if u = t then v else s.tls_free_list u }

/-- The C function `record_heap_bounds`. -/
def record_heap_bounds (s : State) (old_brk inc : Nat) : State :=
  { s with
    heap_start := if s.heap_start = 0 then old_brk else s.heap_start
    heap_end := (old_brk + inc) % WORD }

/-- The C function `request_from_os`; returns the pointer `b` (`0` is `NULL`). -/
def request_from_os (s : State) (payload : Nat) : Nat × State :=
  let total := (HDR + payload) % WORD
  match sbrk s.os 0 with
  | (none, os1) => (0, { s with os := os1 })
  | (some old, os1) =>
    match sbrk os1 (toIntptr total) with
    | (none, os2) => (0, { s with os := os2 })
    | (some res, os2) =>
      let s1 := record_heap_bounds { s with os := os2 } old total
      let s2 := s1.set_size res payload
      let s3 := s2.set_free res 0
      (res, s3.set_next res 0)

/-- The C function `reclaim_push`. Without interference the compare-and-swap succeeds
in the first round of the loop. -/
def reclaim_push (s : State) (b : Nat) : State :=
  let old := s.global_reclaim
  let s1 := s.set_next b old
  { s1 with global_reclaim := b }

/-- The C function `reclaim_pop`. Without interference the compare-and-swap succeeds
in the first round of the loop. -/
def reclaim_pop (s : State) : Nat × State :=
  let old := s.global_reclaim
  if old = 0 then (0, s)
  else
    let next := s.next old
    let s1 : State := { s with global_reclaim := next }
    (old, s1.set_next old 0)

/-- The loop of the C function `remove_from_list`, from the node `p`. -/
def remove_from_list_loop (s : State) (b : Nat) : Nat → Nat → Option State
  | _, 0 => none
  | p, fuel + 1 =>
    if p = 0 then some s
    else if s.next p = b then
      let s1 := s.set_next p (s.next b)
      some (s1.set_next b 0)
    else remove_from_list_loop s b (s.next p) fuel

/-- The C function `remove_from_list`. -/
def remove_from_list (s : State) (head : Head) (b : Nat) (fuel : Nat) : Option State :=
  if s.head head = b then
    let s1 := s.set_head head (s.next b)
    some (s1.set_next b 0)
  else remove_from_list_loop s b (s.head head) fuel

/-- The C function `coalesce_around_list`. -/
def coalesce_around_list (s : State) (b : Nat) : Nat → Option State
  | 0 => none
  | fuel + 1 =>
    if s.next b ≠ 0 then
      let b_end := (b + HDR + s.size b) % WORD
      if b_end = s.next b then
        let n := s.next b
        let s1 := s.set_size b ((s.size b + (HDR + s.size n)) % WORD)
        let s2 := s1.set_next b (s1.next n)
        coalesce_around_list s2 b fuel
      else some s
    else some s

/-- The loop `while (p->next != NULL && p->next < b) p = p->next` of
`insert_free_sorted_list`: the final `p`. -/
def insert_walk (s : State) (b : Nat) : Nat → Nat → Option Nat
  | _, 0 => none
  | p, fuel + 1 =>
    if s.next p ≠ 0 ∧ s.next p < b then insert_walk s b (s.next p) fuel else some p

/-- The C function `insert_free_sorted_list`. -/
def insert_free_sorted_list (s : State) (head : Head) (b : Nat) (fuel : Nat) :
    Option State :=
  let s1 := s.set_free b 1
  let s2 := s1.set_next b 0
  if s2.head head = 0 ∨ b < s2.head head then
    let s3 := s2.set_next b (s2.head head)
    let s4 := s3.set_head head b
    coalesce_around_list s4 b fuel
  else
    match insert_walk s2 b (s2.head head) fuel with
    | none => none
    | some p =>
      let s3 := s2.set_next b (s2.next p)
      let s4 := s3.set_next p b
      match coalesce_around_list s4 b fuel with
      | none => none
      | some s5 => coalesce_around_list s5 p fuel

/-- The C function `maybe_split_into_list`. -/
def maybe_split_into_list (s : State) (b need : Nat) (head : Head) (fuel : Nat) :
    Option State :=
  if s.size b < (need + HDR + 8) % WORD then some s
  else
    let base := (b + HDR) % WORD
    let nb := (base + need) % WORD
    let s1 := s.set_size nb (wsub (wsub (s.size b) need) HDR)
    let s2 := s1.set_free nb 1
    let s3 := s2.set_next nb 0
    let s4 := s3.set_size b need
    insert_free_sorted_list s4 head nb fuel

/-- The loop of `find_best_fit_list`, from the node `b` and the current `best` /
`best_size`. -/
def find_best_fit_loop (s : State) (need : Nat) : Nat → Nat → Nat → Nat → Option Nat
  | _, _, _, 0 => none
  | b, best, best_size, fuel + 1 =>
    if b = 0 then some best
    else if s.free b ≠ 0 ∧ s.size b ≥ need ∧ s.size b < best_size then
      if s.size b = need then some b
      else find_best_fit_loop s need (s.next b) b (s.size b) fuel
    else find_best_fit_loop s need (s.next b) best best_size fuel

/-- The C function `find_best_fit_list`. -/
def find_best_fit_list (s : State) (head need fuel : Nat) : Option Nat :=
  find_best_fit_loop s need head 0 SIZE_MAX fuel

/-- The C function `reclaim_drain_to_tls`, run by thread `t`; `max_take` counts the
rounds of the loop that are left. -/
def reclaim_drain_to_tls (s : State) (t fuel : Nat) : Nat → Option State
  | 0 => some s
  | max_take + 1 =>
    match reclaim_pop s with
    | (b, s1) =>
      if b = 0 then some s1
      else
        match insert_free_sorted_list s1 (.tls_free_list t) b fuel with
        | none => none
        | some s2 => reclaim_drain_to_tls s2 t fuel max_take

/-- The C function `ts_free_nolock`, called by any thread. -/
def ts_free_nolock (s : State) (ptr : Nat) : State :=
  if ptr = 0 then s
  else
    let b := wsub ptr HDR
    let s1 := s.set_free b 1
    let s2 := s1.set_next b 0
    reclaim_push s2 b

/-- The C function `ts_malloc_nolock`, called by thread `t`; returns the pointer (`0`
is `NULL`) and the new state. -/
def ts_malloc_nolock (s : State) (t size fuel : Nat) : Option (Nat × State) :=
  if size = 0 then some (0, s)
  else
    let need := MyMalloc.align8 size
    match reclaim_drain_to_tls s t fuel 32 with
    | none => none
    | some s0 =>
      match find_best_fit_list s0 (s0.tls_free_list t) need fuel with
      | none => none
      | some best =>
        if best ≠ 0 then
          match remove_from_list s0 (.tls_free_list t) best fuel with
          | none => none
          | some s1 =>
            let s2 := s1.set_free best 0
            match maybe_split_into_list s2 best need (.tls_free_list t) fuel with
            | none => none
            | some s3 => some ((best + HDR) % WORD, s3)
        else
          match request_from_os s0 need with
          | (nb, s1) => if nb = 0 then some (0, s1) else some ((nb + HDR) % WORD, s1)

/-- The loop of `get_data_segment_free_space_size`, from the node `b`. -/
def free_space_loop (s : State) : Nat → Nat → Nat → Option Nat
  | _, _, 0 => none
  | b, sum, fuel + 1 =>
    if b = 0 then some sum
    else if s.free b ≠ 0 then free_space_loop s (s.next b) ((sum + s.size b) % WORD) fuel
    else free_space_loop s (s.next b) sum fuel

/-- The C function `get_data_segment_free_space_size` of the second file. -/
def get_data_segment_free_space_size (s : State) (fuel : Nat) : Option Nat :=
  free_space_loop s s.free_list 0 fuel

/-- The C function `ts_malloc_lock`. -/
def ts_malloc_lock (s : State) (size fuel : Nat) : Option (Nat × State) :=
  if size = 0 then some (0, s)
  else
    let need := MyMalloc.align8 size
    match find_best_fit_list s s.free_list need fuel with
    | none => none
    | some best =>
      if best ≠ 0 then
        match remove_from_list s .free_list best fuel with
        | none => none
        | some s1 =>
          let s2 := s1.set_free best 0
          match maybe_split_into_list s2 best need .free_list fuel with
          | none => none
          | some s3 => some ((best + HDR) % WORD, s3)
      else
        match request_from_os s need with
        | (nb, s1) => if nb = 0 then some (0, s1) else some ((nb + HDR) % WORD, s1)

/-- The C function `ts_free_lock`. -/
def ts_free_lock (s : State) (ptr fuel : Nat) : Option State :=
  if ptr = 0 then some s
  else insert_free_sorted_list s .free_list (wsub ptr HDR) fuel

/-- The nodes of the list that starts at `b`, in link order, each as the record of its
address and of the values of its `size` and `free` fields in the memory. -/
def nodes (s : State) : Nat → Nat → Option (List BlockHeader)
  | _, 0 => none
  | b, fuel + 1 =>
    if b = 0 then some []
    else (nodes s (s.next b) fuel).map (fun l => ⟨b, s.size b, decide (s.free b ≠ 0)⟩ :: l)

/-- One call on the memory, with the bound `fuel` on the rounds of each loop: the
pointer it returns (for the two allocation functions) and the state it leaves. -/
def step (fuel : Nat) (s : State) : Op → Option (Option Nat × State)
  | .ts_malloc_lock size => (ts_malloc_lock s size fuel).map (fun r => (some r.1, r.2))
  | .ts_free_lock ptr => (ts_free_lock s ptr fuel).map (fun s1 => (none, s1))
  | .ts_malloc_nolock t size =>
    (ts_malloc_nolock s t size fuel).map (fun r => (some r.1, r.2))
  | .ts_free_nolock ptr => some (none, ts_free_nolock s ptr)

/-- A sequence of calls on the memory: the pointers returned by its allocations, in
call order, and the final state. -/
def run (fuel : Nat) (s : State) : List Op → Option (List Nat × State)
  | [] => some ([], s)
  | op :: ops =>
    match step fuel s op with
    | none => none
    | some (r, s1) =>
      match run fuel s1 ops with
      | none => none
      | some (out, s2) => some (r.toList ++ out, s2)

end Project2.Mem

/-! # Theorems -/

namespace MyMalloc

/-! ## Arithmetic of `align8` -/

theorem land_mask (x : Nat) (hx : x < WORD) : x &&& (WORD - 8) = x / 8 * 8 := by
  apply Nat.eq_of_testBit_eq
  intro i
  rw [Nat.testBit_land]
  have h1 : WORD - 8 = 2 ^ 64 - (7 + 1) := by norm_num
  rw [h1, Nat.testBit_two_pow_sub_succ (by norm_num)]
  have h7 : (7 : Nat) = 2 ^ 3 - 1 := by norm_num
  rw [h7, Nat.testBit_two_pow_sub_one]
  have h8 : x / 8 * 8 = 2 ^ 3 * (x / 2 ^ 3) := by norm_num [Nat.mul_comm]
  rw [h8, Nat.testBit_mul_pow_two, ← Nat.shiftRight_eq_div_pow, Nat.testBit_shiftRight]
  by_cases h3 : i < 3
  · simp [h3]
  · have h3' : 3 ≤ i := by omega
    have e : 3 + (i - 3) = i := by omega
    simp only [h3, h3', e, decide_True, decide_False, Bool.not_false, Bool.and_true, Bool.true_and, ge_iff_le]
    by_cases h64 : i < 64
    · simp [h64]
    · simp only [h64, decide_False, Bool.and_false]
      symm
      apply Nat.testBit_lt_two_pow
      calc x < 2 ^ 64 := hx
        _ ≤ 2 ^ i := Nat.pow_le_pow_right (by norm_num) (by omega)

theorem align8_eq (n : Nat) : align8 n = (n + 7) % WORD / 8 * 8 := by
  unfold align8
  exact land_mask _ (Nat.mod_lt _ (by norm_num))

/-! ## Coalescing and insertion keep a free list well formed -/

theorem sortedDisjoint_iff (l : List BlockHeader) : SortedDisjoint l ↔ List.Chain' Gap l := by
  induction l with
  | nil => simp [SortedDisjoint]
  | cons a t ih =>
    cases t with
    | nil => simp [SortedDisjoint]
    | cons b u => rw [SortedDisjoint, List.chain'_cons, ih]

theorem b_end_eq (b : BlockHeader) (h : InSpace b) : b.b_end = b.addr + HDR + b.size := by
  unfold BlockHeader.b_end; exact Nat.mod_eq_of_lt h.2

theorem coalesce_nomerge (b : BlockHeader) (rest : List BlockHeader)
    (h : ∀ n, rest.head? = some n → b.b_end ≠ n.addr) : coalesce_around b rest = b :: rest := by
  cases rest with
  | nil => rfl
  | cons n t => simp [coalesce_around, h n rfl]

theorem coalesce_merge (b n : BlockHeader) (t : List BlockHeader) (h : b.b_end = n.addr)
    (h2 : ∀ m, t.head? = some m → (merge b n).b_end ≠ m.addr) :
    coalesce_around b (n :: t) = merge b n :: t := by
  rw [coalesce_around, if_pos h]
  exact coalesce_nomerge _ _ h2

theorem merge_facts (b n : BlockHeader) (hb : InSpace b) (hn : InSpace n)
    (h : b.b_end = n.addr) :
    (merge b n).addr = b.addr ∧ (merge b n).size = b.size + HDR + n.size ∧
    (merge b n).free = b.free ∧ InSpace (merge b n) ∧
    (merge b n).addr + HDR + (merge b n).size = n.addr + HDR + n.size := by
  rw [b_end_eq b hb] at h
  unfold InSpace at *
  have e : (merge b n).size = b.size + HDR + n.size := by
    show (b.size + (HDR + n.size)) % WORD = _
    simp only [WORD, HDR] at *; omega
  refine ⟨rfl, e, rfl, ⟨hb.1, ?_⟩, ?_⟩
  · show b.addr + HDR + (merge b n).size < WORD
    rw [e]; simp only [WORD, HDR] at *; omega
  · show b.addr + HDR + (merge b n).size = _
    rw [e]; simp only [WORD, HDR] at *; omega

/-- Shape of the result of `coalesce_around` on a well-formed list. -/
theorem coalesce_cases (b : BlockHeader) (rest : List BlockHeader) (hb : InSpace b)
    (hr : ∀ x ∈ rest, InSpace x) (hc : List.Chain' Gap rest)
    (hle : ∀ n, rest.head? = some n → b.addr + HDR + b.size ≤ n.addr) :
    (coalesce_around b rest = b :: rest ∧ List.Chain' Gap (b :: rest)) ∨
    (∃ n t, rest = n :: t ∧ b.addr + HDR + b.size = n.addr ∧
      coalesce_around b rest = merge b n :: t ∧ List.Chain' Gap (merge b n :: t)) := by
  cases rest with
  | nil => left; exact ⟨rfl, List.chain'_singleton _⟩
  | cons n t =>
    have hn : InSpace n := hr n (List.mem_cons_self _ _)
    by_cases h : b.b_end = n.addr
    · right
      obtain ⟨m1, m2, m3, m4, m5⟩ := merge_facts b n hb hn h
      have hgap : ∀ m, t.head? = some m → Gap (merge b n) m := by
        intro m hm
        cases t with
        | nil => simp at hm
        | cons m' t' =>
          simp at hm; subst hm
          have g : Gap n m' := (List.chain'_cons.mp hc).1
          have hle' := hle n rfl
          unfold Gap at *; unfold InSpace at *
          simp only [WORD, HDR] at *; omega
      refine ⟨n, t, rfl, by rw [← b_end_eq b hb]; exact h, ?_, ?_⟩
      · apply coalesce_merge _ _ _ h
        intro m hm
        have g := hgap m hm
        rw [b_end_eq _ m4]
        unfold Gap at g; omega
      · cases t with
        | nil => exact List.chain'_singleton _
        | cons m' t' => exact List.chain'_cons.mpr ⟨hgap m' rfl, (List.chain'_cons.mp hc).2⟩
    · left
      refine ⟨coalesce_nomerge _ _ (by intro m hm; simp at hm; subst hm; exact h), ?_⟩
      apply List.chain'_cons.mpr
      refine ⟨?_, hc⟩
      have hle' := hle n rfl
      rw [b_end_eq b hb] at h
      unfold Gap; unfold InSpace at *
      simp only [WORD, HDR] at *; omega

/-- Invariants of the result of `coalesce_around` on a well-formed list. -/
theorem coalesce_inv (b : BlockHeader) (rest : List BlockHeader) (hb : InSpace b)
    (hr : ∀ x ∈ rest, InSpace x) (hc : List.Chain' Gap rest)
    (hle : ∀ n, rest.head? = some n → b.addr + HDR + b.size ≤ n.addr) :
    List.Chain' Gap (coalesce_around b rest) ∧ (∀ x ∈ coalesce_around b rest, InSpace x) ∧
    ∃ c t, coalesce_around b rest = c :: t ∧ c.addr = b.addr ∧
      b.addr + HDR + b.size ≤ c.addr + HDR + c.size ∧
      (∀ m, t.head? = some m → ∃ n ∈ rest, n.addr ≤ m.addr) := by
  rcases coalesce_cases b rest hb hr hc hle with ⟨e, ch⟩ | ⟨n, t, hrest, hadj, e, ch⟩
  · rw [e]
    refine ⟨ch, ?_, b, rest, rfl, rfl, le_refl _, ?_⟩
    · intro x hx
      rcases List.mem_cons.mp hx with h | h
      · subst h; exact hb
      · exact hr x h
    · intro m hm
      cases rest with
      | nil => simp at hm
      | cons n t => simp at hm; subst hm; exact ⟨_, List.mem_cons_self _ _, le_refl _⟩
  · rw [e]
    subst hrest
    have hn : InSpace n := hr n (List.mem_cons_self _ _)
    have hbe : b.b_end = n.addr := by rw [b_end_eq b hb]; exact hadj
    obtain ⟨m1, m2, m3, m4, m5⟩ := merge_facts b n hb hn hbe
    refine ⟨ch, ?_, merge b n, t, rfl, m1, ?_, ?_⟩
    · intro x hx
      rcases List.mem_cons.mp hx with h | h
      · subst h; exact m4
      · exact hr x (List.mem_cons_of_mem _ h)
    · rw [m5]; simp only [WORD, HDR] at *; omega
    · intro m hm
      cases t with
      | nil => simp at hm
      | cons m' t' =>
        simp at hm; subst hm
        exact ⟨_, List.mem_cons_of_mem _ (List.mem_cons_self _ _), le_refl _⟩

theorem gap_of_addr_le {p n m : BlockHeader} (g : Gap p n) (h : n.addr ≤ m.addr) : Gap p m := by
  unfold Gap at *; omega

/-- Invariants of the result of the walk of `ff_free`. -/
theorem ff_free_walk_inv (rest : List BlockHeader) : ∀ (p b : BlockHeader),
    InSpace p → (∀ x ∈ rest, InSpace x) → InSpace b → List.Chain' Gap (p :: rest) →
    p.addr + HDR + p.size ≤ b.addr → (∀ x ∈ rest, Apart b x) →
    List.Chain' Gap (ff_free_walk p rest b) ∧ (∀ x ∈ ff_free_walk p rest b, InSpace x) ∧
    (∃ c t, ff_free_walk p rest b = c :: t ∧ c.addr = p.addr) ∧
    (∃ c ∈ ff_free_walk p rest b, c.addr ≤ b.addr ∧
      b.addr + HDR + b.size ≤ c.addr + HDR + c.size) := by
  induction rest with
  | nil =>
    intro p b hp _ hb _ hpb _
    unfold ff_free_walk
    have e1 : coalesce_around b [] = [b] := rfl
    rw [e1]
    obtain ⟨c1, c2, c, t, e, ca, cl, _⟩ := coalesce_inv p [b] hp
      (by intro x hx; simp at hx; subst hx; exact hb) (List.chain'_singleton _)
      (by intro n hn; simp at hn; subst hn; exact hpb)
    refine ⟨c1, c2, ⟨c, t, e, ca⟩, ?_⟩
    rcases coalesce_cases p [b] hp
      (by intro x hx; simp at hx; subst hx; exact hb) (List.chain'_singleton _)
      (by intro n hn; simp at hn; subst hn; exact hpb) with ⟨e', _⟩ | ⟨n, t', hrest, hadj, e', _⟩
    · rw [e']; exact ⟨b, by simp, le_refl _, le_refl _⟩
    · rw [e']
      simp at hrest
      obtain ⟨hn, _⟩ := hrest
      subst hn
      have hbe : p.b_end = b.addr := by rw [b_end_eq p hp]; exact hadj
      obtain ⟨m1, m2, m3, m4, m5⟩ := merge_facts p b hp hb hbe
      refine ⟨merge p b, by simp, ?_, ?_⟩
      · rw [m1]; omega
      · rw [m5]
  | cons n rest1 ih =>
    intro p b hp hrest hb hch hpb hap
    have hn : InSpace n := hrest n (List.mem_cons_self _ _)
    have hr1 : ∀ x ∈ rest1, InSpace x := fun x hx => hrest x (List.mem_cons_of_mem _ hx)
    have hpn : Gap p n := (List.chain'_cons.mp hch).1
    have hch1 : List.Chain' Gap (n :: rest1) := (List.chain'_cons.mp hch).2
    have hbn : Apart b n := hap n (List.mem_cons_self _ _)
    unfold ff_free_walk
    by_cases hlt : n.addr < b.addr
    · rw [if_pos hlt]
      have hnb : n.addr + HDR + n.size ≤ b.addr := by
        unfold Apart at hbn; unfold InSpace at *; simp only [HDR] at *; omega
      obtain ⟨i1, i2, ⟨c, t, e, ca⟩, i4⟩ := ih n b hn hr1 hb hch1 hnb
        (fun x hx => hap x (List.mem_cons_of_mem _ hx))
      refine ⟨?_, ?_, ⟨p, _, rfl, rfl⟩, ?_⟩
      · rw [e]; rw [e] at i1
        exact List.chain'_cons.mpr ⟨gap_of_addr_le hpn (by omega), i1⟩
      · intro x hx
        rcases List.mem_cons.mp hx with h | h
        · subst h; exact hp
        · exact i2 x h
      · obtain ⟨c', hc', h1, h2⟩ := i4
        exact ⟨c', List.mem_cons_of_mem _ hc', h1, h2⟩
    · rw [if_neg hlt]
      have hbn' : b.addr + HDR + b.size ≤ n.addr := by
        unfold Apart at hbn; unfold InSpace at *; simp only [HDR] at *; omega
      obtain ⟨c1, c2, c, t, e, ca, cl, ct⟩ := coalesce_inv b (n :: rest1) hb hrest hch1
        (by intro m hm; simp at hm; subst hm; exact hbn')
      rw [e] at c1 c2 ⊢
      have hc : InSpace c := c2 c (List.mem_cons_self _ _)
      have hpc : p.addr + HDR + p.size ≤ c.addr := by rw [ca]; exact hpb
      have ht : ∀ x ∈ c :: t, InSpace x := c2
      obtain ⟨d1, d2, d, u, e2, da, dl, _⟩ := coalesce_inv p (c :: t) hp ht c1
        (by intro m hm; simp at hm; subst hm; exact hpc)
      refine ⟨d1, d2, ⟨d, u, e2, da⟩, ?_⟩
      rcases coalesce_cases p (c :: t) hp ht c1
        (by intro m hm; simp at hm; subst hm; exact hpc) with ⟨e', _⟩ | ⟨n', t', hrest', hadj, e', _⟩
      · rw [e']; exact ⟨c, by simp, by omega, cl⟩
      · rw [e']
        simp at hrest'
        obtain ⟨hn', _⟩ := hrest'
        subst hn'
        have hbe : p.b_end = c.addr := by rw [b_end_eq p hp]; exact hadj
        obtain ⟨m1, m2, m3, m4, m5⟩ := merge_facts p c hp hc hbe
        refine ⟨merge p c, by simp, ?_, ?_⟩
        · rw [m1]; omega
        · rw [m5]; exact cl

theorem ff_free_list_inv (fl : List BlockHeader) (b : BlockHeader)
    (hfl : List.Chain' Gap fl) (hsp : ∀ x ∈ fl, InSpace x) (hb : InSpace b)
    (hap : ∀ x ∈ fl, Apart b x) :
    List.Chain' Gap (ff_free_list fl b) ∧ (∀ x ∈ ff_free_list fl b, InSpace x) ∧
    (∃ c ∈ ff_free_list fl b, c.addr ≤ b.addr ∧
      b.addr + HDR + b.size ≤ c.addr + HDR + c.size) := by
  have hb' : InSpace { b with free := true } := hb
  cases fl with
  | nil =>
    show List.Chain' Gap [_] ∧ (∀ x ∈ [_], InSpace x) ∧ _
    refine ⟨List.chain'_singleton _, ?_, ⟨_, List.mem_singleton_self _, le_refl _, le_refl _⟩⟩
    intro x hx; simp at hx; subst hx; exact hb'
  | cons h t =>
    have hh : InSpace h := hsp h (List.mem_cons_self _ _)
    have hbh : Apart b h := hap h (List.mem_cons_self _ _)
    unfold ff_free_list
    simp only
    by_cases hlt : b.addr < h.addr
    · rw [if_pos hlt]
      have hle : b.addr + HDR + b.size ≤ h.addr := by
        unfold Apart at hbh; unfold InSpace at *; simp only [HDR] at *; omega
      obtain ⟨c1, c2, c, u, e, ca, cl, _⟩ := coalesce_inv { b with free := true } (h :: t) hb' hsp hfl
        (by intro m hm; simp at hm; subst hm; exact hle)
      refine ⟨c1, c2, ?_⟩
      rw [e]
      exact ⟨c, List.mem_cons_self _ _, by rw [ca], cl⟩
    · rw [if_neg hlt]
      have hle : h.addr + HDR + h.size ≤ b.addr := by
        unfold Apart at hbh; unfold InSpace at *; simp only [HDR] at *; omega
      obtain ⟨i1, i2, _, i4⟩ := ff_free_walk_inv t h { b with free := true } hh
        (fun x hx => hsp x (List.mem_cons_of_mem _ hx)) hb' hfl hle
        (fun x hx => hap x (List.mem_cons_of_mem _ hx))
      exact ⟨i1, i2, i4⟩

end MyMalloc

namespace Project2

open MyMalloc (BlockHeader)

/-! ## The list functions of the second file are those of the first -/

theorem align8_eq_align8 (n : Nat) : align8 n = MyMalloc.align8 n := rfl

theorem coalesce_around_list_eq (rest : List BlockHeader) :
    ∀ b, coalesce_around_list b rest = MyMalloc.coalesce_around b rest := by
  induction rest with
  | nil => intro b; rfl
  | cons n t ih =>
    intro b
    unfold coalesce_around_list MyMalloc.coalesce_around
    rw [ih]

theorem insert_walk_eq (rest : List BlockHeader) :
    ∀ p b, insert_walk p rest b = MyMalloc.ff_free_walk p rest b := by
  induction rest with
  | nil =>
    intro p b
    unfold insert_walk MyMalloc.ff_free_walk
    rw [coalesce_around_list_eq, coalesce_around_list_eq]
  | cons n t ih =>
    intro p b
    unfold insert_walk MyMalloc.ff_free_walk
    rw [ih, coalesce_around_list_eq, coalesce_around_list_eq]

theorem insert_free_sorted_list_eq (head : List BlockHeader) (b : BlockHeader) :
    insert_free_sorted_list head b = MyMalloc.ff_free_list head b := by
  unfold insert_free_sorted_list MyMalloc.ff_free_list
  cases head with
  | nil => simp only [coalesce_around_list_eq]
  | cons h t => simp only [coalesce_around_list_eq, insert_walk_eq]

theorem remove_from_list_eq (l : List BlockHeader) (a : Nat) :
    remove_from_list l a = MyMalloc.remove_from_free_list l a := by
  induction l with
  | nil => rfl
  | cons h t ih =>
    unfold remove_from_list MyMalloc.remove_from_free_list
    rw [ih]

/-- The two splitting functions agree unless the payload pointer of the tail is
`NULL`, which `maybe_split` hands to `ff_free` and `maybe_split_into_list` does not
look at. -/
theorem maybe_split_into_list_eq (b : BlockHeader) (need : Nat) (head : List BlockHeader)
    (h : ((b.payload + need) % MyMalloc.WORD + MyMalloc.HDR) % MyMalloc.WORD ≠ 0) :
    maybe_split_into_list b need head = MyMalloc.maybe_split head b need := by
  unfold maybe_split_into_list MyMalloc.maybe_split
  have h' : ¬ (⟨(b.payload + need) % MyMalloc.WORD,
      MyMalloc.wsub (MyMalloc.wsub b.size need) MyMalloc.HDR, true⟩ :
      BlockHeader).payload = 0 := h
  simp only [insert_free_sorted_list_eq, if_neg h']

theorem find_best_fit_loop_eq (l : List BlockHeader) (need : Nat) :
    ∀ best best_size,
      find_best_fit_loop l need best best_size = (MyMalloc.bf_search l need best best_size).1 := by
  induction l with
  | nil => intro best best_size; rfl
  | cons b t ih =>
    intro best best_size
    unfold find_best_fit_loop MyMalloc.bf_search
    by_cases h1 : b.free = true ∧ b.size ≥ need
    · by_cases h2 : best_size > b.size
      · have h3 : b.free = true ∧ b.size ≥ need ∧ b.size < best_size := ⟨h1.1, h1.2, h2⟩
        rw [if_pos h3, if_pos h1, if_pos h2]
        by_cases h4 : b.size = need
        · rw [if_pos h4, if_pos h4]
        · rw [if_neg h4, if_neg h4, ih]
      · have h3 : ¬ (b.free = true ∧ b.size ≥ need ∧ b.size < best_size) := fun h => h2 h.2.2
        rw [if_neg h3, if_pos h1, if_neg h2, ih]
    · have h3 : ¬ (b.free = true ∧ b.size ≥ need ∧ b.size < best_size) :=
        fun h => h1 ⟨h.1, h.2.1⟩
      rw [if_neg h3, if_neg h1, ih]

end Project2

namespace MyMalloc

/-! ## The first-fit and best-fit loops -/

theorem bf_search_keep (l : List BlockHeader) (need : Nat) :
    ∀ best bs, (∀ x ∈ l, Fits need x → bs ≤ x.size) →
      bf_search l need best bs = (best, bs) := by
  induction l with
  | nil => intro best bs _; rfl
  | cons h t ih =>
    intro best bs hall
    have ht : ∀ x ∈ t, Fits need x → bs ≤ x.size := fun x hx => hall x (List.mem_cons_of_mem _ hx)
    unfold bf_search
    by_cases h1 : h.free = true ∧ h.size ≥ need
    · have := hall h (List.mem_cons_self _ _) h1
      rw [if_pos h1, if_neg (by omega)]
      exact ih best bs ht
    · rw [if_neg h1]
      exact ih best bs ht

theorem bf_search_pick (l : List BlockHeader) (need : Nat) :
    ∀ best bs, (∃ x ∈ l, Fits need x ∧ x.size < bs) →
      ∃ pre b post, l = pre ++ b :: post ∧ bf_search l need best bs = (some b, b.size) ∧
        Fits need b ∧ b.size < bs ∧ (∀ x ∈ pre, Fits need x → b.size < x.size) ∧
        (∀ x ∈ post, Fits need x → b.size ≤ x.size) := by
  induction l with
  | nil => intro best bs h; obtain ⟨x, hx, _⟩ := h; simp at hx
  | cons h t ih =>
    intro best bs hex
    unfold bf_search
    by_cases h1 : h.free = true ∧ h.size ≥ need
    · rw [if_pos h1]
      by_cases h2 : bs > h.size
      · rw [if_pos h2]
        by_cases h3 : h.size = need
        · rw [if_pos h3]
          refine ⟨[], h, t, rfl, rfl, h1, h2, by simp, ?_⟩
          intro x _ hx; unfold Fits at hx; omega
        · rw [if_neg h3]
          by_cases h4 : ∃ x ∈ t, Fits need x ∧ x.size < h.size
          · obtain ⟨pre, b, post, e, r, fb, lb, hpre, hpost⟩ := ih (some h) h.size h4
            refine ⟨h :: pre, b, post, by rw [e]; rfl, r, fb, by omega, ?_, hpost⟩
            intro x hx fx
            rcases List.mem_cons.mp hx with hh | hh
            · subst hh; exact lb
            · exact hpre x hh fx
          · have h5 : ∀ x ∈ t, Fits need x → h.size ≤ x.size := by
              intro x hx fx
              by_contra hc
              exact h4 ⟨x, hx, fx, by omega⟩
            refine ⟨[], h, t, rfl, bf_search_keep t need _ _ h5, h1, h2, by simp, h5⟩
      · rw [if_neg h2]
        obtain ⟨x, hx, fx, lx⟩ := hex
        have hxt : x ∈ t := by
          rcases List.mem_cons.mp hx with hh | hh
          · subst hh; omega
          · exact hh
        obtain ⟨pre, b, post, e, r, fb, lb, hpre, hpost⟩ := ih best bs ⟨x, hxt, fx, lx⟩
        refine ⟨h :: pre, b, post, by rw [e]; rfl, r, fb, lb, ?_, hpost⟩
        intro y hy fy
        rcases List.mem_cons.mp hy with hh | hh
        · subst hh; omega
        · exact hpre y hh fy
    · rw [if_neg h1]
      obtain ⟨x, hx, fx, lx⟩ := hex
      have hxt : x ∈ t := by
        rcases List.mem_cons.mp hx with hh | hh
        · subst hh; exact absurd fx h1
        · exact hh
      obtain ⟨pre, b, post, e, r, fb, lb, hpre, hpost⟩ := ih best bs ⟨x, hxt, fx, lx⟩
      refine ⟨h :: pre, b, post, by rw [e]; rfl, r, fb, lb, ?_, hpost⟩
      intro y hy fy
      rcases List.mem_cons.mp hy with hh | hh
      · subst hh; exact absurd fy h1
      · exact hpre y hh fy

theorem ff_search_none (l : List BlockHeader) (need : Nat)
    (h : ∀ x ∈ l, ¬ Fits need x) : ff_search l need = none := by
  induction l with
  | nil => rfl
  | cons a t ih =>
    unfold ff_search
    have h1 : ¬ (a.free = true ∧ a.size ≥ need) := h a (List.mem_cons_self _ _)
    rw [if_neg h1]
    exact ih (fun x hx => h x (List.mem_cons_of_mem _ hx))

theorem ff_search_some (l : List BlockHeader) (need : Nat)
    (h : ∃ x ∈ l, Fits need x) :
    ∃ pre b post, l = pre ++ b :: post ∧ ff_search l need = some b ∧ Fits need b ∧
      ∀ x ∈ pre, ¬ Fits need x := by
  induction l with
  | nil => obtain ⟨x, hx, _⟩ := h; simp at hx
  | cons a t ih =>
    unfold ff_search
    by_cases h1 : a.free = true ∧ a.size ≥ need
    · rw [if_pos h1]
      exact ⟨[], a, t, rfl, rfl, h1, by simp⟩
    · rw [if_neg h1]
      obtain ⟨x, hx, fx⟩ := h
      have hxt : x ∈ t := by
        rcases List.mem_cons.mp hx with hh | hh
        · subst hh; exact absurd fx h1
        · exact hh
      obtain ⟨pre, b, post, e, r, fb, hpre⟩ := ih ⟨x, hxt, fx⟩
      refine ⟨a :: pre, b, post, by rw [e]; rfl, r, fb, ?_⟩
      intro y hy
      rcases List.mem_cons.mp hy with hh | hh
      · subst hh; exact h1
      · exact hpre y hh

/-! ## Removal and splitting keep a free list well formed -/

theorem remove_sublist (l : List BlockHeader) (a : Nat) :
    List.Sublist (remove_from_free_list l a) l := by
  induction l with
  | nil => exact List.Sublist.slnil
  | cons h t ih =>
    unfold remove_from_free_list
    by_cases e : h.addr = a
    · rw [if_pos e]; exact List.sublist_cons_self _ _
    · rw [if_neg e]; exact List.Sublist.cons₂ _ ih

theorem remove_mem {l : List BlockHeader} {a : Nat} {x : BlockHeader}
    (h : x ∈ remove_from_free_list l a) : x ∈ l :=
  (remove_sublist l a).subset h

theorem remove_at (pre post : List BlockHeader) (b : BlockHeader)
    (h : ∀ x ∈ pre, x.addr ≠ b.addr) :
    remove_from_free_list (pre ++ b :: post) b.addr = pre ++ post := by
  induction pre with
  | nil => simp [remove_from_free_list]
  | cons p t ih =>
    have hp : p.addr ≠ b.addr := h p (List.mem_cons_self _ _)
    rw [List.cons_append, remove_from_free_list, if_neg hp,
      ih (fun x hx => h x (List.mem_cons_of_mem _ hx))]
    rfl

/-- In a sorted and disjoint list every node before `b` ends below `b` and every node
after `b` starts above the end of `b`. -/
theorem chain_around (pre post : List BlockHeader) (b : BlockHeader)
    (h : List.Chain' Gap (pre ++ b :: post)) :
    (∀ x ∈ pre, Gap x b) ∧ (∀ x ∈ post, Gap b x) := by
  have hp := List.chain'_iff_pairwise.mp h
  rw [List.pairwise_append] at hp
  obtain ⟨_, h2, h3⟩ := hp
  rw [List.pairwise_cons] at h2
  exact ⟨fun x hx => h3 x hx b (List.mem_cons_self _ _), h2.1⟩

/-- The tail that `maybe_split` cuts off `b`. -/
theorem split_tail_facts (b : BlockHeader) (need : Nat) (hb : InSpace b)
    (hs : ¬ b.size < (need + HDR + 8) % WORD) (hn : need ≤ b.size) :
    need + HDR + 8 ≤ b.size ∧ (b.payload + need) % WORD = b.addr + HDR + need ∧
    wsub (wsub b.size need) HDR = b.size - need - HDR ∧
    ((b.payload + need) % WORD + HDR) % WORD ≠ 0 := by
  unfold InSpace at hb
  unfold BlockHeader.payload wsub
  simp only [WORD, HDR] at *
  omega

/-- The outcome of `maybe_split` when it splits and the payload pointer of the tail is
not `NULL`. -/
theorem maybe_split_split (fl : List BlockHeader) (b : BlockHeader) (need : Nat)
    (hs : ¬ b.size < (need + HDR + 8) % WORD)
    (hp : ((b.payload + need) % WORD + HDR) % WORD ≠ 0) :
    maybe_split fl b need =
      ({ b with size := need },
        ff_free_list fl ⟨(b.payload + need) % WORD, wsub (wsub b.size need) HDR, true⟩) := by
  have hp' : ¬ (⟨(b.payload + need) % WORD, wsub (wsub b.size need) HDR, true⟩ :
      BlockHeader).payload = 0 := hp
  unfold maybe_split
  rw [if_neg hs]
  simp only [if_neg hp']

theorem maybe_split_inv (fl : List BlockHeader) (b : BlockHeader) (need : Nat)
    (hfl : List.Chain' Gap fl) (hsp : ∀ x ∈ fl, InSpace x) (hb : InSpace b)
    (hn : need ≤ b.size) (hap : ∀ x ∈ fl, Apart b x) :
    List.Chain' Gap (maybe_split fl b need).2 ∧ (∀ x ∈ (maybe_split fl b need).2, InSpace x) := by
  by_cases hs : b.size < (need + HDR + 8) % WORD
  · unfold maybe_split; rw [if_pos hs]; exact ⟨hfl, hsp⟩
  · obtain ⟨f1, f2, f3, f4⟩ := split_tail_facts b need hb hs hn
    rw [maybe_split_split fl b need hs f4]
    simp only [f2, f3]
    have hnb : InSpace ⟨b.addr + HDR + need, b.size - need - HDR, true⟩ := by
      unfold InSpace at *; simp only [WORD, HDR] at *; omega
    have hap' : ∀ x ∈ fl, Apart ⟨b.addr + HDR + need, b.size - need - HDR, true⟩ x := by
      intro x hx
      have := hap x hx
      unfold Apart at *; simp only [WORD, HDR] at *; omega
    obtain ⟨r1, r2, _⟩ := ff_free_list_inv fl _ hfl hsp hnb hap'
    exact ⟨r1, r2⟩

theorem ff_search_mem {l : List BlockHeader} {need : Nat} {b : BlockHeader}
    (h : ff_search l need = some b) : b ∈ l ∧ Fits need b := by
  by_cases hex : ∃ x ∈ l, Fits need x
  · obtain ⟨pre, c, post, e, r, fc, _⟩ := ff_search_some l need hex
    rw [r] at h
    injection h with h
    subst h
    exact ⟨by rw [e]; simp, fc⟩
  · rw [ff_search_none l need (fun x hx fx => hex ⟨x, hx, fx⟩)] at h
    exact absurd h (by simp)

theorem bf_search_mem {l : List BlockHeader} {need : Nat} {b : BlockHeader}
    (h : (bf_search l need none SIZE_MAX).1 = some b) : b ∈ l ∧ Fits need b := by
  by_cases hex : ∃ x ∈ l, Fits need x ∧ x.size < SIZE_MAX
  · obtain ⟨pre, c, post, e, r, fc, _⟩ := bf_search_pick l need none SIZE_MAX hex
    rw [r] at h
    injection h with h
    subst h
    exact ⟨by rw [e]; simp, fc⟩
  · rw [bf_search_keep l need none SIZE_MAX (fun x hx fx => by
      by_contra hc; exact hex ⟨x, hx, fx, by omega⟩)] at h
    exact absurd h (by simp)

/-- Removing a node of a well-formed list and splitting it leaves a well-formed list. -/
theorem take_inv (l : List BlockHeader) (b : BlockHeader) (need : Nat)
    (hfl : List.Chain' Gap l) (hsp : ∀ x ∈ l, InSpace x) (hb : b ∈ l) (hn : need ≤ b.size) :
    List.Chain' Gap (maybe_split (remove_from_free_list l b.addr)
      { b with free := false } need).2 ∧
    (∀ x ∈ (maybe_split (remove_from_free_list l b.addr)
      { b with free := false } need).2, InSpace x) := by
  obtain ⟨pre, post, e⟩ := List.append_of_mem hb
  subst e
  obtain ⟨g1, g2⟩ := chain_around pre post b hfl
  have hne : ∀ x ∈ pre, x.addr ≠ b.addr := by
    intro x hx; have := g1 x hx; unfold Gap at this; omega
  rw [remove_at pre post b hne]
  apply maybe_split_inv
  · exact hfl.sublist (by simp)
  · intro x hx
    apply hsp
    rcases List.mem_append.mp hx with h | h
    · exact List.mem_append_left _ h
    · exact List.mem_append_right _ (List.mem_cons_of_mem _ h)
  · exact hsp b (by simp)
  · exact hn
  · intro x hx
    rcases List.mem_append.mp hx with h | h
    · have := g1 x h; unfold Gap at this; unfold Apart; simp only [HDR] at *; omega
    · have := g2 x h; unfold Gap at this; unfold Apart; simp only [HDR] at *; omega

theorem request_from_os_free_list (s : State) (n : Nat) :
    (request_from_os s n).2.free_list = s.free_list := by
  unfold request_from_os
  cases h1 : sbrk s.os 0 with
  | mk r1 os1 =>
    cases r1 with
    | none => rfl
    | some old =>
      simp only
      cases h2 : sbrk os1 (toIntptr ((HDR + n) % WORD)) with
      | mk r2 os2 =>
        cases r2 with
        | none => rfl
        | some res => rfl

theorem ff_malloc_inv (s : State) (size : Nat) (hfl : List.Chain' Gap s.free_list)
    (hsp : ∀ x ∈ s.free_list, InSpace x) :
    List.Chain' Gap (ff_malloc s size).2.free_list ∧
    (∀ x ∈ (ff_malloc s size).2.free_list, InSpace x) := by
  unfold ff_malloc
  by_cases h0 : size = 0
  · rw [if_pos h0]; exact ⟨hfl, hsp⟩
  · rw [if_neg h0]
    simp only
    cases hs : ff_search s.free_list (align8 size) with
    | none =>
      simp only
      have := request_from_os_free_list s (align8 size)
      cases hr : request_from_os s (align8 size) with
      | mk r s1 =>
        rw [hr] at this
        cases r with
        | none => simp only; simp only at this; rw [this]; exact ⟨hfl, hsp⟩
        | some nb => simp only; simp only at this; rw [this]; exact ⟨hfl, hsp⟩
    | some b =>
      obtain ⟨hb, fb⟩ := ff_search_mem hs
      exact take_inv s.free_list b _ hfl hsp hb fb.2

theorem bf_malloc_inv (s : State) (size : Nat) (hfl : List.Chain' Gap s.free_list)
    (hsp : ∀ x ∈ s.free_list, InSpace x) :
    List.Chain' Gap (bf_malloc s size).2.free_list ∧
    (∀ x ∈ (bf_malloc s size).2.free_list, InSpace x) := by
  unfold bf_malloc
  by_cases h0 : size = 0
  · rw [if_pos h0]; exact ⟨hfl, hsp⟩
  · rw [if_neg h0]
    simp only
    by_cases hlt : (bf_search s.free_list (align8 size) none SIZE_MAX).2 < SIZE_MAX
    · rw [if_pos hlt]
      cases hs : (bf_search s.free_list (align8 size) none SIZE_MAX).1 with
      | none => exact ⟨hfl, hsp⟩
      | some b =>
        obtain ⟨hb, fb⟩ := bf_search_mem hs
        exact take_inv s.free_list b _ hfl hsp hb fb.2
    · rw [if_neg hlt]
      have := request_from_os_free_list s (align8 size)
      cases hr : request_from_os s (align8 size) with
      | mk r s1 =>
        rw [hr] at this
        cases r with
        | none => simp only; simp only at this; rw [this]; exact ⟨hfl, hsp⟩
        | some nb => simp only; simp only at this; rw [this]; exact ⟨hfl, hsp⟩

theorem maybe_split_addr (fl : List BlockHeader) (b : BlockHeader) (need : Nat) :
    (maybe_split fl b need).1.addr = b.addr := by
  unfold maybe_split
  split <;> rfl

theorem maybe_split_payload (fl : List BlockHeader) (b : BlockHeader) (need : Nat) :
    (maybe_split fl b need).1.payload = b.payload := by
  unfold BlockHeader.payload
  rw [maybe_split_addr]

/-! ## Insertion between two distant neighbours, and the outcome of a split -/

theorem gap_b_end_ne {a b : BlockHeader} (ha : InSpace a) (g : Gap a b) : a.b_end ≠ b.addr := by
  rw [b_end_eq a ha]; unfold Gap at g; omega

/-- The walk of `ff_free` places a block that touches none of its neighbours between
them, without merging anything. -/
theorem ff_free_walk_place (post : List BlockHeader) (nb : BlockHeader) (hnb : InSpace nb)
    (hpost : ∀ y ∈ post, Gap nb y) :
    ∀ (pre : List BlockHeader) (p : BlockHeader), InSpace p → Gap p nb →
      (∀ x ∈ pre, InSpace x ∧ Gap x nb) →
      ff_free_walk p (pre ++ post) nb = p :: (pre ++ nb :: post) := by
  intro pre
  induction pre with
  | nil =>
    intro p hp gp _
    cases post with
    | nil =>
      show coalesce_around p (coalesce_around nb []) = _
      rw [coalesce_nomerge nb [] (by simp), coalesce_nomerge p [nb]]
      · rfl
      · intro n hn; simp at hn; subst hn; exact gap_b_end_ne hp gp
    | cons n t =>
      have gn : Gap nb n := hpost n (List.mem_cons_self _ _)
      have hlt : ¬ n.addr < nb.addr := by unfold Gap at gn; omega
      show ff_free_walk p (n :: t) nb = _
      unfold ff_free_walk
      rw [if_neg hlt, coalesce_nomerge nb (n :: t), coalesce_nomerge p (nb :: n :: t)]
      · rfl
      · intro m hm; simp at hm; subst hm; exact gap_b_end_ne hp gp
      · intro m hm; simp at hm; subst hm; exact gap_b_end_ne hnb gn
  | cons q pre1 ih =>
    intro p hp gp hpre
    have gq : Gap q nb := (hpre q (List.mem_cons_self _ _)).2
    have hlt : q.addr < nb.addr := gq.1
    show ff_free_walk p (q :: (pre1 ++ post)) nb = _
    unfold ff_free_walk
    rw [if_pos hlt, ih q (hpre q (List.mem_cons_self _ _)).1 gq
      (fun x hx => hpre x (List.mem_cons_of_mem _ hx))]
    rfl

/-- The body of `ff_free` places a block that touches none of its neighbours between
them, without merging anything. -/
theorem ff_free_list_place (pre post : List BlockHeader) (nb : BlockHeader)
    (hnb : InSpace nb) (hf : nb.free = true) (hpre : ∀ x ∈ pre, InSpace x ∧ Gap x nb)
    (hpost : ∀ y ∈ post, Gap nb y) :
    ff_free_list (pre ++ post) nb = pre ++ nb :: post := by
  have e : ({ nb with free := true } : BlockHeader) = nb := by
    cases nb; simp only at hf; subst hf; rfl
  unfold ff_free_list
  simp only [e]
  cases pre with
  | nil =>
    cases post with
    | nil => rfl
    | cons n t =>
      have gn : Gap nb n := hpost n (List.mem_cons_self _ _)
      show (if nb.addr < n.addr then coalesce_around nb (n :: t) else ff_free_walk n t nb) = _
      rw [if_pos gn.1, coalesce_nomerge nb (n :: t)]
      · rfl
      · intro m hm; simp at hm; subst hm; exact gap_b_end_ne hnb gn
  | cons p pre1 =>
    have gp := hpre p (List.mem_cons_self _ _)
    have hlt : ¬ nb.addr < p.addr := by have := gp.2.1; omega
    show (if nb.addr < p.addr then coalesce_around nb (p :: (pre1 ++ post))
      else ff_free_walk p (pre1 ++ post) nb) = _
    rw [if_neg hlt, ff_free_walk_place post nb hnb hpost pre1 p gp.1 gp.2
      (fun x hx => hpre x (List.mem_cons_of_mem _ hx))]
    rfl

/-- The two outcomes of `remove_from_free_list` followed by `maybe_split` on a node
`b` of a well-formed list. -/
theorem take_cases (pre post : List BlockHeader) (b : BlockHeader) (need : Nat)
    (hch : List.Chain' Gap (pre ++ b :: post)) (hsp : ∀ x ∈ pre ++ b :: post, InSpace x)
    (hn : need ≤ b.size) :
    (need + HDR + 8 ≤ b.size →
      maybe_split (remove_from_free_list (pre ++ b :: post) b.addr)
          { b with free := false } need =
        (⟨b.addr, need, false⟩,
          pre ++ ⟨b.addr + HDR + need, b.size - need - HDR, true⟩ :: post)) ∧
    (b.size < need + HDR + 8 →
      maybe_split (remove_from_free_list (pre ++ b :: post) b.addr)
          { b with free := false } need =
        ({ b with free := false }, pre ++ post)) := by
  obtain ⟨g1, g2⟩ := chain_around pre post b hch
  have hne : ∀ x ∈ pre, x.addr ≠ b.addr := by
    intro x hx; have := g1 x hx; unfold Gap at this; omega
  have hb : InSpace b := hsp b (by simp)
  rw [remove_at pre post b hne]
  have hbnd : need + HDR + 8 < WORD := by
    unfold InSpace at hb; simp only [WORD, HDR] at *; omega
  have hmod : (need + HDR + 8) % WORD = need + HDR + 8 := Nat.mod_eq_of_lt hbnd
  constructor
  · intro hbig
    have hs : ¬ ({ b with free := false } : BlockHeader).size < (need + HDR + 8) % WORD := by
      rw [hmod]; show ¬ b.size < _; omega
    obtain ⟨_, f2, f3, f4⟩ := split_tail_facts { b with free := false } need hb hs hn
    have f2' : (({ b with free := false } : BlockHeader).payload + need) % WORD =
        b.addr + HDR + need := f2
    have f3' : wsub (wsub b.size need) HDR = b.size - need - HDR := f3
    have hnb : InSpace ⟨b.addr + HDR + need, b.size - need - HDR, true⟩ := by
      unfold InSpace at *; simp only [WORD, HDR] at *; omega
    have hpre : ∀ x ∈ pre, InSpace x ∧
        Gap x ⟨b.addr + HDR + need, b.size - need - HDR, true⟩ := by
      intro x hx
      refine ⟨hsp x (List.mem_append_left _ hx), ?_⟩
      have := g1 x hx
      unfold Gap at *; simp only [WORD, HDR] at *; omega
    have hpost : ∀ y ∈ post, Gap ⟨b.addr + HDR + need, b.size - need - HDR, true⟩ y := by
      intro y hy
      have := g2 y hy
      unfold Gap at *; simp only [WORD, HDR] at *; omega
    rw [maybe_split_split _ _ need hs f4]
    simp only [f2', f3']
    rw [ff_free_list_place pre post _ hnb rfl hpre hpost]
  · intro hsmall
    unfold maybe_split
    rw [if_pos (by rw [hmod]; exact hsmall)]

theorem ff_malloc_hit (s : State) (size : Nat) (b : BlockHeader) (h0 : size ≠ 0)
    (h : ff_search s.free_list (align8 size) = some b) :
    ff_malloc s size =
      ((maybe_split (remove_from_free_list s.free_list b.addr)
          { b with free := false } (align8 size)).1.payload,
        { s with
          free_list := (maybe_split (remove_from_free_list s.free_list b.addr)
            { b with free := false } (align8 size)).2
          used := (maybe_split (remove_from_free_list s.free_list b.addr)
            { b with free := false } (align8 size)).1 :: s.used }) := by
  unfold ff_malloc
  rw [if_neg h0]
  simp only [h]

theorem bf_malloc_hit (s : State) (size : Nat) (b : BlockHeader) (h0 : size ≠ 0)
    (h : (bf_search s.free_list (align8 size) none SIZE_MAX).1 = some b)
    (h2 : (bf_search s.free_list (align8 size) none SIZE_MAX).2 < SIZE_MAX) :
    bf_malloc s size =
      ((maybe_split (remove_from_free_list s.free_list b.addr)
          { b with free := false } (align8 size)).1.payload,
        { s with
          free_list := (maybe_split (remove_from_free_list s.free_list b.addr)
            { b with free := false } (align8 size)).2
          used := (maybe_split (remove_from_free_list s.free_list b.addr)
            { b with free := false } (align8 size)).1 :: s.used }) := by
  unfold bf_malloc
  rw [if_neg h0]
  simp only [h, if_pos h2]

end MyMalloc

namespace Project2

open MyMalloc (BlockHeader maybe_split remove_from_free_list)

theorem ts_malloc_lock_hit (s : State) (size : Nat) (b : BlockHeader) (h0 : size ≠ 0)
    (h : find_best_fit_list s.free_list (align8 size) = some b) :
    ts_malloc_lock s size =
      ((maybe_split_into_list { b with free := false } (align8 size)
          (remove_from_free_list s.free_list b.addr)).1.payload,
        { s with
          free_list := (maybe_split_into_list { b with free := false } (align8 size)
            (remove_from_free_list s.free_list b.addr)).2
          used := (maybe_split_into_list { b with free := false } (align8 size)
            (remove_from_free_list s.free_list b.addr)).1 :: s.used }) := by
  unfold ts_malloc_lock
  rw [if_neg h0]
  simp only [h, remove_from_list_eq]

theorem ts_malloc_nolock_hit (s : State) (t size : Nat) (b : BlockHeader) (h0 : size ≠ 0)
    (h : find_best_fit_list ((reclaim_drain_to_tls s t 32).tls_free_list t) (align8 size) =
      some b) :
    ts_malloc_nolock s t size =
      ((maybe_split_into_list { b with free := false } (align8 size)
          (remove_from_free_list ((reclaim_drain_to_tls s t 32).tls_free_list t)
            b.addr)).1.payload,
        { (reclaim_drain_to_tls s t 32).set_tls t
            (maybe_split_into_list { b with free := false } (align8 size)
              (remove_from_free_list
                ((reclaim_drain_to_tls s t 32).tls_free_list t) b.addr)).2 with
          used := (maybe_split_into_list { b with free := false } (align8 size)
              (remove_from_free_list
                ((reclaim_drain_to_tls s t 32).tls_free_list t) b.addr)).1 ::
            (reclaim_drain_to_tls s t 32).used }) := by
  unfold ts_malloc_nolock
  rw [if_neg h0]
  simp only [h, remove_from_list_eq]

/-- On a block of the address space the two splitting functions agree. -/
theorem maybe_split_into_list_eq_inSpace (b : BlockHeader) (need : Nat)
    (head : List BlockHeader) (hb : MyMalloc.InSpace b) (hn : need ≤ b.size) :
    maybe_split_into_list b need head = MyMalloc.maybe_split head b need := by
  by_cases hs : b.size < (need + MyMalloc.HDR + 8) % MyMalloc.WORD
  · unfold maybe_split_into_list MyMalloc.maybe_split
    rw [if_pos hs, if_pos hs]
  · exact maybe_split_into_list_eq b need head (MyMalloc.split_tail_facts b need hb hs hn).2.2.2

open MyMalloc (BlockHeader)

theorem reclaim_drain_free_list (k : Nat) : ∀ (s : State) (t : Nat),
    (reclaim_drain_to_tls s t k).free_list = s.free_list := by
  induction k with
  | zero => intro s t; rfl
  | succ k ih =>
    intro s t
    unfold reclaim_drain_to_tls reclaim_pop
    cases h : s.global_reclaim with
    | nil => rfl
    | cons b rest => simp only; rw [ih]; rfl

theorem reclaim_drain_other (k : Nat) : ∀ (s : State) (t u : Nat), u ≠ t →
    (reclaim_drain_to_tls s t k).tls_free_list u = s.tls_free_list u := by
  induction k with
  | zero => intro s t u _; rfl
  | succ k ih =>
    intro s t u hu
    unfold reclaim_drain_to_tls reclaim_pop
    cases h : s.global_reclaim with
    | nil => rfl
    | cons b rest =>
      simp only
      rw [ih _ t u hu]
      show (if u = t then _ else s.tls_free_list u) = _
      rw [if_neg hu]

end Project2

namespace MyMalloc

/-! ## Alignment is preserved by every operation -/

theorem align8_mod (n : Nat) : align8 n % 8 = 0 := by
  rw [align8_eq]; omega

theorem payload_mod (q : Nat) (b : BlockHeader) (h : Aligned q b) :
    b.payload % 8 = q % 8 := by
  unfold BlockHeader.payload; unfold Aligned at h
  simp only [WORD, HDR] at *; omega

theorem coalesce_aligned (q : Nat) (rest : List BlockHeader) : ∀ b, Aligned q b →
    (∀ x ∈ rest, Aligned q x) → ∀ x ∈ coalesce_around b rest, Aligned q x := by
  induction rest with
  | nil => intro b hb _ x hx; simp [coalesce_around] at hx; subst hx; exact hb
  | cons n t ih =>
    intro b hb hr
    have hn : Aligned q n := hr n (List.mem_cons_self _ _)
    unfold coalesce_around
    split
    · apply ih
      · unfold Aligned at *; simp only [WORD, HDR] at *; omega
      · exact fun x hx => hr x (List.mem_cons_of_mem _ hx)
    · intro x hx
      rcases List.mem_cons.mp hx with h | h
      · subst h; exact hb
      · exact hr x h

theorem ff_free_walk_aligned (q : Nat) (rest : List BlockHeader) : ∀ p b, Aligned q p → Aligned q b →
    (∀ x ∈ rest, Aligned q x) → ∀ x ∈ ff_free_walk p rest b, Aligned q x := by
  induction rest with
  | nil =>
    intro p b hp hb _
    unfold ff_free_walk
    exact coalesce_aligned q _ p hp (coalesce_aligned q [] b hb (by simp))
  | cons n t ih =>
    intro p b hp hb hr
    unfold ff_free_walk
    split
    · intro x hx
      rcases List.mem_cons.mp hx with h | h
      · subst h; exact hp
      · exact ih n b (hr n (List.mem_cons_self _ _)) hb
          (fun y hy => hr y (List.mem_cons_of_mem _ hy)) x h
    · exact coalesce_aligned q _ p hp (coalesce_aligned q _ b hb hr)

theorem ff_free_list_aligned (q : Nat) (fl : List BlockHeader) (b : BlockHeader) (hb : Aligned q b)
    (hfl : ∀ x ∈ fl, Aligned q x) : ∀ x ∈ ff_free_list fl b, Aligned q x := by
  have hb' : Aligned q { b with free := true } := hb
  unfold ff_free_list
  cases fl with
  | nil => exact coalesce_aligned q [] _ hb' (by simp)
  | cons h t =>
    simp only
    split
    · exact coalesce_aligned q _ _ hb' hfl
    · exact ff_free_walk_aligned q t h _ (hfl h (List.mem_cons_self _ _)) hb'
        (fun y hy => hfl y (List.mem_cons_of_mem _ hy))

theorem maybe_split_aligned (q : Nat) (fl : List BlockHeader) (b : BlockHeader) (need : Nat)
    (hb : Aligned q b) (hn : need % 8 = 0) (hfl : ∀ x ∈ fl, Aligned q x) :
    Aligned q (maybe_split fl b need).1 ∧ ∀ x ∈ (maybe_split fl b need).2, Aligned q x := by
  unfold maybe_split
  split
  · exact ⟨hb, hfl⟩
  · refine ⟨⟨hb.1, hn⟩, ?_⟩
    simp only
    split
    · exact hfl
    · apply ff_free_list_aligned q _ _ _ hfl
      unfold Aligned BlockHeader.payload wsub
      unfold Aligned at hb
      simp only [WORD, HDR] at *
      omega

theorem lookup_mem {l : List BlockHeader} {a : Nat} {b : BlockHeader}
    (h : lookup l a = some b) : b ∈ l := by
  induction l with
  | nil => simp [lookup] at h
  | cons x t ih =>
    unfold lookup at h
    split at h
    · injection h with h; subst h; exact List.mem_cons_self _ _
    · exact List.mem_cons_of_mem _ (ih h)

theorem forget_mem {l : List BlockHeader} {a : Nat} {x : BlockHeader}
    (h : x ∈ forget l a) : x ∈ l := by
  induction l with
  | nil => simp [forget] at h
  | cons y t ih =>
    unfold forget at h
    split at h
    · exact List.mem_cons_of_mem _ h
    · rcases List.mem_cons.mp h with e | e
      · subst e; exact List.mem_cons_self _ _
      · exact List.mem_cons_of_mem _ (ih e)

theorem toIntptr_mod (n : Nat) (h : n % 8 = 0) : toIntptr n % 8 = 0 := by
  unfold toIntptr
  split <;> simp only [WORD] at * <;> omega

/-- What `sbrk` answers: failure with the break unmoved, the old break with the break
unmoved, or the old break with the break moved by the increment. -/
theorem sbrk_cases (os : OS) (inc : Int) :
    (sbrk os inc = (none, os)) ∨ (sbrk os inc = (some os.brk, os)) ∨
    (0 ≤ (os.brk : Int) + inc ∧
      sbrk os inc = (some os.brk, { os with brk := ((os.brk : Int) + inc).toNat })) := by
  unfold sbrk
  split
  · right; left; rfl
  · split
    · split
      · right; right; exact ⟨by omega, rfl⟩
      · left; rfl
    · split
      · left; rfl
      · split
        · right; right; exact ⟨by omega, rfl⟩
        · right; left; rfl

/-- What `request_from_os` answers: either nothing changes, or a header is written at
the old break and the break is where `sbrk` left it: moved by the signed increment, or
unmoved. -/
theorem request_from_os_cases (s : State) (n : Nat) :
    (request_from_os s n = (none, s)) ∨
    (∃ brk1, (brk1 = s.os.brk ∨
        (0 ≤ (s.os.brk : Int) + toIntptr ((HDR + n) % WORD) ∧
          brk1 = ((s.os.brk : Int) + toIntptr ((HDR + n) % WORD)).toNat)) ∧
      request_from_os s n =
        (some ⟨s.os.brk, n, false⟩,
          { free_list := s.free_list
            heap_start := if s.heap_start = 0 then s.os.brk else s.heap_start
            heap_end := (s.os.brk + (HDR + n) % WORD) % WORD
            os := { s.os with brk := brk1 }
            used := ⟨s.os.brk, n, false⟩ :: s.used })) := by
  unfold request_from_os
  have h1 : sbrk s.os 0 = (some s.os.brk, s.os) := by simp [sbrk]
  rw [h1]
  simp only
  rcases sbrk_cases s.os (toIntptr ((HDR + n) % WORD)) with h2 | h2 | ⟨h0, h2⟩
  · left; rw [h2]
  · right; rw [h2]; exact ⟨s.os.brk, Or.inl rfl, rfl⟩
  · right; rw [h2]; exact ⟨_, Or.inr ⟨h0, rfl⟩, rfl⟩

theorem request_from_os_aligned (q : Nat) (s : State) (n : Nat) (hs : AlignedState q s)
    (hn : n % 8 = 0) :
    AlignedState q (request_from_os s n).2 ∧
    ∀ b, (request_from_os s n).1 = some b → Aligned q b := by
  obtain ⟨h1, h2, h3⟩ := hs
  rcases request_from_os_cases s n with e | ⟨brk1, hk, e⟩
  · rw [e]; exact ⟨⟨h1, h2, h3⟩, by intro b hb; simp at hb⟩
  · rw [e]
    have hb : Aligned q ⟨s.os.brk, n, false⟩ := ⟨h3, hn⟩
    refine ⟨⟨h1, ?_, ?_⟩, ?_⟩
    · intro x hx
      rcases List.mem_cons.mp hx with h | h
      · subst h; exact hb
      · exact h2 x h
    · have := toIntptr_mod ((HDR + n) % WORD) (by simp only [WORD, HDR]; omega)
      show brk1 % 8 = q % 8
      rcases hk with hk | ⟨hk0, hk⟩ <;> omega
    · intro b hb'
      simp only [Option.some.injEq] at hb'
      subst hb'; exact hb

theorem take_aligned (q : Nat) (l : List BlockHeader) (b : BlockHeader) (need : Nat)
    (hl : ∀ x ∈ l, Aligned q x) (hb : b ∈ l) (hn : need % 8 = 0) :
    Aligned q (maybe_split (remove_from_free_list l b.addr) { b with free := false } need).1 ∧
    ∀ x ∈ (maybe_split (remove_from_free_list l b.addr) { b with free := false } need).2,
      Aligned q x :=
  maybe_split_aligned q _ _ _ (hl b hb) hn (fun x hx => hl x (remove_mem hx))

theorem ff_malloc_aligned (q : Nat) (s : State) (size : Nat) (hs : AlignedState q s) :
    ((ff_malloc s size).1 = 0 ∨ (ff_malloc s size).1 % 8 = q % 8) ∧
      AlignedState q (ff_malloc s size).2 := by
  by_cases h0 : size = 0
  · unfold ff_malloc; rw [if_pos h0]; exact ⟨Or.inl rfl, hs⟩
  · cases hf : ff_search s.free_list (align8 size) with
    | some b =>
      rw [ff_malloc_hit s size b h0 hf]
      obtain ⟨a1, a2⟩ := take_aligned q s.free_list b (align8 size) hs.1 (ff_search_mem hf).1
        (align8_mod size)
      refine ⟨Or.inr (payload_mod q _ a1), a2, ?_, hs.2.2⟩
      intro x hx
      rcases List.mem_cons.mp hx with h | h
      · subst h; exact a1
      · exact hs.2.1 x h
    | none =>
      obtain ⟨r1, r2⟩ := request_from_os_aligned q s (align8 size) hs (align8_mod size)
      unfold ff_malloc
      rw [if_neg h0]
      simp only [hf]
      cases hr : request_from_os s (align8 size) with
      | mk r s1 =>
        rw [hr] at r1 r2
        cases r with
        | none => exact ⟨Or.inl rfl, r1⟩
        | some nb => exact ⟨Or.inr (payload_mod q _ (r2 nb rfl)), r1⟩

theorem bf_malloc_aligned (q : Nat) (s : State) (size : Nat) (hs : AlignedState q s) :
    ((bf_malloc s size).1 = 0 ∨ (bf_malloc s size).1 % 8 = q % 8) ∧
      AlignedState q (bf_malloc s size).2 := by
  by_cases h0 : size = 0
  · unfold bf_malloc; rw [if_pos h0]; exact ⟨Or.inl rfl, hs⟩
  · by_cases hlt : (bf_search s.free_list (align8 size) none SIZE_MAX).2 < SIZE_MAX
    · cases hf : (bf_search s.free_list (align8 size) none SIZE_MAX).1 with
      | some b =>
        rw [bf_malloc_hit s size b h0 hf hlt]
        obtain ⟨a1, a2⟩ := take_aligned q s.free_list b (align8 size) hs.1 (bf_search_mem hf).1
          (align8_mod size)
        refine ⟨Or.inr (payload_mod q _ a1), a2, ?_, hs.2.2⟩
        intro x hx
        rcases List.mem_cons.mp hx with h | h
        · subst h; exact a1
        · exact hs.2.1 x h
      | none =>
        unfold bf_malloc
        rw [if_neg h0]
        simp only [hf, if_pos hlt]
        exact ⟨Or.inl trivial, hs⟩
    · obtain ⟨r1, r2⟩ := request_from_os_aligned q s (align8 size) hs (align8_mod size)
      unfold bf_malloc
      rw [if_neg h0]
      simp only [if_neg hlt]
      cases hr : request_from_os s (align8 size) with
      | mk r s1 =>
        rw [hr] at r1 r2
        cases r with
        | none => exact ⟨Or.inl rfl, r1⟩
        | some nb => exact ⟨Or.inr (payload_mod q _ (r2 nb rfl)), r1⟩

theorem ff_free_aligned (q : Nat) (s s1 : State) (ptr : Nat) (hs : AlignedState q s)
    (h : ff_free s ptr = some s1) : AlignedState q s1 := by
  unfold ff_free at h
  split at h
  · injection h with h; subst h; exact hs
  · cases hl : lookup s.used (wsub ptr HDR) with
    | none => rw [hl] at h; simp at h
    | some b =>
      rw [hl] at h
      simp only [Option.some.injEq] at h
      subst h
      refine ⟨ff_free_list_aligned q _ _ (hs.2.1 b (lookup_mem hl)) hs.1, ?_, hs.2.2⟩
      intro x hx
      exact hs.2.1 x (forget_mem hx)

theorem step_aligned (q : Nat) (s s1 : State) (op : Op) (r : Option Nat) (hs : AlignedState q s)
    (h : step s op = some (r, s1)) : (∀ p ∈ r, p = 0 ∨ p % 8 = q % 8) ∧ AlignedState q s1 := by
  cases op with
  | ff_malloc size =>
    simp only [step, Option.some.injEq, Prod.mk.injEq] at h
    obtain ⟨h1, h2⟩ := h
    subst h1 h2
    obtain ⟨a, b⟩ := ff_malloc_aligned q s size hs
    exact ⟨by intro p hp; simp at hp; subst hp; exact a, b⟩
  | bf_malloc size =>
    simp only [step, Option.some.injEq, Prod.mk.injEq] at h
    obtain ⟨h1, h2⟩ := h
    subst h1 h2
    obtain ⟨a, b⟩ := bf_malloc_aligned q s size hs
    exact ⟨by intro p hp; simp at hp; subst hp; exact a, b⟩
  | ff_free ptr =>
    simp only [step, Option.map_eq_some', Prod.mk.injEq] at h
    obtain ⟨s2, h1, h2, h3⟩ := h
    subst h2 h3
    exact ⟨by intro p hp; simp at hp, ff_free_aligned q s s2 ptr hs h1⟩
  | bf_free ptr =>
    simp only [step, Option.map_eq_some', Prod.mk.injEq] at h
    obtain ⟨s2, h1, h2, h3⟩ := h
    subst h2 h3
    exact ⟨by intro p hp; simp at hp, ff_free_aligned q s s2 ptr hs h1⟩

theorem run_aligned (q : Nat) (ops : List Op) : ∀ (s s1 : State) (out : List Nat), AlignedState q s →
    run s ops = some (out, s1) → (∀ p ∈ out, p = 0 ∨ p % 8 = q % 8) ∧ AlignedState q s1 := by
  induction ops with
  | nil =>
    intro s s1 out hs h
    simp only [run, Option.some.injEq, Prod.mk.injEq] at h
    obtain ⟨h1, h2⟩ := h
    subst h1 h2
    exact ⟨by intro p hp; simp at hp, hs⟩
  | cons op ops ih =>
    intro s s1 out hs h
    unfold run at h
    cases h1 : step s op with
    | none => rw [h1] at h; simp at h
    | some r1 =>
      obtain ⟨r, s2⟩ := r1
      rw [h1] at h
      simp only at h
      cases h2 : run s2 ops with
      | none => rw [h2] at h; simp at h
      | some r2 =>
        obtain ⟨out2, s3⟩ := r2
        rw [h2] at h
        simp only [Option.some.injEq, Prod.mk.injEq] at h
        obtain ⟨e1, e2⟩ := h
        subst e1 e2
        obtain ⟨a1, a2⟩ := step_aligned q s s2 op r hs h1
        obtain ⟨b1, b2⟩ := ih s2 s3 out2 a2 h2
        refine ⟨?_, b2⟩
        intro p hp
        rcases List.mem_append.mp hp with h | h
        · exact a1 p (by simpa using h)
        · exact b1 p h

end MyMalloc

namespace Project2

open MyMalloc (BlockHeader Aligned HDR WORD SIZE_MAX toIntptr sbrk lookup forget wsub)

/-- What `request_from_os` of the second file answers: either nothing changes, or a
header is written at the old break and the break is where `sbrk` left it. -/
theorem ts_request_from_os_cases (s : State) (n : Nat) :
    (request_from_os s n = (none, s)) ∨
    (∃ brk1, (brk1 = s.os.brk ∨
        (0 ≤ (s.os.brk : Int) + toIntptr ((HDR + n) % WORD) ∧
          brk1 = ((s.os.brk : Int) + toIntptr ((HDR + n) % WORD)).toNat)) ∧
      request_from_os s n =
        (some ⟨s.os.brk, n, false⟩,
          { free_list := s.free_list
            tls_free_list := s.tls_free_list
            global_reclaim := s.global_reclaim
            heap_start := if s.heap_start = 0 then s.os.brk else s.heap_start
            heap_end := (s.os.brk + (HDR + n) % WORD) % WORD
            os := { s.os with brk := brk1 }
            used := ⟨s.os.brk, n, false⟩ :: s.used })) := by
  unfold request_from_os
  have h1 : sbrk s.os 0 = (some s.os.brk, s.os) := by simp [sbrk]
  rw [h1]
  simp only
  rcases MyMalloc.sbrk_cases s.os (toIntptr ((HDR + n) % WORD)) with h2 | h2 | ⟨h0, h2⟩
  · left; rw [h2]
  · right; rw [h2]; exact ⟨s.os.brk, Or.inl rfl, rfl⟩
  · right; rw [h2]; exact ⟨_, Or.inr ⟨h0, rfl⟩, rfl⟩

theorem ts_request_from_os_aligned (q : Nat) (s : State) (n : Nat) (hs : AlignedState q s)
    (hn : n % 8 = 0) :
    AlignedState q (request_from_os s n).2 ∧
    ∀ b, (request_from_os s n).1 = some b → Aligned q b := by
  obtain ⟨h1, h2, h3, h4, h5⟩ := hs
  rcases ts_request_from_os_cases s n with e | ⟨brk1, hk, e⟩
  · rw [e]; exact ⟨⟨h1, h2, h3, h4, h5⟩, by intro b hb; simp at hb⟩
  · rw [e]
    have hb : Aligned q ⟨s.os.brk, n, false⟩ := ⟨h5, hn⟩
    refine ⟨⟨h1, h2, h3, ?_, ?_⟩, ?_⟩
    · intro x hx
      rcases List.mem_cons.mp hx with h | h
      · subst h; exact hb
      · exact h4 x h
    · have := MyMalloc.toIntptr_mod ((HDR + n) % WORD) (by simp only [WORD, HDR]; omega)
      show brk1 % 8 = q % 8
      rcases hk with hk | ⟨hk0, hk⟩ <;> omega
    · intro b hb'
      simp only [Option.some.injEq] at hb'
      subst hb'; exact hb

theorem maybe_split_into_list_aligned (q : Nat) (head : List BlockHeader) (b : BlockHeader) (need : Nat)
    (hb : MyMalloc.Aligned q b) (hn : need % 8 = 0) (hfl : ∀ x ∈ head, MyMalloc.Aligned q x) :
    MyMalloc.Aligned q (maybe_split_into_list b need head).1 ∧
    ∀ x ∈ (maybe_split_into_list b need head).2, MyMalloc.Aligned q x := by
  unfold maybe_split_into_list
  split
  · exact ⟨hb, hfl⟩
  · refine ⟨⟨hb.1, hn⟩, ?_⟩
    simp only [insert_free_sorted_list_eq]
    apply MyMalloc.ff_free_list_aligned q _ _ _ hfl
    unfold MyMalloc.Aligned MyMalloc.BlockHeader.payload MyMalloc.wsub
    unfold MyMalloc.Aligned at hb
    simp only [MyMalloc.WORD, MyMalloc.HDR] at *
    omega

theorem find_best_fit_list_mem {l : List BlockHeader} {need : Nat} {b : BlockHeader}
    (h : find_best_fit_list l need = some b) : b ∈ l ∧ MyMalloc.Fits need b := by
  unfold find_best_fit_list at h
  rw [find_best_fit_loop_eq] at h
  exact MyMalloc.bf_search_mem h

theorem reclaim_drain_aligned (q : Nat) (k : Nat) : ∀ (s : State) (t : Nat), AlignedState q s →
    AlignedState q (reclaim_drain_to_tls s t k) := by
  induction k with
  | zero => intro s t hs; exact hs
  | succ k ih =>
    intro s t hs
    obtain ⟨h1, h2, h3, h4, h5⟩ := hs
    unfold reclaim_drain_to_tls reclaim_pop
    cases h : s.global_reclaim with
    | nil => exact ⟨h1, h2, h3, h4, h5⟩
    | cons b rest =>
      simp only
      rw [h] at h3
      apply ih
      refine ⟨h1, ?_, fun x hx => h3 x (List.mem_cons_of_mem _ hx), h4, h5⟩
      intro u x hx
      have hx' : x ∈ (if u = t then insert_free_sorted_list (s.tls_free_list t) b
          else s.tls_free_list u) := hx
      split at hx'
      · rw [insert_free_sorted_list_eq] at hx'
        exact MyMalloc.ff_free_list_aligned q _ _ (h3 b (List.mem_cons_self _ _)) (h2 t) x hx'
      · exact h2 u x hx'

theorem ts_malloc_lock_aligned (q : Nat) (s : State) (size : Nat) (hs : AlignedState q s) :
    ((ts_malloc_lock s size).1 = 0 ∨ (ts_malloc_lock s size).1 % 8 = q % 8) ∧
      AlignedState q (ts_malloc_lock s size).2 := by
  by_cases h0 : size = 0
  · unfold ts_malloc_lock; rw [if_pos h0]; exact ⟨Or.inl rfl, hs⟩
  · cases hf : find_best_fit_list s.free_list (align8 size) with
    | some b =>
      rw [ts_malloc_lock_hit s size b h0 hf]
      obtain ⟨a1, a2⟩ := maybe_split_into_list_aligned q
        (MyMalloc.remove_from_free_list s.free_list b.addr) { b with free := false }
        (align8 size) (hs.1 b (find_best_fit_list_mem hf).1) (MyMalloc.align8_mod size)
        (fun x hx => hs.1 x (MyMalloc.remove_mem hx))
      refine ⟨Or.inr (MyMalloc.payload_mod q _ a1), a2, hs.2.1, hs.2.2.1, ?_, hs.2.2.2.2⟩
      intro x hx
      rcases List.mem_cons.mp hx with h | h
      · subst h; exact a1
      · exact hs.2.2.2.1 x h
    | none =>
      obtain ⟨r1, r2⟩ := ts_request_from_os_aligned q s (align8 size) hs (MyMalloc.align8_mod size)
      unfold ts_malloc_lock
      rw [if_neg h0]
      simp only [hf]
      cases hr : request_from_os s (align8 size) with
      | mk r s1 =>
        rw [hr] at r1 r2
        cases r with
        | none => exact ⟨Or.inl rfl, r1⟩
        | some nb => exact ⟨Or.inr (MyMalloc.payload_mod q _ (r2 nb rfl)), r1⟩

theorem ts_malloc_nolock_aligned (q : Nat) (s : State) (t size : Nat) (hs : AlignedState q s) :
    ((ts_malloc_nolock s t size).1 = 0 ∨ (ts_malloc_nolock s t size).1 % 8 = q % 8) ∧
      AlignedState q (ts_malloc_nolock s t size).2 := by
  by_cases h0 : size = 0
  · unfold ts_malloc_nolock; rw [if_pos h0]; exact ⟨Or.inl rfl, hs⟩
  · have hd := reclaim_drain_aligned q 32 s t hs
    cases hf : find_best_fit_list ((reclaim_drain_to_tls s t 32).tls_free_list t)
        (align8 size) with
    | some b =>
      rw [ts_malloc_nolock_hit s t size b h0 hf]
      obtain ⟨a1, a2⟩ := maybe_split_into_list_aligned q
        (MyMalloc.remove_from_free_list ((reclaim_drain_to_tls s t 32).tls_free_list t) b.addr)
        { b with free := false } (align8 size) (hd.2.1 t b (find_best_fit_list_mem hf).1)
        (MyMalloc.align8_mod size) (fun x hx => hd.2.1 t x (MyMalloc.remove_mem hx))
      refine ⟨Or.inr (MyMalloc.payload_mod q _ a1), hd.1, ?_, hd.2.2.1, ?_, hd.2.2.2.2⟩
      · intro u x hx
        have hx' : x ∈ (if u = t then _ else (reclaim_drain_to_tls s t 32).tls_free_list u) := hx
        split at hx'
        · exact a2 x hx'
        · exact hd.2.1 u x hx'
      · intro x hx
        rcases List.mem_cons.mp hx with h | h
        · subst h; exact a1
        · exact hd.2.2.2.1 x h
    | none =>
      obtain ⟨r1, r2⟩ := ts_request_from_os_aligned q _ (align8 size) hd (MyMalloc.align8_mod size)
      unfold ts_malloc_nolock
      rw [if_neg h0]
      simp only [hf]
      cases hr : request_from_os (reclaim_drain_to_tls s t 32) (align8 size) with
      | mk r s1 =>
        rw [hr] at r1 r2
        cases r with
        | none => exact ⟨Or.inl rfl, r1⟩
        | some nb => exact ⟨Or.inr (MyMalloc.payload_mod q _ (r2 nb rfl)), r1⟩

theorem ts_free_lock_aligned (q : Nat) (s s1 : State) (ptr : Nat) (hs : AlignedState q s)
    (h : ts_free_lock s ptr = some s1) : AlignedState q s1 := by
  unfold ts_free_lock at h
  split at h
  · injection h with h; subst h; exact hs
  · cases hl : lookup s.used (wsub ptr HDR) with
    | none => rw [hl] at h; simp at h
    | some b =>
      rw [hl] at h
      simp only [Option.some.injEq] at h
      subst h
      refine ⟨?_, hs.2.1, hs.2.2.1, ?_, hs.2.2.2.2⟩
      · rw [insert_free_sorted_list_eq]
        exact MyMalloc.ff_free_list_aligned q _ _ (hs.2.2.2.1 b (MyMalloc.lookup_mem hl)) hs.1
      · intro x hx
        exact hs.2.2.2.1 x (MyMalloc.forget_mem hx)

theorem ts_free_nolock_aligned (q : Nat) (s s1 : State) (ptr : Nat) (hs : AlignedState q s)
    (h : ts_free_nolock s ptr = some s1) : AlignedState q s1 := by
  unfold ts_free_nolock at h
  split at h
  · injection h with h; subst h; exact hs
  · cases hl : lookup s.used (wsub ptr HDR) with
    | none => rw [hl] at h; simp at h
    | some b =>
      rw [hl] at h
      simp only [Option.some.injEq] at h
      subst h
      refine ⟨hs.1, hs.2.1, ?_, ?_, hs.2.2.2.2⟩
      · intro x hx
        rcases List.mem_cons.mp hx with e | e
        · subst e; exact hs.2.2.2.1 b (MyMalloc.lookup_mem hl)
        · exact hs.2.2.1 x e
      · intro x hx
        exact hs.2.2.2.1 x (MyMalloc.forget_mem hx)

theorem ts_step_aligned (q : Nat) (s s1 : State) (op : Op) (r : Option Nat) (hs : AlignedState q s)
    (h : step s op = some (r, s1)) : (∀ p ∈ r, p = 0 ∨ p % 8 = q % 8) ∧ AlignedState q s1 := by
  cases op with
  | ts_malloc_lock size =>
    simp only [step, Option.some.injEq, Prod.mk.injEq] at h
    obtain ⟨h1, h2⟩ := h
    subst h1 h2
    obtain ⟨a, b⟩ := ts_malloc_lock_aligned q s size hs
    exact ⟨by intro p hp; simp at hp; subst hp; exact a, b⟩
  | ts_malloc_nolock t size =>
    simp only [step, Option.some.injEq, Prod.mk.injEq] at h
    obtain ⟨h1, h2⟩ := h
    subst h1 h2
    obtain ⟨a, b⟩ := ts_malloc_nolock_aligned q s t size hs
    exact ⟨by intro p hp; simp at hp; subst hp; exact a, b⟩
  | ts_free_lock ptr =>
    simp only [step, Option.map_eq_some', Prod.mk.injEq] at h
    obtain ⟨s2, h1, h2, h3⟩ := h
    subst h2 h3
    exact ⟨by intro p hp; simp at hp, ts_free_lock_aligned q s s2 ptr hs h1⟩
  | ts_free_nolock ptr =>
    simp only [step, Option.map_eq_some', Prod.mk.injEq] at h
    obtain ⟨s2, h1, h2, h3⟩ := h
    subst h2 h3
    exact ⟨by intro p hp; simp at hp, ts_free_nolock_aligned q s s2 ptr hs h1⟩

theorem ts_run_aligned (q : Nat) (ops : List Op) : ∀ (s s1 : State) (out : List Nat), AlignedState q s →
    run s ops = some (out, s1) → (∀ p ∈ out, p = 0 ∨ p % 8 = q % 8) ∧ AlignedState q s1 := by
  induction ops with
  | nil =>
    intro s s1 out hs h
    simp only [run, Option.some.injEq, Prod.mk.injEq] at h
    obtain ⟨h1, h2⟩ := h
    subst h1 h2
    exact ⟨by intro p hp; simp at hp, hs⟩
  | cons op ops ih =>
    intro s s1 out hs h
    unfold run at h
    cases h1 : step s op with
    | none => rw [h1] at h; simp at h
    | some r1 =>
      obtain ⟨r, s2⟩ := r1
      rw [h1] at h
      simp only at h
      cases h2 : run s2 ops with
      | none => rw [h2] at h; simp at h
      | some r2 =>
        obtain ⟨out2, s3⟩ := r2
        rw [h2] at h
        simp only [Option.some.injEq, Prod.mk.injEq] at h
        obtain ⟨e1, e2⟩ := h
        subst e1 e2
        obtain ⟨a1, a2⟩ := ts_step_aligned q s s2 op r hs h1
        obtain ⟨b1, b2⟩ := ih s2 s3 out2 a2 h2
        refine ⟨?_, b2⟩
        intro p hp
        rcases List.mem_append.mp hp with h | h
        · exact a1 p (by simpa using h)
        · exact b1 p h

end Project2

namespace MyMalloc

/-! ## Growth when the data segment has room -/

/-- Freeing three contiguous blocks into an empty list, in any order, leaves one
block. -/
theorem three_way_list (A s1 s2 s3 : Nat) (hA : A + HDR + s1 + HDR + s2 + HDR + s3 < WORD) :
    ff_free_list (ff_free_list (ff_free_list [] ⟨A, s1, false⟩) ⟨A + HDR + s1, s2, false⟩)
        ⟨A + HDR + s1 + HDR + s2, s3, false⟩ = [⟨A, s1 + s2 + s3 + 2 * HDR, true⟩] ∧
    ff_free_list (ff_free_list (ff_free_list [] ⟨A, s1, false⟩)
        ⟨A + HDR + s1 + HDR + s2, s3, false⟩) ⟨A + HDR + s1, s2, false⟩ =
      [⟨A, s1 + s2 + s3 + 2 * HDR, true⟩] ∧
    ff_free_list (ff_free_list (ff_free_list [] ⟨A + HDR + s1, s2, false⟩) ⟨A, s1, false⟩)
        ⟨A + HDR + s1 + HDR + s2, s3, false⟩ = [⟨A, s1 + s2 + s3 + 2 * HDR, true⟩] ∧
    ff_free_list (ff_free_list (ff_free_list [] ⟨A + HDR + s1, s2, false⟩)
        ⟨A + HDR + s1 + HDR + s2, s3, false⟩) ⟨A, s1, false⟩ =
      [⟨A, s1 + s2 + s3 + 2 * HDR, true⟩] ∧
    ff_free_list (ff_free_list (ff_free_list [] ⟨A + HDR + s1 + HDR + s2, s3, false⟩)
        ⟨A, s1, false⟩) ⟨A + HDR + s1, s2, false⟩ = [⟨A, s1 + s2 + s3 + 2 * HDR, true⟩] ∧
    ff_free_list (ff_free_list (ff_free_list [] ⟨A + HDR + s1 + HDR + s2, s3, false⟩)
        ⟨A + HDR + s1, s2, false⟩) ⟨A, s1, false⟩ = [⟨A, s1 + s2 + s3 + 2 * HDR, true⟩] := by
  simp only [WORD, HDR] at *
  refine ⟨?_, ?_, ?_, ?_, ?_, ?_⟩ <;>
  · simp (disch := omega) only [ff_free_list, ff_free_walk, coalesce_around,
      BlockHeader.b_end, WORD, HDR, if_pos, if_neg]
    simp only [List.cons.injEq, BlockHeader.mk.injEq, and_true, true_and]
    omega

theorem toIntptr_small (n : Nat) (h : n < 9223372036854775808) : toIntptr n = (n : Int) := by
  unfold toIntptr
  have : n % WORD = n := Nat.mod_eq_of_lt (by simp only [WORD]; omega)
  rw [this, if_pos h]

/-- A successful call of `sbrk` with a non-negative increment. -/
theorem sbrk_grow (os : OS) (n : Nat) (hlo : os.lo ≤ os.brk) (hhi : os.brk + n ≤ os.hi)
    (hw : os.hi < WORD) :
    sbrk os (n : Int) = (some os.brk, { os with brk := os.brk + n }) := by
  by_cases h0 : n = 0
  · subst h0; simp [sbrk]
  · unfold sbrk
    have c0 : ¬ ((n : Int) = 0) := by omega
    have c1 : (0 : Int) < (n : Int) := by omega
    have hc : (os.brk : Int) + (n : Int) < (WORD : Int) ∧
        (os.lo : Int) ≤ (os.brk : Int) + (n : Int) ∧
        (os.brk : Int) + (n : Int) ≤ (os.hi : Int) := by
      simp only [WORD] at *; omega
    rw [if_neg c0, if_pos c1, if_pos hc]
    have : ((os.brk : Int) + (n : Int)).toNat = os.brk + n := by omega
    rw [this]

/-- Growth succeeds when the data segment has room for the block. -/
theorem request_from_os_grow (s : State) (n : Nat) (hlo : s.os.lo ≤ s.os.brk)
    (hroom : s.os.brk + HDR + n ≤ s.os.hi) (hhi : s.os.hi < 9223372036854775808) :
    request_from_os s n =
      (some ⟨s.os.brk, n, false⟩,
        { free_list := s.free_list
          heap_start := if s.heap_start = 0 then s.os.brk else s.heap_start
          heap_end := s.os.brk + HDR + n
          os := { s.os with brk := s.os.brk + HDR + n }
          used := ⟨s.os.brk, n, false⟩ :: s.used }) := by
  have e1 : (HDR + n) % WORD = HDR + n :=
    Nat.mod_eq_of_lt (by simp only [WORD, HDR] at *; omega)
  have e2 : toIntptr (HDR + n) = ((HDR + n : Nat) : Int) :=
    toIntptr_small _ (by simp only [HDR] at *; omega)
  have e3 : (s.os.brk + (HDR + n)) % WORD = s.os.brk + HDR + n := by
    simp only [WORD, HDR] at *; omega
  have e0 : sbrk s.os 0 = (some s.os.brk, s.os) := by simp [sbrk]
  have hw : s.os.hi < WORD := by simp only [WORD]; omega
  unfold request_from_os
  simp only [e0, e1, e2, sbrk_grow s.os (HDR + n) hlo (by omega) hw, record_heap_bounds, e3,
    Nat.add_assoc]

/-- On an empty free list `ff_malloc` and `bf_malloc` grow the heap; with room in the
data segment the new block starts at the old break. -/
theorem malloc_grow (s : State) (size : Nat) (hfl : s.free_list = []) (h0 : size ≠ 0)
    (hlo : s.os.lo ≤ s.os.brk) (hroom : s.os.brk + HDR + align8 size ≤ s.os.hi)
    (hhi : s.os.hi < 9223372036854775808) :
    ff_malloc s size =
      (s.os.brk + HDR,
        { free_list := []
          heap_start := if s.heap_start = 0 then s.os.brk else s.heap_start
          heap_end := s.os.brk + HDR + align8 size
          os := { s.os with brk := s.os.brk + HDR + align8 size }
          used := ⟨s.os.brk, align8 size, false⟩ :: s.used }) ∧
    bf_malloc s size = ff_malloc s size := by
  have hp : (⟨s.os.brk, align8 size, false⟩ : BlockHeader).payload = s.os.brk + HDR := by
    unfold BlockHeader.payload
    exact Nat.mod_eq_of_lt (by simp only [WORD, HDR] at *; omega)
  have e : ff_malloc s size =
      (s.os.brk + HDR,
        { free_list := []
          heap_start := if s.heap_start = 0 then s.os.brk else s.heap_start
          heap_end := s.os.brk + HDR + align8 size
          os := { s.os with brk := s.os.brk + HDR + align8 size }
          used := ⟨s.os.brk, align8 size, false⟩ :: s.used }) := by
    unfold ff_malloc
    rw [if_neg h0]
    simp only [hfl, ff_search, request_from_os_grow s (align8 size) hlo hroom hhi, hp]
  refine ⟨e, ?_⟩
  rw [e]
  unfold bf_malloc
  rw [if_neg h0]
  simp only [hfl, bf_search, lt_irrefl, if_false,
    request_from_os_grow s (align8 size) hlo hroom hhi, hp]

/-- The lemma `malloc_grow` on a state given by its fields. -/
theorem malloc_grow_mk (hs he brk lo hi : Nat) (used : List BlockHeader) (size : Nat)
    (h0 : size ≠ 0) (hlo : lo ≤ brk) (hroom : brk + HDR + align8 size ≤ hi)
    (hhi : hi < 9223372036854775808) :
    ff_malloc ⟨[], hs, he, ⟨brk, lo, hi⟩, used⟩ size =
      (brk + HDR, ⟨[], if hs = 0 then brk else hs, brk + HDR + align8 size,
        ⟨brk + HDR + align8 size, lo, hi⟩, ⟨brk, align8 size, false⟩ :: used⟩) ∧
    bf_malloc ⟨[], hs, he, ⟨brk, lo, hi⟩, used⟩ size =
      (brk + HDR, ⟨[], if hs = 0 then brk else hs, brk + HDR + align8 size,
        ⟨brk + HDR + align8 size, lo, hi⟩, ⟨brk, align8 size, false⟩ :: used⟩) := by
  obtain ⟨e1, e2⟩ := malloc_grow ⟨[], hs, he, ⟨brk, lo, hi⟩, used⟩ size rfl h0 hlo hroom hhi
  rw [e1] at e2
  exact ⟨e1, e2⟩

theorem wsub_payload (a : Nat) (h : a + HDR < WORD) : wsub (a + HDR) HDR = a := by
  unfold wsub; simp only [WORD, HDR] at *; omega

theorem align8_lt (n : Nat) : align8 n < WORD := by
  rw [align8_eq]; simp only [WORD]; omega

/-! ## Failure of the growth primitive -/

/-- A failing `sbrk` leaves the break where it is. -/
theorem sbrk_none (os : OS) (inc : Int) (h : (sbrk os inc).1 = none) :
    sbrk os inc = (none, os) := by
  rcases sbrk_cases os inc with c | c | ⟨-, c⟩
  · exact c
  · rw [c] at h; simp at h
  · rw [c] at h; simp at h

/-- When one of the two calls of `sbrk` fails, `request_from_os` returns `NULL` and
changes nothing. -/
theorem request_from_os_fail (s : State) (n : Nat)
    (h : (sbrk s.os 0).1 = none ∨ (sbrk s.os (toIntptr ((HDR + n) % WORD))).1 = none) :
    request_from_os s n = (none, s) := by
  have h1 : sbrk s.os 0 = (some s.os.brk, s.os) := by simp [sbrk]
  rcases h with h | h
  · rw [h1] at h; simp at h
  · unfold request_from_os
    rw [h1]
    simp only [sbrk_none _ _ h]

theorem ff_search_miss (l : List BlockHeader) (need : Nat) (h : ∀ b ∈ l, b.size < need) :
    ff_search l need = none :=
  ff_search_none l need (fun x hx c => by have := h x hx; unfold Fits at c; omega)

theorem bf_search_miss (l : List BlockHeader) (need : Nat) (h : ∀ b ∈ l, b.size < need) :
    bf_search l need none SIZE_MAX = (none, SIZE_MAX) :=
  bf_search_keep l need none SIZE_MAX
    (fun x hx c => by have := h x hx; unfold Fits at c; omega)

end MyMalloc

namespace Project2

open MyMalloc (BlockHeader HDR WORD SIZE_MAX toIntptr sbrk)

theorem ts_request_from_os_fail (s : State) (n : Nat)
    (h : (sbrk s.os 0).1 = none ∨ (sbrk s.os (toIntptr ((HDR + n) % WORD))).1 = none) :
    request_from_os s n = (none, s) := by
  have h1 : sbrk s.os 0 = (some s.os.brk, s.os) := by simp [sbrk]
  rcases h with h | h
  · rw [h1] at h; simp at h
  · unfold request_from_os
    rw [h1]
    simp only [MyMalloc.sbrk_none _ _ h]

theorem find_best_fit_list_miss (l : List BlockHeader) (need : Nat)
    (h : ∀ b ∈ l, b.size < need) : find_best_fit_list l need = none := by
  unfold find_best_fit_list
  rw [find_best_fit_loop_eq, MyMalloc.bf_search_miss l need h]

open MyMalloc (BlockHeader OS HDR WORD SIZE_MAX toIntptr sbrk lookup forget wsub)

/-! ## The drain of the reclamation stack -/

end Project2

namespace MyMalloc

/-! ## The locked variant and the best-fit allocator -/

/-- The loop of `bf_malloc` leaves `best` set exactly when it leaves `best_size` below
`SIZE_MAX`. -/
theorem bf_search_set (l : List BlockHeader) (need : Nat) :
    ∀ (best : Option BlockHeader) (bs : Nat), bs ≤ SIZE_MAX → (best.isSome ↔ bs < SIZE_MAX) →
      (((bf_search l need best bs).1).isSome ↔ (bf_search l need best bs).2 < SIZE_MAX) ∧
      (bf_search l need best bs).2 ≤ SIZE_MAX := by
  induction l with
  | nil => intro best bs h1 h2; exact ⟨h2, h1⟩
  | cons b t ih =>
    intro best bs h1 h2
    unfold bf_search
    split
    · split
      · rename_i c
        have hb : b.size < SIZE_MAX := by omega
        split
        · exact ⟨by simp [hb], by omega⟩
        · exact ih (some b) b.size (by omega) (by simp [hb])
      · exact ih best bs h1 h2
    · exact ih best bs h1 h2

end MyMalloc

namespace Project2

open MyMalloc (BlockHeader OS HDR WORD SIZE_MAX toIntptr sbrk lookup forget wsub)

/-- The two copies of `request_from_os` do the same. -/
theorem request_from_os_single (s : State) (n : Nat) :
    (request_from_os s n).1 = (MyMalloc.request_from_os s.single n).1 ∧
    (request_from_os s n).2.single = (MyMalloc.request_from_os s.single n).2 ∧
    (request_from_os s n).2.tls_free_list = s.tls_free_list ∧
    (request_from_os s n).2.global_reclaim = s.global_reclaim := by
  unfold request_from_os MyMalloc.request_from_os
  have e : s.single.os = s.os := rfl
  rw [e]
  cases h1 : sbrk s.os 0 with
  | mk r1 os1 =>
    cases r1 with
    | none => exact ⟨rfl, rfl, rfl, rfl⟩
    | some old =>
      simp only
      cases h2 : sbrk os1 (toIntptr ((HDR + n) % WORD)) with
      | mk r2 os2 =>
        cases r2 with
        | none => exact ⟨rfl, rfl, rfl, rfl⟩
        | some res => exact ⟨rfl, rfl, rfl, rfl⟩

end Project2

/-! # The claims -/

namespace MyMalloc

/-! ## C1: Disjointness of the blocks handed out -/

/-- C1 (violated by the code). On a fresh allocator with contiguous growth the call
sequence `ff_malloc(8)`, `ff_malloc(2^64 - 24)`, `ff_malloc(8)` returns the pointers
`4120`, `4152`, `4152`: for the second call `sizeof(BlockHeader) + need` wraps to `0`,
so `sbrk` hands out no byte, and the third call is given the same address. The blocks
of the second and of the third call are both in use and their byte ranges overlap. -/
theorem ff_malloc_hands_out_overlapping_blocks :
    run (fresh ⟨4096, 4096, 1048576⟩)
        [Op.ff_malloc 8, Op.ff_malloc 18446744073709551592, Op.ff_malloc 8] =
      some ([4120, 4152, 4152],
        { free_list := [], heap_start := 4096, heap_end := 4160,
          os := ⟨4160, 4096, 1048576⟩,
          used := [⟨4128, 8, false⟩, ⟨4128, 18446744073709551592, false⟩,
            ⟨4096, 8, false⟩] }) ∧
    ¬ Apart ⟨4128, 8, false⟩ ⟨4128, 18446744073709551592, false⟩ := by
  decide

/-! ## C2: The sorted-and-disjoint invariant -/

/-- C2 (violated by the code). On a fresh allocator the calls `ff_malloc(8)`,
`ff_malloc(848)`, `ff_malloc(2^64 - 8)`, `ff_free(4120)`, `ff_free(5024)` leave the free
list `[block at 4096 of size 8, block at 5000 of size 2^64 - 8]`, which is sorted and
disjoint (`4096 + 24 + 8 < 5000`). A further `ff_malloc(2^64 - 920)`, or
`bf_malloc(2^64 - 920)`, takes the second block and splits it: `maybe_split` computes
the tail address `5024 + (2^64 - 920)`, which wraps to `4104`, inside the bytes
`4096 .. 4128` of the first list block, and writes a tail header of size 888 there,
over the `free` and `next` fields of the first list block. In the record model the
list after the call is `[block at 4096 of size 8, block at 4104 of size 888]`, which
is not sorted and disjoint: `4096 + 24 + 8 > 4104`. -/
theorem split_tail_lands_inside_list_block :
    (run (fresh ⟨4096, 4096, 1048576⟩)
        [Op.ff_malloc 8, Op.ff_malloc 848, Op.ff_malloc 18446744073709551608,
          Op.ff_free 4120, Op.ff_free 5024]).map (fun r => (r.1, r.2.free_list)) =
      some ([4120, 4152, 5024], [⟨4096, 8, true⟩, ⟨5000, 18446744073709551608, true⟩]) ∧
    SortedDisjoint [⟨4096, 8, true⟩, ⟨5000, 18446744073709551608, true⟩] ∧
    maybe_split [⟨4096, 8, true⟩] ⟨5000, 18446744073709551608, false⟩ 18446744073709550696 =
      (⟨5000, 18446744073709550696, false⟩, [⟨4096, 8, true⟩, ⟨4104, 888, true⟩]) ∧
    (run (fresh ⟨4096, 4096, 1048576⟩)
        [Op.ff_malloc 8, Op.ff_malloc 848, Op.ff_malloc 18446744073709551608,
          Op.ff_free 4120, Op.ff_free 5024, Op.ff_malloc 18446744073709550696]).map
        (fun r => (r.1, r.2.free_list)) =
      some ([4120, 4152, 5024, 5024], [⟨4096, 8, true⟩, ⟨4104, 888, true⟩]) ∧
    (run (fresh ⟨4096, 4096, 1048576⟩)
        [Op.ff_malloc 8, Op.ff_malloc 848, Op.ff_malloc 18446744073709551608,
          Op.ff_free 4120, Op.ff_free 5024, Op.bf_malloc 18446744073709550696]).map
        (fun r => (r.1, r.2.free_list)) =
      some ([4120, 4152, 5024, 5024], [⟨4096, 8, true⟩, ⟨4104, 888, true⟩]) ∧
    ¬ SortedDisjoint [⟨4096, 8, true⟩, ⟨4104, 888, true⟩] := by
  exact ⟨by decide, by decide, by decide, by decide, by decide, by decide⟩

/-- Among blocks of the address space the sorted-and-disjoint invariant of the free
list is preserved. Let the free list of `s` be sorted and disjoint (`SortedDisjoint`: for
consecutive nodes `a`, `b`, `address(a) < address(b)` and
`address(a) + header size + a.size < address(b)`), all of its blocks lying in the
address space. Then (free) for every block `b` of the address space that overlaps no
list block, the list left by the body of `ff_free`, and the one left by
`insert_free_sorted_list`, is again sorted and disjoint, and the list block that
contains the freed bytes is adjacent neither to its predecessor nor to its
successor; (allocate) the list left by `ff_malloc` and by `bf_malloc`, for any
requested size, is again sorted and disjoint. The blocks of all these lists lie in
the address space, so the hypotheses hold again after the operation. -/
theorem sorted_disjoint_preserved (s : State) (b : BlockHeader) (size : Nat)
    (hs : SortedDisjoint s.free_list) (hsp : ∀ x ∈ s.free_list, InSpace x)
    (hb : InSpace b) (hap : ∀ x ∈ s.free_list, Apart b x) :
    (SortedDisjoint (ff_free_list s.free_list b) ∧
      (∀ x ∈ ff_free_list s.free_list b, InSpace x) ∧
      Project2.insert_free_sorted_list s.free_list b = ff_free_list s.free_list b ∧
      SortedDisjoint (Project2.insert_free_sorted_list s.free_list b) ∧
      ∃ pre c post, ff_free_list s.free_list b = pre ++ c :: post ∧
        c.addr ≤ b.addr ∧ b.addr + HDR + b.size ≤ c.addr + HDR + c.size ∧
        (∀ p, pre.getLast? = some p → p.b_end ≠ c.addr) ∧
        (∀ n, post.head? = some n → c.b_end ≠ n.addr)) ∧
    (SortedDisjoint (ff_malloc s size).2.free_list ∧
      (∀ x ∈ (ff_malloc s size).2.free_list, InSpace x) ∧
      SortedDisjoint (bf_malloc s size).2.free_list ∧
      (∀ x ∈ (bf_malloc s size).2.free_list, InSpace x)) := by
  simp only [sortedDisjoint_iff] at *
  obtain ⟨f1, f2, c, hc, hc1, hc2⟩ := ff_free_list_inv s.free_list b hs hsp hb hap
  obtain ⟨m1, m2⟩ := ff_malloc_inv s size hs hsp
  obtain ⟨n1, n2⟩ := bf_malloc_inv s size hs hsp
  refine ⟨⟨f1, f2, Project2.insert_free_sorted_list_eq _ _, ?_, ?_⟩, m1, m2, n1, n2⟩
  · rw [Project2.insert_free_sorted_list_eq]; exact f1
  · obtain ⟨pre, post, e⟩ := List.append_of_mem hc
    refine ⟨pre, c, post, e, hc1, hc2, ?_, ?_⟩
    · intro p hp
      rw [e] at f1 f2
      have g := (chain_around pre post c f1).1 p (List.mem_of_getLast?_eq_some hp)
      rw [b_end_eq p (f2 p (List.mem_append_left _ (List.mem_of_getLast?_eq_some hp)))]
      unfold Gap at g; omega
    · intro n hn
      rw [e] at f1 f2
      have hn' : n ∈ post := List.mem_of_mem_head? hn
      have g := (chain_around pre post c f1).2 n hn'
      rw [b_end_eq c (f2 c (by simp))]
      unfold Gap at g; omega

/-- An instance of `sorted_disjoint_preserved`: a block that touches both of its
neighbours is freed into a list of two blocks. -/
theorem sorted_disjoint_preserved_witness :
    (SortedDisjoint [⟨4096, 64, true⟩, ⟨4296, 32, true⟩] ∧
      ff_free_list [⟨4096, 64, true⟩, ⟨4296, 32, true⟩] ⟨4184, 88, false⟩ =
        [⟨4096, 232, true⟩]) ∧
    ((SortedDisjoint (ff_free_list [⟨4096, 64, true⟩, ⟨4296, 32, true⟩] ⟨4184, 88, false⟩) ∧
      (∀ x ∈ ff_free_list [⟨4096, 64, true⟩, ⟨4296, 32, true⟩] ⟨4184, 88, false⟩, InSpace x) ∧
      Project2.insert_free_sorted_list [⟨4096, 64, true⟩, ⟨4296, 32, true⟩] ⟨4184, 88, false⟩ =
        ff_free_list [⟨4096, 64, true⟩, ⟨4296, 32, true⟩] ⟨4184, 88, false⟩ ∧
      SortedDisjoint (Project2.insert_free_sorted_list
        [⟨4096, 64, true⟩, ⟨4296, 32, true⟩] ⟨4184, 88, false⟩) ∧
      ∃ pre c post, ff_free_list [⟨4096, 64, true⟩, ⟨4296, 32, true⟩] ⟨4184, 88, false⟩ =
          pre ++ c :: post ∧
        c.addr ≤ 4184 ∧ 4184 + HDR + 88 ≤ c.addr + HDR + c.size ∧
        (∀ p, pre.getLast? = some p → p.b_end ≠ c.addr) ∧
        (∀ n, post.head? = some n → c.b_end ≠ n.addr)) ∧
    (SortedDisjoint (ff_malloc ⟨[⟨4096, 64, true⟩, ⟨4296, 32, true⟩], 4096, 4352,
        ⟨4352, 4096, 1048576⟩, [⟨4184, 88, false⟩]⟩ 16).2.free_list ∧
      (∀ x ∈ (ff_malloc ⟨[⟨4096, 64, true⟩, ⟨4296, 32, true⟩], 4096, 4352,
        ⟨4352, 4096, 1048576⟩, [⟨4184, 88, false⟩]⟩ 16).2.free_list, InSpace x) ∧
      SortedDisjoint (bf_malloc ⟨[⟨4096, 64, true⟩, ⟨4296, 32, true⟩], 4096, 4352,
        ⟨4352, 4096, 1048576⟩, [⟨4184, 88, false⟩]⟩ 16).2.free_list ∧
      (∀ x ∈ (bf_malloc ⟨[⟨4096, 64, true⟩, ⟨4296, 32, true⟩], 4096, 4352,
        ⟨4352, 4096, 1048576⟩, [⟨4184, 88, false⟩]⟩ 16).2.free_list, InSpace x))) :=
  ⟨by decide,
   sorted_disjoint_preserved
    ⟨[⟨4096, 64, true⟩, ⟨4296, 32, true⟩], 4096, 4352, ⟨4352, 4096, 1048576⟩,
      [⟨4184, 88, false⟩]⟩
    ⟨4184, 88, false⟩ 16 (by decide) (by decide) (by decide) (by decide)⟩

/-! ## C3: Best-fit selection -/

/-- C3. Best-fit selection. On a free list whose nodes are flagged free and have a
size below `SIZE_MAX` (every multiple of 8 is), for every `need`:
if some node has `size ≥ need`, `find_best_fit_list` and the loop of `bf_malloc`
return the same node `b`, whose size is the minimum of the sizes `≥ need` on the
list, and no node before `b` in list order has that size; `bf_malloc` then returns the
payload of `b`. If no node has `size ≥ need`, both report a miss (`NULL`, respectively
`best_size = SIZE_MAX`) and `bf_malloc` takes the growth path (its pointer and state
are those of `request_from_os(need)`), leaving the list as it is. A miss is reported if and only if no node has `size ≥ need`. -/
theorem best_fit_selection (l : List BlockHeader) (need : Nat)
    (hl : ∀ b ∈ l, b.free = true ∧ b.size < SIZE_MAX) :
    ((∃ x ∈ l, need ≤ x.size) →
      ∃ pre b post, l = pre ++ b :: post ∧
        Project2.find_best_fit_list l need = some b ∧
        bf_search l need none SIZE_MAX = (some b, b.size) ∧ b.size < SIZE_MAX ∧
        need ≤ b.size ∧ (∀ x ∈ l, need ≤ x.size → b.size ≤ x.size) ∧
        (∀ x ∈ pre, x.size ≠ b.size) ∧
        ∀ (s : State) (size : Nat), s.free_list = l → size ≠ 0 → align8 size = need →
          (bf_malloc s size).1 = b.payload) ∧
    ((∀ x ∈ l, x.size < need) →
      Project2.find_best_fit_list l need = none ∧
      bf_search l need none SIZE_MAX = (none, SIZE_MAX) ∧
      ∀ (s : State) (size : Nat), s.free_list = l → size ≠ 0 → align8 size = need →
        (bf_malloc s size).2 = (request_from_os s need).2 ∧
        (bf_malloc s size).1 = ((request_from_os s need).1.map BlockHeader.payload).getD 0 ∧
        (bf_malloc s size).2.free_list = l) ∧
    (Project2.find_best_fit_list l need = none ↔ ∀ x ∈ l, x.size < need) ∧
    (¬ (bf_search l need none SIZE_MAX).2 < SIZE_MAX ↔ ∀ x ∈ l, x.size < need) := by
  have hit : (∃ x ∈ l, need ≤ x.size) →
      ∃ pre b post, l = pre ++ b :: post ∧
        Project2.find_best_fit_list l need = some b ∧
        bf_search l need none SIZE_MAX = (some b, b.size) ∧ b.size < SIZE_MAX ∧
        need ≤ b.size ∧ (∀ x ∈ l, need ≤ x.size → b.size ≤ x.size) ∧
        (∀ x ∈ pre, x.size ≠ b.size) := by
    intro hex
    obtain ⟨x, hx, hxn⟩ := hex
    obtain ⟨pre, b, post, e, r, fb, lb, hpre, hpost⟩ :=
      bf_search_pick l need none SIZE_MAX ⟨x, hx, ⟨(hl x hx).1, hxn⟩, (hl x hx).2⟩
    refine ⟨pre, b, post, e, ?_, r, lb, fb.2, ?_, ?_⟩
    · unfold Project2.find_best_fit_list
      rw [Project2.find_best_fit_loop_eq, r]
    · intro y hy hyn
      have fy : Fits need y := ⟨(hl y hy).1, hyn⟩
      rw [e] at hy
      rcases List.mem_append.mp hy with h | h
      · exact Nat.le_of_lt (hpre y h fy)
      · rcases List.mem_cons.mp h with h | h
        · subst h; exact le_refl _
        · exact hpost y h fy
    · intro y hy hyb
      have hyl : y ∈ l := by rw [e]; exact List.mem_append_left _ hy
      have := hpre y hy ⟨(hl y hyl).1, by rw [hyb]; exact fb.2⟩
      omega
  have miss : (∀ x ∈ l, x.size < need) →
      Project2.find_best_fit_list l need = none ∧
      bf_search l need none SIZE_MAX = (none, SIZE_MAX) := by
    intro hall
    have r := bf_search_keep l need none SIZE_MAX (fun x hx fx => by
      have := hall x hx; unfold Fits at fx; omega)
    refine ⟨?_, r⟩
    unfold Project2.find_best_fit_list
    rw [Project2.find_best_fit_loop_eq, r]
  refine ⟨?_, ?_, ?_, ?_⟩
  · intro hex
    obtain ⟨pre, b, post, e, r1, r2, r3, r4, r5, r6⟩ := hit hex
    refine ⟨pre, b, post, e, r1, r2, r3, r4, r5, r6, ?_⟩
    intro s size hs h0 hn
    unfold bf_malloc
    rw [if_neg h0]
    simp only [hs, hn, r2, if_pos r3]
    exact maybe_split_payload _ _ _
  · intro hall
    obtain ⟨r1, r2⟩ := miss hall
    refine ⟨r1, r2, ?_⟩
    intro s size hs h0 hn
    have e : bf_malloc s size =
        (((request_from_os s need).1.map BlockHeader.payload).getD 0,
          (request_from_os s need).2) := by
      unfold bf_malloc
      rw [if_neg h0]
      simp only [hs, hn, r2, lt_irrefl, if_false]
      cases request_from_os s need with
      | mk r s1 => cases r <;> rfl
    rw [e]
    exact ⟨rfl, rfl, by rw [← hs]; exact request_from_os_free_list s need⟩
  · constructor
    · intro hnone
      by_contra hc
      push_neg at hc
      obtain ⟨x, hx, hxn⟩ := hc
      obtain ⟨pre, b, post, e, r1, _⟩ := hit ⟨x, hx, hxn⟩
      rw [r1] at hnone
      exact absurd hnone (by simp)
    · intro hall; exact (miss hall).1
  · constructor
    · intro hnlt
      by_contra hc
      push_neg at hc
      obtain ⟨x, hx, hxn⟩ := hc
      obtain ⟨pre, b, post, e, r1, r2, r3, _⟩ := hit ⟨x, hx, hxn⟩
      rw [r2] at hnlt
      exact hnlt r3
    · intro hall
      rw [(miss hall).2]
      exact lt_irrefl _

/-- Witness of C3: on a free list of sizes 128, 64, 256 a request of 32 selects the
block of size 64. -/
theorem best_fit_selection_witness :
    (Project2.find_best_fit_list
        [⟨4096, 128, true⟩, ⟨8192, 64, true⟩, ⟨12288, 256, true⟩] 32 = some ⟨8192, 64, true⟩ ∧
      (bf_malloc ⟨[⟨4096, 128, true⟩, ⟨8192, 64, true⟩, ⟨12288, 256, true⟩], 4096, 16384,
        ⟨16384, 4096, 1048576⟩, []⟩ 32).1 = 8216) ∧
    (Project2.find_best_fit_list
        [⟨4096, 128, true⟩, ⟨8192, 64, true⟩, ⟨12288, 256, true⟩] 32 = none ↔
      ∀ x ∈ [(⟨4096, 128, true⟩ : BlockHeader), ⟨8192, 64, true⟩, ⟨12288, 256, true⟩],
        x.size < 32) :=
  ⟨by decide,
   (best_fit_selection [⟨4096, 128, true⟩, ⟨8192, 64, true⟩, ⟨12288, 256, true⟩] 32
     (by decide)).2.2.1⟩

/-! ## C4: First-fit selection -/

/-- C5 (violated by the code). On a fresh allocator `ff_malloc(n)`, `ff_malloc(n)`,
`ff_free(4120)` with `n = 2^64 - 8` leave the free list `[block at 4096 of size n]`. The
next `ff_malloc(n)` selects this block, with `S = N = n`: this is case (ii) of the
policy, `S < N + header size + 8`. But `need + sizeof(BlockHeader) + 8` wraps to 24 in
`maybe_split`, the test `b->size < 24` fails and the block is split: the call returns
4120 and the list, instead of being the old list without the block (empty), holds a
tail at 4112 of size `2^64 - 24`. `ts_malloc_lock` and `ts_malloc_nolock` do the same
through `maybe_split_into_list`; the last part reads the list left by `ts_malloc_lock`
from the byte-addressed memory. -/
theorem exact_fit_is_split_when_test_wraps :
    (run (fresh ⟨4096, 4096, 1048576⟩)
        [Op.ff_malloc 18446744073709551608, Op.ff_malloc 18446744073709551608,
          Op.ff_free 4120]).map (fun r => r.2.free_list) =
      some [⟨4096, 18446744073709551608, true⟩] ∧
    ff_search [⟨4096, 18446744073709551608, true⟩] (align8 18446744073709551608) =
      some ⟨4096, 18446744073709551608, true⟩ ∧
    align8 18446744073709551608 = 18446744073709551608 ∧
    18446744073709551608 < 18446744073709551608 + HDR + 8 ∧
    (18446744073709551608 + HDR + 8) % WORD = 24 ∧
    (run (fresh ⟨4096, 4096, 1048576⟩)
        [Op.ff_malloc 18446744073709551608, Op.ff_malloc 18446744073709551608,
          Op.ff_free 4120]).map
        (fun r => ((ff_malloc r.2 18446744073709551608).1,
          (ff_malloc r.2 18446744073709551608).2.free_list)) =
      some (4120, [⟨4112, 18446744073709551592, true⟩]) ∧
    (Project2.run (Project2.fresh ⟨4096, 4096, 1048576⟩)
        [.ts_malloc_lock 18446744073709551608, .ts_malloc_lock 18446744073709551608,
          .ts_free_lock 4120]).map
        (fun r => (r.2.free_list, (Project2.ts_malloc_lock r.2 18446744073709551608).1,
          (Project2.ts_malloc_lock r.2 18446744073709551608).2.free_list)) =
      some ([⟨4096, 18446744073709551608, true⟩], 4120,
        [⟨4112, 18446744073709551592, true⟩]) ∧
    (Project2.run (Project2.fresh ⟨4096, 4096, 1048576⟩)
        [.ts_malloc_nolock 0 18446744073709551608, .ts_malloc_nolock 0 18446744073709551608,
          .ts_free_nolock 4120]).map
        (fun r => (r.2.global_reclaim,
          (Project2.ts_malloc_nolock r.2 0 18446744073709551608).1,
          (Project2.ts_malloc_nolock r.2 0 18446744073709551608).2.tls_free_list 0)) =
      some ([⟨4096, 18446744073709551608, true⟩], 4120,
        [⟨4112, 18446744073709551592, true⟩]) ∧
    (Project2.Mem.run 8 (Project2.Mem.fresh ⟨4096, 4096, 1048576⟩)
        [.ts_malloc_lock 18446744073709551608, .ts_malloc_lock 18446744073709551608,
          .ts_free_lock 4120, .ts_malloc_lock 18446744073709551608]).map
        (fun r => (r.1, Project2.Mem.nodes r.2 r.2.free_list 8)) =
      some ([4120, 4136, 4120], some [⟨4112, 18446744073709551592, true⟩]) := by
  refine ⟨by decide, by decide, by decide, by decide, by decide, by decide, by decide,
    by decide, ?_⟩
  apply @of_decide_eq_true _ (decEq _ _)
  decide!

/-- The splitting policy among blocks of the address space. Let `b`, of size `S`, be a
node of a sorted and disjoint list `pre ++ b :: post` of blocks of the address space
(each ends below `2^64`), and let `N ≤ S` be the need for
which an allocation selects `b`. (i) If `S ≥ N + header size + 8`, the header of the
returned block records size `N`, and the list is `pre`, then a new free block of size
`S − N − header size` at `payload(b) + N`, then `post`. (ii) If
`S < N + header size + 8`, the returned block keeps size `S` and the list is
`pre ++ post`: the old list with `b` removed. This holds for `ff_malloc` and
`bf_malloc` on the global list, for `ts_malloc_lock` on the global list (the
per-thread lists stay as they are), and for `ts_malloc_nolock` on the list of the
calling thread as it is after the drain (the global list and the lists of the other
threads stay as they are). -/
theorem split_policy (pre post : List BlockHeader) (b : BlockHeader) (need : Nat)
    (hs : SortedDisjoint (pre ++ b :: post)) (hsp : ∀ x ∈ pre ++ b :: post, InSpace x)
    (hn : need ≤ b.size) :
    (need + HDR + 8 ≤ b.size →
      (∀ (s : State) (size : Nat), s.free_list = pre ++ b :: post → size ≠ 0 →
        align8 size = need →
        (ff_search s.free_list need = some b →
          (ff_malloc s size).2.used = ⟨b.addr, need, false⟩ :: s.used ∧
          (ff_malloc s size).2.free_list =
            pre ++ ⟨b.payload + need, b.size - need - HDR, true⟩ :: post) ∧
        ((bf_search s.free_list need none SIZE_MAX).1 = some b →
          (bf_search s.free_list need none SIZE_MAX).2 < SIZE_MAX →
          (bf_malloc s size).2.used = ⟨b.addr, need, false⟩ :: s.used ∧
          (bf_malloc s size).2.free_list =
            pre ++ ⟨b.payload + need, b.size - need - HDR, true⟩ :: post)) ∧
      (∀ (s : Project2.State) (size : Nat), s.free_list = pre ++ b :: post → size ≠ 0 →
        Project2.align8 size = need →
        Project2.find_best_fit_list s.free_list need = some b →
        (Project2.ts_malloc_lock s size).2.used = ⟨b.addr, need, false⟩ :: s.used ∧
        (Project2.ts_malloc_lock s size).2.free_list =
          pre ++ ⟨b.payload + need, b.size - need - HDR, true⟩ :: post ∧
        (Project2.ts_malloc_lock s size).2.tls_free_list = s.tls_free_list) ∧
      (∀ (s : Project2.State) (t size : Nat),
        (Project2.reclaim_drain_to_tls s t 32).tls_free_list t = pre ++ b :: post →
        size ≠ 0 → Project2.align8 size = need →
        Project2.find_best_fit_list (pre ++ b :: post) need = some b →
        (Project2.ts_malloc_nolock s t size).2.used =
          ⟨b.addr, need, false⟩ :: (Project2.reclaim_drain_to_tls s t 32).used ∧
        (Project2.ts_malloc_nolock s t size).2.tls_free_list t =
          pre ++ ⟨b.payload + need, b.size - need - HDR, true⟩ :: post ∧
        (∀ u, u ≠ t →
          (Project2.ts_malloc_nolock s t size).2.tls_free_list u = s.tls_free_list u) ∧
        (Project2.ts_malloc_nolock s t size).2.free_list = s.free_list)) ∧
    (b.size < need + HDR + 8 →
      (∀ (s : State) (size : Nat), s.free_list = pre ++ b :: post → size ≠ 0 →
        align8 size = need →
        (ff_search s.free_list need = some b →
          (ff_malloc s size).2.used = ⟨b.addr, b.size, false⟩ :: s.used ∧
          (ff_malloc s size).2.free_list = pre ++ post) ∧
        ((bf_search s.free_list need none SIZE_MAX).1 = some b →
          (bf_search s.free_list need none SIZE_MAX).2 < SIZE_MAX →
          (bf_malloc s size).2.used = ⟨b.addr, b.size, false⟩ :: s.used ∧
          (bf_malloc s size).2.free_list = pre ++ post)) ∧
      (∀ (s : Project2.State) (size : Nat), s.free_list = pre ++ b :: post → size ≠ 0 →
        Project2.align8 size = need →
        Project2.find_best_fit_list s.free_list need = some b →
        (Project2.ts_malloc_lock s size).2.used = ⟨b.addr, b.size, false⟩ :: s.used ∧
        (Project2.ts_malloc_lock s size).2.free_list = pre ++ post ∧
        (Project2.ts_malloc_lock s size).2.tls_free_list = s.tls_free_list) ∧
      (∀ (s : Project2.State) (t size : Nat),
        (Project2.reclaim_drain_to_tls s t 32).tls_free_list t = pre ++ b :: post →
        size ≠ 0 → Project2.align8 size = need →
        Project2.find_best_fit_list (pre ++ b :: post) need = some b →
        (Project2.ts_malloc_nolock s t size).2.used =
          ⟨b.addr, b.size, false⟩ :: (Project2.reclaim_drain_to_tls s t 32).used ∧
        (Project2.ts_malloc_nolock s t size).2.tls_free_list t = pre ++ post ∧
        (∀ u, u ≠ t →
          (Project2.ts_malloc_nolock s t size).2.tls_free_list u = s.tls_free_list u) ∧
        (Project2.ts_malloc_nolock s t size).2.free_list = s.free_list)) := by
  have hch := (sortedDisjoint_iff _).mp hs
  obtain ⟨big, small⟩ := take_cases pre post b need hch hsp hn
  have hb : InSpace b := hsp b (by simp)
  have hpay : b.payload + need = b.addr + HDR + need := by
    unfold BlockHeader.payload; unfold InSpace at hb
    simp only [WORD, HDR] at *; omega
  rw [hpay]
  constructor
  · intro hbig
    have e := big hbig
    refine ⟨?_, ?_, ?_⟩
    · intro s size hl h0 ha
      subst ha
      constructor
      · intro hf
        rw [ff_malloc_hit s size b h0 hf, hl, e]
        exact ⟨rfl, rfl⟩
      · intro hf hlt
        rw [bf_malloc_hit s size b h0 hf hlt, hl, e]
        exact ⟨rfl, rfl⟩
    · intro s size hl h0 ha hf
      have ha' : align8 size = need := ha
      subst ha'
      rw [Project2.ts_malloc_lock_hit s size b h0 hf, hl, Project2.align8_eq_align8,
        Project2.maybe_split_into_list_eq_inSpace { b with free := false } _ _ hb hn, e]
      exact ⟨rfl, rfl, rfl⟩
    · intro s t size hl h0 ha hf
      have ha' : align8 size = need := ha
      subst ha'
      rw [← hl] at hf
      rw [Project2.ts_malloc_nolock_hit s t size b h0 hf, hl, Project2.align8_eq_align8,
        Project2.maybe_split_into_list_eq_inSpace { b with free := false } _ _ hb hn, e]
      refine ⟨rfl, ?_, ?_, ?_⟩
      · show (if t = t then _ else _) = _
        rw [if_pos rfl]
      · intro u hu
        show (if u = t then _ else _) = _
        rw [if_neg hu, Project2.reclaim_drain_other 32 s t u hu]
      · exact Project2.reclaim_drain_free_list 32 s t
  · intro hsmall
    have e := small hsmall
    refine ⟨?_, ?_, ?_⟩
    · intro s size hl h0 ha
      subst ha
      constructor
      · intro hf
        rw [ff_malloc_hit s size b h0 hf, hl, e]
        exact ⟨rfl, rfl⟩
      · intro hf hlt
        rw [bf_malloc_hit s size b h0 hf hlt, hl, e]
        exact ⟨rfl, rfl⟩
    · intro s size hl h0 ha hf
      have ha' : align8 size = need := ha
      subst ha'
      rw [Project2.ts_malloc_lock_hit s size b h0 hf, hl, Project2.align8_eq_align8,
        Project2.maybe_split_into_list_eq_inSpace { b with free := false } _ _ hb hn, e]
      exact ⟨rfl, rfl, rfl⟩
    · intro s t size hl h0 ha hf
      have ha' : align8 size = need := ha
      subst ha'
      rw [← hl] at hf
      rw [Project2.ts_malloc_nolock_hit s t size b h0 hf, hl, Project2.align8_eq_align8,
        Project2.maybe_split_into_list_eq_inSpace { b with free := false } _ _ hb hn, e]
      refine ⟨rfl, ?_, ?_, ?_⟩
      · show (if t = t then _ else _) = _
        rw [if_pos rfl]
      · intro u hu
        show (if u = t then _ else _) = _
        rw [if_neg hu, Project2.reclaim_drain_other 32 s t u hu]
      · exact Project2.reclaim_drain_free_list 32 s t

/-- An instance of `split_policy`: a request of 64 bytes served by `ff_malloc` from a free block of
4096 bytes at 4096 leaves a free block of `4096 − 64 − 24` bytes at `4120 + 64`; by
`bf_malloc` from a free block of 80 bytes it leaves an empty list and a block that
keeps its 80 bytes. -/
theorem split_policy_witness :
    ((ff_malloc ⟨[⟨4096, 4096, true⟩], 4096, 8216, ⟨8216, 4096, 1048576⟩, []⟩ 64).2.used =
        [⟨4096, 64, false⟩] ∧
      (ff_malloc ⟨[⟨4096, 4096, true⟩], 4096, 8216, ⟨8216, 4096, 1048576⟩, []⟩ 64).2.free_list =
        [⟨4184, 4008, true⟩]) ∧
    ((bf_malloc ⟨[⟨4096, 80, true⟩], 4096, 4200, ⟨4200, 4096, 1048576⟩, []⟩ 64).2.used =
        [⟨4096, 80, false⟩] ∧
      (bf_malloc ⟨[⟨4096, 80, true⟩], 4096, 4200, ⟨4200, 4096, 1048576⟩, []⟩ 64).2.free_list =
        []) :=
  ⟨((((split_policy [] [] ⟨4096, 4096, true⟩ 64 (by decide) (by decide) (by decide)).1
        (by decide)).1
      ⟨[⟨4096, 4096, true⟩], 4096, 8216, ⟨8216, 4096, 1048576⟩, []⟩ 64 rfl (by decide)
      (by decide)).1 (by decide)),
   ((((split_policy [] [] ⟨4096, 80, true⟩ 64 (by decide) (by decide) (by decide)).2
        (by decide)).1
      ⟨[⟨4096, 80, true⟩], 4096, 4200, ⟨4200, 4096, 1048576⟩, []⟩ 64 rfl (by decide)
      (by decide)).2 (by decide) (by decide))⟩

/-! ## C6: Capacity of a returned block -/

/-- C6 (violated by the code). For the request `size = SIZE_MAX` the sum `size + 7`
wraps and `align8` answers `0`: on a fresh allocator each of `ff_malloc`, `bf_malloc`,
`ts_malloc_lock` and `ts_malloc_nolock` returns the non-null pointer `4120`, and the
header in front of it records the size `0`, which is neither positive nor `≥ size`. -/
theorem malloc_size_max_records_zero :
    align8 SIZE_MAX = 0 ∧
    (ff_malloc (fresh ⟨4096, 4096, 1048576⟩) SIZE_MAX).1 = 4120 ∧
    (ff_malloc (fresh ⟨4096, 4096, 1048576⟩) SIZE_MAX).2.used = [⟨4096, 0, false⟩] ∧
    (bf_malloc (fresh ⟨4096, 4096, 1048576⟩) SIZE_MAX).1 = 4120 ∧
    (bf_malloc (fresh ⟨4096, 4096, 1048576⟩) SIZE_MAX).2.used = [⟨4096, 0, false⟩] ∧
    (Project2.ts_malloc_lock (Project2.fresh ⟨4096, 4096, 1048576⟩) SIZE_MAX).1 = 4120 ∧
    (Project2.ts_malloc_lock (Project2.fresh ⟨4096, 4096, 1048576⟩) SIZE_MAX).2.used =
      [⟨4096, 0, false⟩] ∧
    (Project2.ts_malloc_nolock (Project2.fresh ⟨4096, 4096, 1048576⟩) 0 SIZE_MAX).1 = 4120 ∧
    (Project2.ts_malloc_nolock (Project2.fresh ⟨4096, 4096, 1048576⟩) 0 SIZE_MAX).2.used =
      [⟨4096, 0, false⟩] := by
  decide

/-! ## C7: Alignment -/

/-- C7, as stated, fails: when the program break is `4097`, the first `ff_malloc(8)` of
a fresh allocator returns the payload address `4121`, which is not a multiple of 8. -/
theorem misaligned_break_gives_misaligned_payload :
    run (fresh ⟨4097, 4097, 1048576⟩) [Op.ff_malloc 8] =
      some ([4121], { free_list := [], heap_start := 4097, heap_end := 4129,
                      os := ⟨4129, 4097, 1048576⟩, used := [⟨4097, 8, false⟩] }) ∧
    ¬ (4121 % 8 = 0) := by
  decide

/-- C7, amended. Take any sequence of calls of `ff_malloc`, `bf_malloc`, `ff_free`,
`bf_free`, or any sequence of calls of `ts_malloc_lock`, `ts_free_lock`,
`ts_malloc_nolock`, `ts_free_nolock` (by any threads), on a fresh allocator, in which
for every allocation the header size plus `align8(size)` is below `2^63` (so that
`sizeof(BlockHeader) + payload` neither wraps nor is negative as an `intptr_t`; every
size up to `2^63 - 32` is such). Whatever the program break is, the
size field of every block, in use, on the global free list, on a per-thread free list
or on the reclamation stack, is a multiple of 8; and when the program break is a
multiple of 8, every pointer returned by an allocation is a multiple of 8. -/
theorem alignment_from_aligned_break (os : OS) :
    (∀ ops out s, (∀ op ∈ ops, Op.small op = true) → run (fresh os) ops = some (out, s) →
      ((∀ b ∈ s.free_list, b.size % 8 = 0) ∧ (∀ b ∈ s.used, b.size % 8 = 0)) ∧
      (os.brk % 8 = 0 → ∀ p ∈ out, p % 8 = 0)) ∧
    (∀ ops out s, (∀ op ∈ ops, Project2.Op.small op = true) →
      Project2.run (Project2.fresh os) ops = some (out, s) →
      ((∀ b ∈ s.free_list, b.size % 8 = 0) ∧
        (∀ t, ∀ b ∈ s.tls_free_list t, b.size % 8 = 0) ∧
        (∀ b ∈ s.global_reclaim, b.size % 8 = 0) ∧ (∀ b ∈ s.used, b.size % 8 = 0)) ∧
      (os.brk % 8 = 0 → ∀ p ∈ out, p % 8 = 0)) := by
  constructor
  · intro ops out s _ hr
    have h0 : AlignedState os.brk (fresh os) := ⟨by simp [fresh], by simp [fresh], rfl⟩
    obtain ⟨a, b1, b2, _⟩ := run_aligned os.brk ops (fresh os) s out h0 hr
    refine ⟨⟨fun x hx => (b1 x hx).2, fun x hx => (b2 x hx).2⟩, ?_⟩
    intro h p hp
    rcases a p hp with e | e <;> omega
  · intro ops out s _ hr
    have h0 : Project2.AlignedState os.brk (Project2.fresh os) :=
      ⟨by simp [Project2.fresh], by simp [Project2.fresh], by simp [Project2.fresh],
        by simp [Project2.fresh], rfl⟩
    obtain ⟨a, b1, b2, b3, b4, _⟩ :=
      Project2.ts_run_aligned os.brk ops (Project2.fresh os) s out h0 hr
    refine ⟨⟨fun x hx => (b1 x hx).2, fun t x hx => (b2 t x hx).2,
      fun x hx => (b3 x hx).2, fun x hx => (b4 x hx).2⟩, ?_⟩
    intro h p hp
    rcases a p hp with e | e <;> omega

/-- Witness of the amended C7: four calls on a fresh allocator whose break is 4096. -/
theorem alignment_from_aligned_break_witness :
    ((∀ b ∈ [(⟨4136, 64, true⟩ : BlockHeader)], b.size % 8 = 0) ∧
      (∀ b ∈ [(⟨4096, 16, false⟩ : BlockHeader), ⟨4224, 24, false⟩], b.size % 8 = 0)) ∧
    (∀ p ∈ [4120, 4248, 4120], p % 8 = 0) :=
  ⟨((alignment_from_aligned_break ⟨4096, 4096, 1048576⟩).1
      [Op.ff_malloc 100, Op.bf_malloc 20, Op.ff_free 4120, Op.bf_malloc 10]
      [4120, 4248, 4120]
      { free_list := [⟨4136, 64, true⟩], heap_start := 4096, heap_end := 4272,
        os := ⟨4272, 4096, 1048576⟩, used := [⟨4096, 16, false⟩, ⟨4224, 24, false⟩] }
      (by decide) (by decide)).1,
   ((alignment_from_aligned_break ⟨4096, 4096, 1048576⟩).1
      [Op.ff_malloc 100, Op.bf_malloc 20, Op.ff_free 4120, Op.bf_malloc 10]
      [4120, 4248, 4120]
      { free_list := [⟨4136, 64, true⟩], heap_start := 4096, heap_end := 4272,
        os := ⟨4272, 4096, 1048576⟩, used := [⟨4096, 16, false⟩, ⟨4224, 24, false⟩] }
      (by decide) (by decide)).2 (by decide)⟩

/-! ## C8: Three-way coalescing -/

/-- C8. Three-way coalescing. On a fresh allocator whose data segment has room for
three blocks (contiguous growth), let `a`, `b`, `c` be the pointers returned by three
allocations of `n1`, `n2`, `n3 > 0` bytes, in this order, with `ff_malloc` (`bf_malloc`
returns the same). Then the three blocks are contiguous, and after freeing the three
pointers in any of the six possible orders the free list holds exactly one block,
located at the header address of `a` (the initial break), of size
`align8(n1) + align8(n2) + align8(n3) + 2 · header size`. -/
theorem three_way_coalescing (os : OS) (n1 n2 n3 a b c : Nat) (sa sb sc : State)
    (h1 : n1 ≠ 0) (h2 : n2 ≠ 0) (h3 : n3 ≠ 0) (hbrk : 0 < os.brk) (hlo : os.lo ≤ os.brk)
    (hroom : os.brk + (HDR + align8 n1) + (HDR + align8 n2) + (HDR + align8 n3) ≤ os.hi)
    (hhi : os.hi < 9223372036854775808)
    (ra : ff_malloc (fresh os) n1 = (a, sa)) (rb : ff_malloc sa n2 = (b, sb))
    (rc : ff_malloc sb n3 = (c, sc)) :
    (bf_malloc (fresh os) n1 = (a, sa) ∧ bf_malloc sa n2 = (b, sb) ∧
      bf_malloc sb n3 = (c, sc)) ∧
    (a = os.brk + HDR ∧ b = a + align8 n1 + HDR ∧ c = b + align8 n2 + HDR) ∧
    ∀ x y z, (x, y, z) ∈ [(a, b, c), (a, c, b), (b, a, c), (b, c, a), (c, a, b), (c, b, a)] →
      (run sc [Op.ff_free x, Op.ff_free y, Op.ff_free z]).map (fun r => r.2.free_list) =
        some [⟨os.brk, align8 n1 + align8 n2 + align8 n3 + 2 * HDR, true⟩] := by
  obtain ⟨brk, lo, hi⟩ := os
  simp only at hbrk hlo hroom hhi
  simp only [fresh] at ra ⊢
  obtain ⟨ea, eba⟩ := malloc_grow_mk 0 0 brk lo hi [] n1 h1 hlo
    (by simp only [HDR] at *; omega) hhi
  rw [if_pos rfl] at ea eba
  rw [ea] at ra
  simp only [Prod.mk.injEq] at ra
  obtain ⟨ra1, ra2⟩ := ra
  subst ra1 ra2
  obtain ⟨eb, ebb⟩ := malloc_grow_mk brk (brk + HDR + align8 n1) (brk + HDR + align8 n1) lo hi
    [⟨brk, align8 n1, false⟩] n2 h2 (by omega) (by simp only [HDR] at *; omega) hhi
  rw [if_neg (by omega)] at eb ebb
  rw [eb] at rb
  simp only [Prod.mk.injEq] at rb
  obtain ⟨rb1, rb2⟩ := rb
  subst rb1 rb2
  obtain ⟨ec, ebc⟩ := malloc_grow_mk brk (brk + HDR + align8 n1 + HDR + align8 n2)
    (brk + HDR + align8 n1 + HDR + align8 n2) lo hi
    [⟨brk + HDR + align8 n1, align8 n2, false⟩, ⟨brk, align8 n1, false⟩] n3 h3 (by omega)
    (by simp only [HDR] at *; omega) hhi
  rw [if_neg (by omega)] at ec ebc
  rw [ec] at rc
  simp only [Prod.mk.injEq] at rc
  obtain ⟨rc1, rc2⟩ := rc
  subst rc1 rc2
  refine ⟨⟨eba, ebb, ebc⟩, ⟨rfl, by omega, by omega⟩, ?_⟩
  have hW : brk + HDR + align8 n1 + HDR + align8 n2 + HDR + align8 n3 < WORD := by
    simp only [WORD, HDR] at *; omega
  obtain ⟨l1, l2, l3, l4, l5, l6⟩ := three_way_list brk (align8 n1) (align8 n2) (align8 n3) hW
  have w1 := wsub_payload brk (by simp only [WORD, HDR] at *; omega)
  have w2 := wsub_payload (brk + HDR + align8 n1) (by simp only [WORD, HDR] at *; omega)
  have w3 := wsub_payload (brk + HDR + align8 n1 + HDR + align8 n2)
    (by simp only [WORD, HDR] at *; omega)
  intro x y z hxyz
  simp only [List.mem_cons, Prod.mk.injEq, List.mem_singleton, List.not_mem_nil, or_false] at hxyz
  simp only [HDR, WORD] at *
  rcases hxyz with h | h | h | h | h | h <;>
  · obtain ⟨hx, hy, hz⟩ := h
    subst hx hy hz
    simp (disch := omega) only [run, step, ff_free, w1, w2, w3, lookup, forget, if_pos, if_neg,
      if_true, if_false, Option.map, Option.toList, List.nil_append, List.append_nil,
      l1, l2, l3, l4, l5, l6]

/-- Witness of C8: three allocations of 64 bytes, freed in the order a, c, b, leave one
block of size `3 · 64 + 2 · 24` at the initial break. -/
theorem three_way_coalescing_witness :
    (run ⟨[], 4096, 4360, ⟨4360, 4096, 1048576⟩,
        [⟨4272, 64, false⟩, ⟨4184, 64, false⟩, ⟨4096, 64, false⟩]⟩
      [Op.ff_free 4120, Op.ff_free 4296, Op.ff_free 4208]).map (fun r => r.2.free_list) =
      some [⟨4096, 3 * 64 + 2 * 24, true⟩] :=
  (three_way_coalescing ⟨4096, 4096, 1048576⟩ 64 64 64 4120 4208 4296
    ⟨[], 4096, 4184, ⟨4184, 4096, 1048576⟩, [⟨4096, 64, false⟩]⟩
    ⟨[], 4096, 4272, ⟨4272, 4096, 1048576⟩, [⟨4184, 64, false⟩, ⟨4096, 64, false⟩]⟩
    ⟨[], 4096, 4360, ⟨4360, 4096, 1048576⟩,
      [⟨4272, 64, false⟩, ⟨4184, 64, false⟩, ⟨4096, 64, false⟩]⟩
    (by decide) (by decide) (by decide) (by decide) (by decide) (by decide) (by decide)
    (by decide) (by decide) (by decide)).2.2 4120 4296 4208 (by decide)

/-! ## C9: Exact reuse -/

/-- C9 (violated by the code). On a fresh allocator the sequence
`p1 = bf_malloc(n)`, `p2 = bf_malloc(n)`, `bf_free(p1)`, `p3 = bf_malloc(n)` with
`n = 2^64 - 8` yields `p1 = 4120`, `p2 = 4136`, `p3 = 4120`: the block is reused, but
the test `b->size < need + sizeof(BlockHeader) + 8` of `maybe_split` wraps to
`b->size < 24`, so the third allocation does split, and the free list is not empty
afterwards: it holds a block at `4112` that claims `2^64 - 24` bytes. -/
theorem bf_exact_reuse_splits_on_overflow :
    run (fresh ⟨4096, 4096, 1048576⟩)
        [Op.bf_malloc 18446744073709551608, Op.bf_malloc 18446744073709551608,
          Op.bf_free 4120] =
      some ([4120, 4136],
        { free_list := [⟨4096, 18446744073709551608, true⟩], heap_start := 4096,
          heap_end := 4128, os := ⟨4128, 4096, 1048576⟩,
          used := [⟨4112, 18446744073709551608, false⟩] }) ∧
    run (fresh ⟨4096, 4096, 1048576⟩)
        [Op.bf_malloc 18446744073709551608, Op.bf_malloc 18446744073709551608,
          Op.bf_free 4120, Op.bf_malloc 18446744073709551608] =
      some ([4120, 4136, 4120],
        { free_list := [⟨4112, 18446744073709551592, true⟩], heap_start := 4096,
          heap_end := 4128, os := ⟨4128, 4096, 1048576⟩,
          used := [⟨4096, 18446744073709551608, false⟩,
            ⟨4112, 18446744073709551608, false⟩] }) := by
  decide

/-! ## C10: Split leaves the tail as the only free block -/

/-- C10, as stated, fails: when the data segment has room for 64 bytes but not for
4096, `p1 = ff_malloc(4096)` is `NULL`, `ff_free(p1)` does nothing and
`p2 = ff_malloc(64)` is `4120`: `p2 ≠ p1`, the free list is empty and the free-space
query returns 0, although `align8(4096) ≥ align8(64) + header size + 8`. -/
theorem split_scenario_fails_without_room :
    align8 64 + HDR + 8 ≤ align8 4096 ∧
    ff_malloc (fresh ⟨4096, 4096, 4296⟩) 4096 = (0, fresh ⟨4096, 4096, 4296⟩) ∧
    ff_free (fresh ⟨4096, 4096, 4296⟩) 0 = some (fresh ⟨4096, 4096, 4296⟩) ∧
    ff_malloc (fresh ⟨4096, 4096, 4296⟩) 64 =
      (4120, ⟨[], 4096, 4184, ⟨4184, 4096, 4296⟩, [⟨4096, 64, false⟩]⟩) ∧
    get_data_segment_free_space_size
      ⟨[], 4096, 4184, ⟨4184, 4096, 4296⟩, [⟨4096, 64, false⟩]⟩ = 0 := by
  decide

/-- C10, amended. Split leaves the tail as the only free block. On a fresh allocator,
for all sizes `S`, `N > 0` with `align8(S) ≥ align8(N) + header size + 8` such that the
data segment has room for the block of `S` (the growth primitive grants
`header size + align8(S)` bytes): the first allocation `p1 = alloc(S)` succeeds, and
`free(p1)` followed by `p2 = alloc(N)` yields `p2 = p1`, a free list of exactly one
block, the tail at `p1 + align8(N)`, and `get_data_segment_free_space_size()` equal to
`align8(S) − align8(N) − header size`; with `ff_malloc` / `ff_free` and with
`bf_malloc` / `bf_free` alike (they go through the same states). -/
theorem split_leaves_tail (os : OS) (S N p1 : Nat) (s1 : State) (hS : S ≠ 0) (hN : N ≠ 0)
    (hbig : align8 N + HDR + 8 ≤ align8 S) (hlo : os.lo ≤ os.brk)
    (hroom : os.brk + HDR + align8 S ≤ os.hi) (hhi : os.hi < 9223372036854775808)
    (r1 : ff_malloc (fresh os) S = (p1, s1)) :
    p1 ≠ 0 ∧ bf_malloc (fresh os) S = (p1, s1) ∧
    ∃ s2, ff_free s1 p1 = some s2 ∧ bf_free s1 p1 = some s2 ∧
      (ff_malloc s2 N).1 = p1 ∧
      (ff_malloc s2 N).2.free_list =
        [⟨p1 + align8 N, align8 S - align8 N - HDR, true⟩] ∧
      get_data_segment_free_space_size (ff_malloc s2 N).2 = align8 S - align8 N - HDR ∧
      bf_malloc s2 N = ff_malloc s2 N := by
  obtain ⟨e1, e2⟩ := malloc_grow (fresh os) S rfl hS hlo hroom hhi
  rw [e1] at e2
  rw [e1] at r1
  simp only [Prod.mk.injEq, fresh] at r1
  obtain ⟨r11, r12⟩ := r1
  refine ⟨by rw [← r11]; simp only [HDR]; omega, by rw [e2, ← r11, ← r12]; rfl, ?_⟩
  have hw : wsub p1 HDR = os.brk := by
    rw [← r11]; exact wsub_payload _ (by simp only [WORD, HDR] at *; omega)
  have hf : ff_free s1 p1 = some
      { s1 with free_list := [⟨os.brk, align8 S, true⟩], used := [] } := by
    unfold ff_free
    rw [if_neg (by rw [← r11]; simp only [HDR]; omega), hw, ← r12]
    simp only [lookup, forget, if_true, ff_free_list, coalesce_around]
  refine ⟨_, hf, hf, ?_⟩
  have hmod : (align8 N + HDR + 8) % WORD = align8 N + HDR + 8 :=
    Nat.mod_eq_of_lt (by simp only [WORD, HDR] at *; omega)
  have hsz : wsub (wsub (align8 S) (align8 N)) HDR = align8 S - align8 N - HDR := by
    unfold wsub; simp only [WORD, HDR] at *; omega
  have hpay : (⟨os.brk, align8 S, false⟩ : BlockHeader).payload = p1 := by
    rw [← r11]; unfold BlockHeader.payload
    exact Nat.mod_eq_of_lt (by simp only [WORD, HDR] at *; omega)
  have hnb : (p1 + align8 N) % WORD = p1 + align8 N :=
    Nat.mod_eq_of_lt (by rw [← r11]; simp only [WORD, HDR] at *; omega)
  have hnbp : ((p1 + align8 N) % WORD + HDR) % WORD ≠ 0 := by
    rw [← r11]; simp only [WORD, HDR] at *; omega
  have hsplit : maybe_split [] ⟨os.brk, align8 S, false⟩ (align8 N) =
      (⟨os.brk, align8 N, false⟩,
        [⟨p1 + align8 N, align8 S - align8 N - HDR, true⟩]) := by
    rw [maybe_split_split _ _ _ (by rw [hmod]; show ¬ align8 S < _; omega)
      (by rw [hpay]; exact hnbp)]
    simp only [hsz, hpay, hnb, ff_free_list, coalesce_around]
  have hfit : ff_search [⟨os.brk, align8 S, true⟩] (align8 N) =
      some ⟨os.brk, align8 S, true⟩ := by
    unfold ff_search
    rw [if_pos ⟨rfl, by show align8 N ≤ align8 S; omega⟩]
  have hm : ff_malloc { s1 with free_list := [⟨os.brk, align8 S, true⟩], used := [] } N =
      (p1, { s1 with
        free_list := [⟨p1 + align8 N, align8 S - align8 N - HDR, true⟩]
        used := [⟨os.brk, align8 N, false⟩] }) := by
    rw [ff_malloc_hit _ N _ hN hfit]
    simp only [remove_from_free_list, if_true, hsplit]
    rw [← hpay]; rfl
  have hlt : align8 S < SIZE_MAX := by
    have := align8_mod S; have := align8_lt S; simp only [WORD, SIZE_MAX] at *; omega
  have hbs : bf_search [⟨os.brk, align8 S, true⟩] (align8 N) none SIZE_MAX =
      (some ⟨os.brk, align8 S, true⟩, align8 S) := by
    have hne : ¬ align8 S = align8 N := by simp only [HDR] at *; omega
    have hge : align8 S ≥ align8 N := by omega
    unfold bf_search
    simp only [hge, and_self, if_true, gt_iff_lt, if_pos hlt, if_neg hne, bf_search]
  have hbm : bf_malloc { s1 with free_list := [⟨os.brk, align8 S, true⟩], used := [] } N =
      (p1, { s1 with
        free_list := [⟨p1 + align8 N, align8 S - align8 N - HDR, true⟩]
        used := [⟨os.brk, align8 N, false⟩] }) := by
    rw [bf_malloc_hit _ N ⟨os.brk, align8 S, true⟩ hN (by rw [hbs]) (by rw [hbs]; exact hlt)]
    simp only [remove_from_free_list, if_true, hsplit]
    rw [← hpay]; rfl
  rw [hm, hbm]
  refine ⟨rfl, rfl, ?_, rfl⟩
  simp only [get_data_segment_free_space_size, List.foldl, if_true, Nat.zero_add]
  exact Nat.mod_eq_of_lt (by have := align8_lt S; omega)

/-- Witness of the amended C10: `alloc(4096)`, `free`, `alloc(64)` on a fresh allocator
whose data segment has room. -/
theorem split_leaves_tail_witness :
    4120 ≠ 0 ∧
    bf_malloc (fresh ⟨4096, 4096, 1048576⟩) 4096 =
      (4120, ⟨[], 4096, 8216, ⟨8216, 4096, 1048576⟩, [⟨4096, 4096, false⟩]⟩) ∧
    ∃ s2, ff_free ⟨[], 4096, 8216, ⟨8216, 4096, 1048576⟩, [⟨4096, 4096, false⟩]⟩ 4120 =
        some s2 ∧
      bf_free ⟨[], 4096, 8216, ⟨8216, 4096, 1048576⟩, [⟨4096, 4096, false⟩]⟩ 4120 =
        some s2 ∧
      (ff_malloc s2 64).1 = 4120 ∧
      (ff_malloc s2 64).2.free_list =
        [⟨4120 + align8 64, align8 4096 - align8 64 - HDR, true⟩] ∧
      get_data_segment_free_space_size (ff_malloc s2 64).2 = align8 4096 - align8 64 - HDR ∧
      bf_malloc s2 64 = ff_malloc s2 64 :=
  split_leaves_tail ⟨4096, 4096, 1048576⟩ 4096 64 4120
    ⟨[], 4096, 8216, ⟨8216, 4096, 1048576⟩, [⟨4096, 4096, false⟩]⟩
    (by decide) (by decide) (by decide) (by decide) (by decide) (by decide) (by decide)

/-! ## C11: Accounting of the data segment -/

/-- C11 (violated by the code). `request_from_os` computes
`sizeof(BlockHeader) + payload` in `size_t` and `record_heap_bounds` adds it to a
pointer, so the value of `get_data_segment_size` is not the sum of
`header size + payload` over the blocks obtained by growth. On a fresh allocator:
* one `ff_malloc(2^64 - 8)` returns 4120 and gives 16, not
  `header size + align8(n) = 2^64 + 16`;
* `ff_malloc(64)`, `ff_malloc(2^64 - 48)` return 4120 and 4208 and give 64, where the
  sum over the two blocks is `2^64 + 64`;
* `ff_malloc(8)`, `ff_malloc(2^64 - 64)`, `ff_malloc(8)` return 4120, 4152, 4152 and
  give 64, where the sum over the three blocks is `2^64 + 24` (the second call hands a
  negative increment to `sbrk`, which leaves the break at 4128).

The witness of the claim holds: one `ff_malloc(1000)` gives `header size + 1000`. -/
theorem data_segment_size_differs_from_growth_sum :
    ((run (fresh ⟨4096, 4096, 1048576⟩) [Op.ff_malloc 18446744073709551608]).map
        (fun r => (r.1, get_data_segment_size r.2)) = some ([4120], 16) ∧
      growth_log (fresh ⟨4096, 4096, 1048576⟩) [Op.ff_malloc 18446744073709551608] =
        [18446744073709551608] ∧
      log_bytes [18446744073709551608] = 18446744073709551632 ∧
      HDR + align8 18446744073709551608 = 18446744073709551632) ∧
    ((run (fresh ⟨4096, 4096, 1048576⟩)
          [Op.ff_malloc 64, Op.ff_malloc 18446744073709551568]).map
        (fun r => (r.1, get_data_segment_size r.2)) = some ([4120, 4208], 64) ∧
      growth_log (fresh ⟨4096, 4096, 1048576⟩)
          [Op.ff_malloc 64, Op.ff_malloc 18446744073709551568] =
        [64, 18446744073709551568] ∧
      log_bytes [64, 18446744073709551568] = 18446744073709551680) ∧
    ((run (fresh ⟨4096, 4096, 1048576⟩)
          [Op.ff_malloc 8, Op.ff_malloc 18446744073709551552, Op.ff_malloc 8]).map
        (fun r => (r.1, get_data_segment_size r.2, r.2.os.brk)) =
        some ([4120, 4152, 4152], 64, 4160) ∧
      growth_log (fresh ⟨4096, 4096, 1048576⟩)
          [Op.ff_malloc 8, Op.ff_malloc 18446744073709551552, Op.ff_malloc 8] =
        [8, 18446744073709551552, 8] ∧
      log_bytes [8, 18446744073709551552, 8] = 18446744073709551640 ∧
      18446744073709551640 % WORD = 24) ∧
    ((run (fresh ⟨4096, 4096, 1048576⟩) [Op.ff_malloc 1000]).map
        (fun r => (r.1, get_data_segment_size r.2)) = some ([4120], HDR + 1000) ∧
      log_bytes (growth_log (fresh ⟨4096, 4096, 1048576⟩) [Op.ff_malloc 1000]) =
        HDR + 1000) := by
  exact ⟨⟨by decide, by decide, by decide, by decide⟩, ⟨by decide, by decide, by decide⟩,
    ⟨by decide, by decide, by decide, by decide⟩, ⟨by decide, by decide⟩⟩

/-! ## C12: The data segment never shrinks -/

/-- C12 (violated by the code). `request_from_os` passes `(intptr_t)total` to `sbrk`
without a range check. After `ff_malloc(64)` on a fresh allocator (data segment size
`88`), the call `ff_malloc(2^64 - 48)` computes `total = 2^64 - 24`, the increment
`(intptr_t)total` is `-24`, `sbrk` moves the break down from `4184` to `4160`, the call
returns the non-null pointer `4208` and `get_data_segment_size` drops from `88` to
`64`. `bf_malloc`, `ts_malloc_lock` and `ts_malloc_nolock` do the same. -/
theorem negative_increment_shrinks_data_segment :
    toIntptr ((HDR + align8 18446744073709551568) % WORD) = -24 ∧
    run (fresh ⟨4096, 4096, 1048576⟩) [Op.ff_malloc 64] =
      some ([4120], ⟨[], 4096, 4184, ⟨4184, 4096, 1048576⟩, [⟨4096, 64, false⟩]⟩) ∧
    get_data_segment_size ⟨[], 4096, 4184, ⟨4184, 4096, 1048576⟩, [⟨4096, 64, false⟩]⟩ = 88 ∧
    ff_malloc ⟨[], 4096, 4184, ⟨4184, 4096, 1048576⟩, [⟨4096, 64, false⟩]⟩
        18446744073709551568 =
      (4208, ⟨[], 4096, 4160, ⟨4160, 4096, 1048576⟩,
        [⟨4184, 18446744073709551568, false⟩, ⟨4096, 64, false⟩]⟩) ∧
    bf_malloc ⟨[], 4096, 4184, ⟨4184, 4096, 1048576⟩, [⟨4096, 64, false⟩]⟩
        18446744073709551568 =
      (4208, ⟨[], 4096, 4160, ⟨4160, 4096, 1048576⟩,
        [⟨4184, 18446744073709551568, false⟩, ⟨4096, 64, false⟩]⟩) ∧
    get_data_segment_size ⟨[], 4096, 4160, ⟨4160, 4096, 1048576⟩,
        [⟨4184, 18446744073709551568, false⟩, ⟨4096, 64, false⟩]⟩ = 64 ∧
    Project2.get_data_segment_size
        (Project2.ts_malloc_lock (Project2.fresh ⟨4096, 4096, 1048576⟩) 64).2 = 88 ∧
    (Project2.ts_malloc_lock
        (Project2.ts_malloc_lock (Project2.fresh ⟨4096, 4096, 1048576⟩) 64).2
        18446744073709551568).1 = 4208 ∧
    Project2.get_data_segment_size
        (Project2.ts_malloc_lock
          (Project2.ts_malloc_lock (Project2.fresh ⟨4096, 4096, 1048576⟩) 64).2
          18446744073709551568).2 = 64 ∧
    Project2.get_data_segment_size
        (Project2.ts_malloc_nolock (Project2.fresh ⟨4096, 4096, 1048576⟩) 0 64).2 = 88 ∧
    (Project2.ts_malloc_nolock
        (Project2.ts_malloc_nolock (Project2.fresh ⟨4096, 4096, 1048576⟩) 0 64).2 0
        18446744073709551568).1 = 4208 ∧
    Project2.get_data_segment_size
        (Project2.ts_malloc_nolock
          (Project2.ts_malloc_nolock (Project2.fresh ⟨4096, 4096, 1048576⟩) 0 64).2 0
          18446744073709551568).2 = 64 := by
  decide

/-! ## C13: Out of memory in the single-list allocators -/

/-- C13. When no block of the free list has size at least `align8(size)` and the
growth primitive fails (`sbrk(0)` or `sbrk((intptr_t)total)` answers `(void *)-1`),
`ff_malloc`, `bf_malloc` and `ts_malloc_lock` return `NULL` and leave the whole state as
it was: the free list, `heap_start`, `heap_end`, and everything else. -/
theorem out_of_memory_is_atomic :
    (∀ (s : State) (size : Nat), (∀ b ∈ s.free_list, b.size < align8 size) →
      ((sbrk s.os 0).1 = none ∨
        (sbrk s.os (toIntptr ((HDR + align8 size) % WORD))).1 = none) →
      ff_malloc s size = (0, s) ∧ bf_malloc s size = (0, s)) ∧
    (∀ (s : Project2.State) (size : Nat),
      (∀ b ∈ s.free_list, b.size < Project2.align8 size) →
      ((sbrk s.os 0).1 = none ∨
        (sbrk s.os (toIntptr ((HDR + Project2.align8 size) % WORD))).1 = none) →
      Project2.ts_malloc_lock s size = (0, s)) := by
  refine ⟨?_, ?_⟩
  · intro s size hfit hfail
    by_cases h0 : size = 0
    · subst h0; exact ⟨rfl, rfl⟩
    · constructor
      · unfold ff_malloc
        rw [if_neg h0]
        simp only [ff_search_miss _ _ hfit, request_from_os_fail s _ hfail]
      · unfold bf_malloc
        rw [if_neg h0]
        simp only [bf_search_miss _ _ hfit, request_from_os_fail s _ hfail]
        simp
  · intro s size hfit hfail
    by_cases h0 : size = 0
    · subst h0; rfl
    · unfold Project2.ts_malloc_lock
      rw [if_neg h0]
      simp only [Project2.find_best_fit_list_miss _ _ hfit,
        Project2.ts_request_from_os_fail s _ hfail]

theorem out_of_memory_is_atomic_witness :
    ff_malloc ⟨[⟨4096, 8, true⟩], 4096, 4128, ⟨4128, 4096, 4128⟩, []⟩ 64 =
        (0, ⟨[⟨4096, 8, true⟩], 4096, 4128, ⟨4128, 4096, 4128⟩, []⟩) ∧
      bf_malloc ⟨[⟨4096, 8, true⟩], 4096, 4128, ⟨4128, 4096, 4128⟩, []⟩ 64 =
        (0, ⟨[⟨4096, 8, true⟩], 4096, 4128, ⟨4128, 4096, 4128⟩, []⟩) :=
  out_of_memory_is_atomic.1 ⟨[⟨4096, 8, true⟩], 4096, 4128, ⟨4128, 4096, 4128⟩, []⟩ 64
    (by decide) (by decide)

end MyMalloc

namespace Project2

open MyMalloc (BlockHeader OS HDR WORD SIZE_MAX toIntptr sbrk lookup forget wsub)

/-! ## C14: Out of memory in the lock-free-reclamation variant -/

/-- C15. In every state the allocation functions called with size `0` return `NULL`
and the free functions called with `NULL` return, and the state after the call is the
state before it; `ts_malloc_nolock(0)` leaves the reclamation stack alone. -/
theorem degenerate_calls_are_no_ops :
    (∀ s : MyMalloc.State,
      MyMalloc.ff_malloc s 0 = (0, s) ∧ MyMalloc.bf_malloc s 0 = (0, s) ∧
      MyMalloc.ff_free s 0 = some s ∧ MyMalloc.bf_free s 0 = some s) ∧
    (∀ (s : State) (t : Nat),
      ts_malloc_lock s 0 = (0, s) ∧ ts_malloc_nolock s t 0 = (0, s) ∧
      ts_free_lock s 0 = some s ∧ ts_free_nolock s 0 = some s ∧
      (ts_malloc_nolock s t 0).2.global_reclaim = s.global_reclaim ∧
      (ts_malloc_nolock s t 0).2.tls_free_list = s.tls_free_list) :=
  ⟨fun _ => ⟨rfl, rfl, rfl, rfl⟩, fun _ _ => ⟨rfl, rfl, rfl, rfl, rfl, rfl⟩⟩

/-! ## C16: Free in the lock-free-reclamation variant -/

namespace Mem

/-- C16 (violated by the code). On a fresh allocator (break 4096) thread 0 calls
`ts_malloc_nolock(2^64 - 8)`, `ts_malloc_nolock(8)`, `ts_free_nolock(4136)`,
`ts_malloc_nolock(64)`; the calls return 4120, 4136 and 4168. For the first call
`sizeof(BlockHeader) + payload` wraps to 16, so the break moves to 4112 and the second
header is written at 4112, over the `next` field of the first. After the four calls
the block at 4096 is in use, the list of thread 0 is the one node at 4112, of size 8,
and the stack is empty (first part, in the record model; second part, the same lists
read from the memory). Then `ts_free_nolock(4120)` frees the block at 4096: its store
`b->next = NULL` goes to the 8 bytes at 4112, the `size` field of the list node, and
the list of thread 0 is not what it was: its node has size 0 (third part). -/
theorem nolock_free_rewrites_list_node :
    (Project2.run (Project2.fresh ⟨4096, 4096, 1048576⟩)
        [.ts_malloc_nolock 0 18446744073709551608, .ts_malloc_nolock 0 8,
          .ts_free_nolock 4136, .ts_malloc_nolock 0 64]).map
        (fun r => (r.1, r.2.tls_free_list 0, r.2.global_reclaim, r.2.used)) =
      some ([4120, 4136, 4168], [⟨4112, 8, true⟩], [],
        [⟨4144, 64, false⟩, ⟨4096, 18446744073709551608, false⟩]) ∧
    (run 8 (fresh ⟨4096, 4096, 1048576⟩)
        [.ts_malloc_nolock 0 18446744073709551608, .ts_malloc_nolock 0 8,
          .ts_free_nolock 4136, .ts_malloc_nolock 0 64]).map
        (fun r => (r.1, nodes r.2 (r.2.tls_free_list 0) 8,
          nodes r.2 r.2.global_reclaim 8)) =
      some ([4120, 4136, 4168], some [⟨4112, 8, true⟩], some []) ∧
    (run 8 (fresh ⟨4096, 4096, 1048576⟩)
        [.ts_malloc_nolock 0 18446744073709551608, .ts_malloc_nolock 0 8,
          .ts_free_nolock 4136, .ts_malloc_nolock 0 64]).map
        (fun r => (nodes (ts_free_nolock r.2 4120) ((ts_free_nolock r.2 4120).tls_free_list 0) 8,
          nodes (ts_free_nolock r.2 4120) (ts_free_nolock r.2 4120).global_reclaim 8)) =
      some (some [⟨4112, 0, true⟩], some [⟨4096, 18446744073709551608, true⟩]) := by
  refine ⟨by decide, ?_, ?_⟩
  · apply @of_decide_eq_true _ (decEq _ _)
    decide!
  · apply @of_decide_eq_true _ (decEq _ _)
    decide!

end Mem

/-! ## C17: The drain is bounded -/

namespace Mem

/-- C18 (violated by the code). On a fresh allocator (break 4096) the calls
`ts_malloc_lock(2^64 - 8)`, `ts_malloc_lock(8)`, `ts_free_lock(4136)` return 4120 and
4136 and leave the global free list with the one node at 4112, of size 8:
`get_data_segment_free_space_size()` is 8 (first part, in the record model; second
part, read from the memory). The header of the first block, at 4096, got only 16
bytes from `sbrk`, so its `next` field is the `size` field of the node at 4112. Then
`ts_free_nolock(4120)` stores `NULL` there: the node of the global free list has size
0 and `get_data_segment_free_space_size()` is 0 after the call (third part). -/
theorem nolock_free_changes_free_space_query :
    (Project2.run (Project2.fresh ⟨4096, 4096, 1048576⟩)
        [.ts_malloc_lock 18446744073709551608, .ts_malloc_lock 8, .ts_free_lock 4136]).map
        (fun r => (r.1, r.2.free_list, Project2.get_data_segment_free_space_size r.2,
          r.2.used)) =
      some ([4120, 4136], [⟨4112, 8, true⟩], 8, [⟨4096, 18446744073709551608, false⟩]) ∧
    (run 8 (fresh ⟨4096, 4096, 1048576⟩)
        [.ts_malloc_lock 18446744073709551608, .ts_malloc_lock 8, .ts_free_lock 4136]).map
        (fun r => (r.1, nodes r.2 r.2.free_list 8, get_data_segment_free_space_size r.2 8)) =
      some ([4120, 4136], some [⟨4112, 8, true⟩], some 8) ∧
    (run 8 (fresh ⟨4096, 4096, 1048576⟩)
        [.ts_malloc_lock 18446744073709551608, .ts_malloc_lock 8, .ts_free_lock 4136]).map
        (fun r => (nodes (ts_free_nolock r.2 4120) (ts_free_nolock r.2 4120).free_list 8,
          get_data_segment_free_space_size (ts_free_nolock r.2 4120) 8)) =
      some (some [⟨4112, 0, true⟩], some 0) := by
  refine ⟨by decide, ?_, ?_⟩
  · apply @of_decide_eq_true _ (decEq _ _)
    decide!
  · apply @of_decide_eq_true _ (decEq _ _)
    decide!

end Mem

/-! ## C19: The reclamation stack under concurrent pushes and pops -/

/-- C19 (violated by the code). The interleaving described in the claim, on the code
of `reclaim_push` and `reclaim_pop`. Thread `0` builds the stack `4096, 4128`. Thread
`1` enters `reclaim_pop` and reads `old = 4096`, `next = 4128`. Thread `2` pops `4096`,
pops `4128`, finds the stack empty and pushes `4096` again: the stack is `4096` alone
and the block at `4128` is held by thread `2`. The compare-and-swap of thread `1` finds
`global_reclaim = 4096` and succeeds: `global_reclaim` becomes `4128`, a block that
thread `2` holds and that nobody pushed again. Thread `1` goes on and `reclaim_pop`
returns the block at `4128` to it as well: both threads have been given the block. -/
theorem aba_corrupts_reclamation_stack :
    chain (exec aba_start (aba_schedule.take 8)).mem 4
        (exec aba_start (aba_schedule.take 8)).mem.global_reclaim = [4096, 4128] ∧
    (exec aba_start (aba_schedule.take 11)).threads 1 =
      ⟨some (.pop_cas 4096 4128), [.pop, .pop], []⟩ ∧
    (exec aba_start (aba_schedule.take 27)).threads 2 = ⟨none, [], [0, 4128, 4096]⟩ ∧
    chain (exec aba_start (aba_schedule.take 27)).mem 4
        (exec aba_start (aba_schedule.take 27)).mem.global_reclaim = [4096] ∧
    (exec aba_start aba_schedule).mem.global_reclaim = 4128 ∧
    (exec aba_start aba_schedule).threads 1 = ⟨some (.pop_clear 4096), [.pop, .pop], []⟩ ∧
    (exec aba_start aba_schedule).threads 2 = ⟨none, [], [0, 4128, 4096]⟩ ∧
    (exec aba_start (aba_schedule ++ aba_rest)).threads 1 = ⟨none, [], [0, 4128, 4096]⟩ ∧
    (exec aba_start (aba_schedule ++ aba_rest)).threads 2 = ⟨none, [], [0, 4128, 4096]⟩ ∧
    (exec aba_start (aba_schedule ++ aba_rest)).mem.global_reclaim = 0 := by
  decide

/-! ## C20: The locked variant is the single-threaded best-fit allocator -/

/-- C20. On every state whose global free list consists of blocks of the address space,
`ts_malloc_lock` returns the pointer that `bf_malloc` of `src/my_malloc.c` returns on
the same free list, heap bounds, break and handed-out blocks, and leaves the same
state; `ts_free_lock` does what `bf_free` does, on every state; the lists of the
threads and the reclamation stack are not touched. The helpers agree: the result of
`find_best_fit_list` is the `best` of the loop of `bf_malloc`, which is set exactly when
`best_size < SIZE_MAX`; `remove_from_list` is `remove_from_free_list`;
`insert_free_sorted_list` is the body of `ff_free`; `maybe_split_into_list` is
`maybe_split` on a fitting block of the address space. -/
theorem locked_variant_is_best_fit :
    (∀ (s : State) (size : Nat), (∀ b ∈ s.free_list, MyMalloc.InSpace b) →
      (ts_malloc_lock s size).1 = (MyMalloc.bf_malloc s.single size).1 ∧
      (ts_malloc_lock s size).2.single = (MyMalloc.bf_malloc s.single size).2 ∧
      (ts_malloc_lock s size).2.tls_free_list = s.tls_free_list ∧
      (ts_malloc_lock s size).2.global_reclaim = s.global_reclaim) ∧
    (∀ (s : State) (ptr : Nat),
      (ts_free_lock s ptr).map State.single = MyMalloc.bf_free s.single ptr ∧
      (ts_free_lock s ptr).map (fun s1 => s1.global_reclaim) =
        (MyMalloc.bf_free s.single ptr).map (fun _ => s.global_reclaim) ∧
      (ts_free_lock s ptr).map (fun s1 => s1.tls_free_list) =
        (MyMalloc.bf_free s.single ptr).map (fun _ => s.tls_free_list)) ∧
    (∀ (l : List BlockHeader) (need : Nat),
      find_best_fit_list l need = (MyMalloc.bf_search l need none SIZE_MAX).1 ∧
      ((MyMalloc.bf_search l need none SIZE_MAX).2 < SIZE_MAX ↔
        (find_best_fit_list l need).isSome)) ∧
    (∀ (l : List BlockHeader) (a : Nat),
      remove_from_list l a = MyMalloc.remove_from_free_list l a) ∧
    (∀ (l : List BlockHeader) (b : BlockHeader),
      insert_free_sorted_list l b = MyMalloc.ff_free_list l b) ∧
    (∀ (l : List BlockHeader) (b : BlockHeader) (need : Nat), MyMalloc.InSpace b →
      need ≤ b.size → maybe_split_into_list b need l = MyMalloc.maybe_split l b need) := by
  have hfind : ∀ (l : List BlockHeader) (need : Nat),
      find_best_fit_list l need = (MyMalloc.bf_search l need none SIZE_MAX).1 ∧
      ((MyMalloc.bf_search l need none SIZE_MAX).2 < SIZE_MAX ↔
        (find_best_fit_list l need).isSome) := by
    intro l need
    have e : find_best_fit_list l need = (MyMalloc.bf_search l need none SIZE_MAX).1 :=
      find_best_fit_loop_eq l need none SIZE_MAX
    refine ⟨e, ?_⟩
    rw [e]
    exact (MyMalloc.bf_search_set l need none SIZE_MAX (Nat.le_refl _) (by simp)).1.symm
  refine ⟨?_, ?_, hfind, remove_from_list_eq, insert_free_sorted_list_eq,
    fun l b need hb hn => maybe_split_into_list_eq_inSpace b need l hb hn⟩
  · intro s size hsp
    by_cases h0 : size = 0
    · subst h0; exact ⟨rfl, rfl, rfl, rfl⟩
    · obtain ⟨f1, f2⟩ := hfind s.free_list (align8 size)
      cases hf : find_best_fit_list s.free_list (align8 size) with
      | some best =>
        have hlt : (MyMalloc.bf_search s.single.free_list (MyMalloc.align8 size) none
            SIZE_MAX).2 < SIZE_MAX := f2.mpr (by rw [hf]; rfl)
        have hb : (MyMalloc.bf_search s.single.free_list (MyMalloc.align8 size) none
            SIZE_MAX).1 = some best := by rw [← hf, f1]; rfl
        obtain ⟨m1, m2⟩ := find_best_fit_list_mem hf
        have hs : maybe_split_into_list { best with free := false } (align8 size)
            (MyMalloc.remove_from_free_list s.free_list best.addr) =
            MyMalloc.maybe_split (MyMalloc.remove_from_free_list s.free_list best.addr)
              { best with free := false } (align8 size) :=
          maybe_split_into_list_eq_inSpace _ _ _ (hsp best m1) m2.2
        rw [ts_malloc_lock_hit s size best h0 hf,
          MyMalloc.bf_malloc_hit s.single size best h0 hb hlt, hs]
        exact ⟨rfl, rfl, rfl, rfl⟩
      | none =>
        have hlt : ¬ (MyMalloc.bf_search s.single.free_list (MyMalloc.align8 size) none
            SIZE_MAX).2 < SIZE_MAX := by
          intro c
          have := f2.mp c
          rw [hf] at this
          simp at this
        obtain ⟨r1, r2, r3, r4⟩ := request_from_os_single s (align8 size)
        have e1 : ts_malloc_lock s size =
            (((request_from_os s (align8 size)).1.map BlockHeader.payload).getD 0,
              (request_from_os s (align8 size)).2) := by
          unfold ts_malloc_lock
          rw [if_neg h0]
          simp only [hf]
          cases request_from_os s (align8 size) with
          | mk r s1 => cases r <;> rfl
        have e2 : MyMalloc.bf_malloc s.single size =
            (((MyMalloc.request_from_os s.single (MyMalloc.align8 size)).1.map
                BlockHeader.payload).getD 0,
              (MyMalloc.request_from_os s.single (MyMalloc.align8 size)).2) := by
          unfold MyMalloc.bf_malloc
          rw [if_neg h0]
          simp only [if_neg hlt]
          cases MyMalloc.request_from_os s.single (MyMalloc.align8 size) with
          | mk r s1 => cases r <;> rfl
        rw [e1, e2]
        exact ⟨by rw [r1]; rfl, r2, r3, r4⟩
  · intro s ptr
    unfold ts_free_lock MyMalloc.bf_free MyMalloc.ff_free
    by_cases h0 : ptr = 0
    · rw [if_pos h0, if_pos h0]; exact ⟨rfl, rfl, rfl⟩
    · rw [if_neg h0, if_neg h0]
      have e : s.single.used = s.used := rfl
      rw [e]
      cases lookup s.used (wsub ptr HDR) with
      | none => exact ⟨rfl, rfl, rfl⟩
      | some b =>
        refine ⟨?_, rfl, rfl⟩
        simp only [Option.map_some', State.single, insert_free_sorted_list_eq]

theorem locked_variant_is_best_fit_witness :
    (ts_malloc_lock
      { free_list := [⟨4096, 128, true⟩, ⟨4400, 64, true⟩, ⟨4600, 256, true⟩],
        tls_free_list := fun _ => [], global_reclaim := [], heap_start := 4096,
        heap_end := 8192, os := ⟨8192, 4096, 1048576⟩, used := [] } 32).1 =
      (MyMalloc.bf_malloc
        (State.single
          { free_list := [⟨4096, 128, true⟩, ⟨4400, 64, true⟩, ⟨4600, 256, true⟩],
            tls_free_list := fun _ => [], global_reclaim := [], heap_start := 4096,
            heap_end := 8192, os := ⟨8192, 4096, 1048576⟩, used := [] }) 32).1 :=
  (locked_variant_is_best_fit.1
    { free_list := [⟨4096, 128, true⟩, ⟨4400, 64, true⟩, ⟨4600, 256, true⟩],
      tls_free_list := fun _ => [], global_reclaim := [], heap_start := 4096,
      heap_end := 8192, os := ⟨8192, 4096, 1048576⟩, used := [] } 32 (by decide)).1

end Project2
